import Mathlib

/-!
# fakedev-exporter: workload admission, simulation and workload life cycle

A shallow embedding of `cmd/fakedev-exporter` (`workloads.go`, `main.go`,
`devinfo.go`) and theorems about it.

Modelling conventions

* `time.Time` is an integer number of nanoseconds, `Time.Add` is integer
  addition and `Time.Before` is `<`.  `time.Duration` is an `int64` number of
  nanoseconds; the one place where the source adds durations (`total += seconds`)
  wraps to 64 bits (`wrapInt64`).
* `float64` is modelled twice.  `addWorkloadsToMetric`, `limitValue` and
  `runSimulation` compute with exact rationals (no rounding, infinities or
  NaN); they carry what involves no arithmetic or is stated for exact
  arithmetic.  Their counterparts with the suffix `IEEE` compute in float64:
  `Float64` holds the numbers, the two infinities and NaN, and every operation
  is rounded to the nearest float64, ties to even, with overflow and subnormal
  numbers; the sign of zero is not kept.
* A Go `map[int]bool` whose stored values are all `true` (the only kind this
  program builds) is an optional duplicate-free list of keys; `none` is the
  `nil` map.
* A `net.Conn` is a natural number naming the connection; `nil` is `none`.
  What the server does to connections is recorded as a list of `ConnEvent`s;
  what the peer answers (`Read` results) is an input.
* The package-level variables (`workload`, `device`, `connections`, `devinfo`)
  are passed explicitly.
* An index out of range (a Go run-time panic) makes the function return `none`.
* `log.Printf` output is not modelled, except that the warning chosen by
  `addWorkload` is kept as a `Reject` value.
-/

namespace FakedevExporter

/-! ## Constants -/

/-- Status byte sent when a workload has completed. -/
def wlExitOK : String := "0"

/-- Status byte sent when a workload is refused. -/
def wlExitError : String := "1"

/-- Capacity of the admission queue. -/
def wlMaxBatch : Nat := 16

/-- Nanoseconds in a second (`time.Second`). -/
def second : Int := 1000000000

/-- Nanoseconds in an hour (`time.Hour`). -/
def hour : Int := 3600 * second

/-- Two's complement wrap of an integer to the `int64` range. -/
def wrapInt64 (x : Int) : Int :=
  (x + 2 ^ 63) % 2 ^ 64 - 2 ^ 63

/-- The duration `time.ParseDuration(fmt.Sprintf("%ds", s))` yields with its
error dropped, for an unsigned `s`: the library refuses a count of seconds above
`(1 << 63) / 1e9` and the caller then keeps the zero duration. -/
def parseDurationSeconds (s : Nat) : Int :=
  if s > 2 ^ 63 / 1000000000 then 0 else (s : Int) * second

/-! ## Data model -/

/-- Segment of a workload descriptor: percents and seconds (`wlProfileT`). -/
structure wlProfileT where
  Load : Int
  Fluctuation : Int
  Seconds : Nat
deriving DecidableEq, Repr

/-- Parsed workload descriptor (`workloadInfoT`); `Limits` keeps only the
metric names, its values are never read. -/
structure workloadInfoT where
  Name : String
  Repeat : Nat
  Profile : List wlProfileT
  Devices : List String
  Limits : Option (List String)
deriving DecidableEq, Repr

/-- Segment of a stored workload: ratios, deadline and offset from the start of
the profile (`devProfileT`). -/
structure devProfileT where
  load : ℚ
  fluctuation : ℚ
  deadline : Int
  seconds : Int
deriving DecidableEq

/-- Stored workload (`workloadT`); `repeats` is the source's field `repeat`. -/
structure workloadT where
  name : String
  conn : Option Nat
  activity : Nat
  repeats : Nat
  profile : List devProfileT
  devmap : Option (List Nat)
deriving DecidableEq

/-- Metric limit (`limitT`). -/
structure limitT where
  Min : ℚ
  Max : ℚ
deriving DecidableEq

/-- What the server did to a connection. -/
inductive ConnEvent where
  | write (conn : Nat) (data : String)
  | close (conn : Nat)
deriving DecidableEq, Repr

/-- Outcome of the one-byte liveness read in `updateWorkloads`. -/
inductive ProbeResult where
  | deadlineExceeded
  | dataReceived
  | closed
  | otherError
deriving DecidableEq, Repr

/-- Value of `errors.Is(err, os.ErrDeadlineExceeded)` for a probe outcome. -/
def ProbeResult.isDeadlineExceeded : ProbeResult → Bool
  | .deadlineExceeded => true
  | _ => false

/-- Result of the bounded read in `acceptWorkloads`: byte count, whether an
error came back, and the buffer. -/
structure ReadResult where
  count : Int
  err : Bool
  data : List UInt8
deriving DecidableEq, Repr

/-- Warning with which `addWorkload` refuses a descriptor. -/
inductive Reject where
  | unmarshal
  | invalidName
  | noProfile (name : String)
  | noDevices (name : String)
  | notWithinRange (i : Nat) (load fluctuation : Int)
  | sumNotWithinRange (i : Nat) (load fluctuation : Int)
deriving DecidableEq, Repr

/-! ## Device maps -/

/-- Number of keys, `len(devmap)`. -/
def devmapLen : Option (List Nat) → Nat
  | none => 0
  | some keys => keys.length

/-- Lookup `devmap[dev]`: false for an absent key and for the `nil` map. -/
def devmapGet : Option (List Nat) → Nat → Bool
  | none, _ => false
  | some keys, dev => decide (dev ∈ keys)

/-- Assignment `devmap[dev] = true` on a non-nil map. -/
def devmapSet (keys : List Nat) (dev : Nat) : List Nat :=
  if dev ∈ keys then keys else keys ++ [dev]

/-- Loop of `mapDevices`: counts the unknown names and collects the indices of
the known ones. -/
def mapDevicesLoop (devicemap : String → Option Nat) :
    List String → Nat → List Nat → Nat × List Nat
  | [], errors, devmap => (errors, devmap)
  | name :: rest, errors, devmap =>
    match devicemap name with
    | some dev => mapDevicesLoop devicemap rest errors (devmapSet devmap dev)
    | none => mapDevicesLoop devicemap rest (errors + 1) devmap

/-- Maps device file names to device indices (`mapDevices`): `nil` when a name
is unknown. -/
def mapDevices (devicemap : String → Option Nat) (names : List String) :
    Option (List Nat) :=
  let r := mapDevicesLoop devicemap names 0 []
  if r.1 > 0 then none else some r.2

/-! ## Admission -/

/-- Per-segment loop of `addWorkload`: validates each segment and converts it,
accumulating the offset `total` from the start of the profile. -/
def buildProfile (now : Int) : Nat → Int → List wlProfileT → Except Reject (List devProfileT)
  | _, _, [] => .ok []
  | i, total, p :: rest =>
    if p.Load < 0 ∨ p.Load > 100 ∨ p.Fluctuation < 0 ∨ p.Fluctuation > 100 then
      .error (.notWithinRange i p.Load p.Fluctuation)
    else if p.Load - p.Fluctuation < 0 ∨ p.Load + p.Fluctuation > 100 then
      .error (.sumNotWithinRange i p.Load p.Fluctuation)
    else
      let seconds : Int := if p.Seconds > 0 then parseDurationSeconds p.Seconds else 24 * hour
      let total := wrapInt64 (total + seconds)
      match buildProfile now (i + 1) total rest with
      | .error e => .error e
      | .ok tail =>
        .ok ({ load := (p.Load : ℚ) / 100
               fluctuation := (p.Fluctuation : ℚ) / 100
               deadline := now + total
               seconds := total } :: tail)

/-- Device set of a descriptor in `addWorkload`: the mapping of its `Devices`
when it lists any, else the preset `devmap` of the caller. -/
def resolveDevices (devicemap : String → Option Nat) (info : workloadInfoT)
    (devmap : Option (List Nat)) : Option (List Nat) :=
  if info.Devices.length > 0 then mapDevices devicemap info.Devices else devmap

/-- Per-segment range check of `addWorkload`, in percent. -/
def segmentInRange (p : wlProfileT) : Prop :=
  0 ≤ p.Load ∧ p.Load ≤ 100 ∧ 0 ≤ p.Fluctuation ∧ p.Fluctuation ≤ 100 ∧
    0 ≤ p.Load - p.Fluctuation ∧ p.Load + p.Fluctuation ≤ 100

instance segmentInRangeDecidable (p : wlProfileT) : Decidable (segmentInRange p) := by
  unfold segmentInRange; infer_instance

/-- The checks of `addWorkload` up to the `append`: the workload to store, or
the warning it is refused with. -/
def admitWorkload (unmarshal : List UInt8 → Option workloadInfoT)
    (devicemap : String → Option Nat) (text : List UInt8)
    (devmap : Option (List Nat)) (conn : Option Nat) (now : Int) :
    Except Reject workloadT :=
  match unmarshal text with
  | none => .error .unmarshal
  | some info =>
    if info.Name = "" then .error .invalidName
    else if info.Profile.length = 0 then .error (.noProfile info.Name)
    else
      let devmap := resolveDevices devicemap info devmap
      if devmapLen devmap = 0 then .error (.noDevices info.Name)
      else
        match buildProfile now 0 0 info.Profile with
        | .error e => .error e
        | .ok profile =>
          .ok { name := info.Name, conn := conn, activity := 0, repeats := info.Repeat
                profile := profile, devmap := devmap }

/-- Validates a descriptor and appends the workload to the store
(`addWorkload`); returns whether it was admitted, and the store. -/
def addWorkload (unmarshal : List UInt8 → Option workloadInfoT)
    (devicemap : String → Option Nat) (text : List UInt8)
    (devmap : Option (List Nat)) (conn : Option Nat) (now : Int)
    (workload : List workloadT) : Bool × List workloadT :=
  match admitWorkload unmarshal devicemap text devmap conn now with
  | .error _ => (false, workload)
  | .ok wl => (true, workload ++ [wl])

/-- Body of the drain loop of `acceptWorkloads` for one queued connection `c`:
`read c` is what the bounded read returns and `clock c` the time at which the
descriptor is admitted; `data[:count]` is handed to `addWorkload` with the nil
preset map. -/
def acceptOne (unmarshal : List UInt8 → Option workloadInfoT)
    (devicemap : String → Option Nat) (read : Nat → ReadResult) (clock : Nat → Int)
    (st : List workloadT × List ConnEvent) (c : Nat) : List workloadT × List ConnEvent :=
  let r := read c
  let reject : List workloadT × List ConnEvent :=
    (st.1, st.2 ++ [ConnEvent.write c wlExitError, ConnEvent.close c])
  if r.count ≤ 0 ∨ r.err then reject
  else
    match addWorkload unmarshal devicemap (r.data.take r.count.toNat) none (some c) (clock c) st.1 with
    | (true, workload) => (workload, st.2)
    | (false, _) => reject

/-- Reads and adds all queued incoming workloads (`acceptWorkloads`): the queue
is drained front to back. -/
def acceptWorkloads (unmarshal : List UInt8 → Option workloadInfoT)
    (devicemap : String → Option Nat) (read : Nat → ReadResult) (clock : Nat → Int)
    (connections : List Nat) (workload : List workloadT) (trace : List ConnEvent) :
    List workloadT × List ConnEvent :=
  connections.foldl (acceptOne unmarshal devicemap read clock) (workload, trace)

/-! ## Simulation -/

/-- Diagnostic note of `runSimulation` for a value that needed limiting. -/
inductive LimitNote where
  | below (value limit : ℚ)
  | above (value limit : ℚ)
deriving DecidableEq

/-- Adds load and fluctuation of each workload simulated on device `dev` to
`value` (`addWorkloadsToMetric`); `rnd k` is the `k`-th value of
`rand.Float64()` and the count of draws is threaded through. -/
def addWorkloadsToMetric (rnd : Nat → ℚ) (dev : Nat) (limit : limitT) :
    List workloadT → ℚ → Nat → Option (ℚ × Nat)
  | [], value, k => some (value, k)
  | wl :: rest, value, k =>
    let scale := limit.Max - limit.Min
    if !devmapGet wl.devmap dev then addWorkloadsToMetric rnd dev limit rest value k
    else
      match wl.profile[wl.activity]? with
      | none => none
      | some seg =>
        let load := seg.load
        let flux := seg.fluctuation
        addWorkloadsToMetric rnd dev limit rest
          (value + scale * (load + (rnd k - 1 / 2) * flux)) (k + 1)

/-- The two limiting steps of `runSimulation`, in the order of the source. -/
def limitValue (limit : limitT) (value : ℚ) : ℚ :=
  let value := if value < limit.Min then limit.Min else value
  if value > limit.Max then limit.Max else value

/-- Notes appended to `limited` for one metric. -/
def limitNotes (limit : limitT) (value : ℚ) : List LimitNote :=
  let first := if value < limit.Min then [LimitNote.below value limit.Min] else []
  let value := if value < limit.Min then limit.Min else value
  first ++ (if value > limit.Max then [LimitNote.above value limit.Max] else [])

/-- Assignment `m[metric] = value` on a metric map. -/
def metricSet (m : String → Option ℚ) (metric : String) (value : ℚ) : String → Option ℚ :=
  fun name => if name = metric then some value else m name

/-- Inner loop of `runSimulation` over the metric limits (in the order the map
is iterated) for device `dev`. -/
def simulateDevice (rnd : Nat → ℚ) (workload : List workloadT) (dev : Nat) :
    List (String × limitT) → (String → Option ℚ) → List LimitNote → Nat →
    Option ((String → Option ℚ) × List LimitNote × Nat)
  | [], values, limited, k => some (values, limited, k)
  | (metric, limit) :: rest, values, limited, k =>
    match addWorkloadsToMetric rnd dev limit workload limit.Min k with
    | none => none
    | some (value, k1) =>
      simulateDevice rnd workload dev rest
        (metricSet values metric (limitValue limit value))
        (limited ++ limitNotes limit value) k1

/-- Outer loop of `runSimulation` over the devices from index `dev` on. -/
def runSimulationFrom (rnd : Nat → ℚ) (metricLimits : List (String × limitT))
    (workload : List workloadT) :
    Nat → List (String → Option ℚ) → Nat →
    Option (List (String → Option ℚ) × List (List LimitNote) × Nat)
  | _, [], k => some ([], [], k)
  | dev, values :: rest, k =>
    match simulateDevice rnd workload dev metricLimits values [] k with
    | none => none
    | some (values1, limited, k1) =>
      match runSimulationFrom rnd metricLimits workload (dev + 1) rest k1 with
      | none => none
      | some (rest1, notes, k2) => some (values1 :: rest1, limited :: notes, k2)

/-- Updates all metrics of all devices (`runSimulation`): the new device
values, the notes of each device and the count of random draws. -/
def runSimulation (rnd : Nat → ℚ) (metricLimits : List (String × limitT))
    (workload : List workloadT) (device : List (String → Option ℚ)) (k : Nat) :
    Option (List (String → Option ℚ) × List (List LimitNote) × Nat) :=
  runSimulationFrom rnd metricLimits workload 0 device k

/-! ## Advancing and removing workloads -/

/-- Loop "skip all expired activities" of `updateWorkloads`, over the segments
from the cursor on: the first index whose deadline is after `now`. -/
def skipExpired (now : Int) : List devProfileT → Nat → Nat
  | [], activity => activity
  | p :: rest, activity =>
    if now < p.deadline then activity else skipExpired now rest (activity + 1)

/-- Whether the liveness probe of `updateWorkloads` finds the workload
disconnected; a workload with no connection is not probed. -/
def disconnected (probe : Nat → ProbeResult) (wl : workloadT) : Bool :=
  match wl.conn with
  | none => false
  | some c => !(probe c).isDeadlineExceeded

/-- Body of the loop of `updateWorkloads` for one workload: its new value and
whether its index is appended to `rm`. -/
def updateOne (now : Int) (probe : Nat → ProbeResult) (wl : workloadT) : workloadT × Bool :=
  if disconnected probe wl then ({ wl with conn := none }, true)
  else
    let activity := skipExpired now (wl.profile.drop wl.activity) wl.activity
    let activities := wl.profile.length
    if activity = wl.activity then (wl, false)
    else if activity < activities then ({ wl with activity := activity }, false)
    else if wl.repeats = 1 then (wl, true)
    else
      ({ wl with
          repeats := if wl.repeats > 0 then wl.repeats - 1 else wl.repeats
          profile := wl.profile.map (fun p => { p with deadline := now + p.seconds })
          activity := 0 }, false)

/-- Loop of `updateWorkloads` over the store from index `i` on: the updated
workloads and the indices marked for removal, in increasing order. -/
def updateLoop (now : Int) (probe : Nat → ProbeResult) :
    Nat → List workloadT → List workloadT × List Nat
  | _, [] => ([], [])
  | i, wl :: rest =>
    let r := updateOne now probe wl
    let tail := updateLoop now probe (i + 1) rest
    (r.1 :: tail.1, if r.2 then i :: tail.2 else tail.2)

/-- Events of the status write in `removeWorkloads` for a connection. -/
def exitEvents : Option Nat → List ConnEvent
  | none => []
  | some c => [ConnEvent.write c wlExitOK, ConnEvent.close c]

/-- Loop of `removeWorkloads` over the sorted indices, `i` being the loop
counter and `count` the length of the store on entry.  `last` is
`workload[offset]` as read by `workload[wli] = workload[offset]`; the slot
`offset` still holds it when `workload[offset].devmap = nil` runs, whether or
not `wli` equals `offset`. -/
def removeLoop (count : Nat) :
    Nat → List Nat → List workloadT → List ConnEvent →
    Option (List workloadT × List ConnEvent)
  | _, [], workload, trace => some (workload, trace)
  | i, wli :: rest, workload, trace =>
    if count < i + 1 then none
    else
      let offset := count - i - 1
      match workload[wli]?, workload[offset]? with
      | some wl, some last =>
        let moved := workload.set wli last
        removeLoop count (i + 1) rest
          (moved.set offset { last with devmap := none })
          (trace ++ exitEvents wl.conn)
      | _, _ => none

/-- Removes the workloads with the given indices from the store
(`removeWorkloads`), writing the status to their connections. -/
def removeWorkloads (rm : List Nat) (workload : List workloadT) (trace : List ConnEvent) :
    Option (List workloadT × List ConnEvent) :=
  if rm.length = 0 then some (workload, trace)
  else
    let sorted := rm.insertionSort (fun a b => a ≥ b)
    let count := workload.length
    match removeLoop count 0 sorted workload trace with
    | none => none
    | some (moved, trace1) =>
      if count < rm.length then none else some (moved.take (count - rm.length), trace1)

/-- Advances, loops or removes the stored workloads at time `now`
(`updateWorkloads`). -/
def updateWorkloads (now : Int) (probe : Nat → ProbeResult) (workload : List workloadT)
    (trace : List ConnEvent) : Option (List workloadT × List ConnEvent) :=
  let r := updateLoop now probe 0 workload
  removeWorkloads r.2 r.1 trace

/-! ## Reference descriptions of one `updateWorkloads` pass -/

/-- Erases the given indices from a list, one after the other. -/
def eraseIdxs {α : Type} (l : List α) (rm : List Nat) : List α :=
  rm.foldl (fun acc k => acc.eraseIdx k) l

/-- Status events for the workloads at the given indices of `l`, in the order
of the indices. -/
def exitTrace (l : List workloadT) : List Nat → List ConnEvent
  | [] => []
  | k :: rest =>
    (match l[k]? with
      | some wl => exitEvents wl.conn
      | none => []) ++ exitTrace l rest

/-- The workloads one pass keeps, each after its update, in store order. -/
def keptWorkloads (now : Int) (probe : Nat → ProbeResult) (workload : List workloadT) :
    List workloadT :=
  (workload.filter (fun wl => !(updateOne now probe wl).2)).map
    (fun wl => (updateOne now probe wl).1)

/-- Status events one pass sends for a workload: those of its connection after
the update when it is marked for removal, none otherwise. -/
def statusEvents (now : Int) (probe : Nat → ProbeResult) (wl : workloadT) : List ConnEvent :=
  if (updateOne now probe wl).2 then exitEvents (updateOne now probe wl).1.conn else []

/-- Status events of one pass over the store: the workloads are served from
the last index down. -/
def statusTrace (now : Int) (probe : Nat → ProbeResult) (workload : List workloadT) :
    List ConnEvent :=
  workload.reverse.flatMap (statusEvents now probe)

/-- Whether a workload finishes at `now`: it is live, its cursor moves past
the last segment and its repeat count is 1. -/
def completes (now : Int) (probe : Nat → ProbeResult) (wl : workloadT) : Bool :=
  !disconnected probe wl &&
    decide (skipExpired now (wl.profile.drop wl.activity) wl.activity ≠ wl.activity) &&
    decide (wl.profile.length ≤ skipExpired now (wl.profile.drop wl.activity) wl.activity) &&
    decide (wl.repeats = 1)

/-- Whether the drain loop refuses the submission on connection `c`: nothing
was read, the read failed, or `addWorkload` returns false. -/
def submissionRejected (unmarshal : List UInt8 → Option workloadInfoT)
    (devicemap : String → Option Nat) (read : Nat → ReadResult) (clock : Nat → Int)
    (c : Nat) : Bool :=
  decide ((read c).count ≤ 0) || (read c).err ||
    !(addWorkload unmarshal devicemap ((read c).data.take (read c).count.toNat) none (some c)
        (clock c) []).1

/-- The workload the drain loop stores for connection `c`, if any. -/
def submissionAdmitted (unmarshal : List UInt8 → Option workloadInfoT)
    (devicemap : String → Option Nat) (read : Nat → ReadResult) (clock : Nat → Int)
    (c : Nat) : List workloadT :=
  if submissionRejected unmarshal devicemap read clock c then []
  else
    (addWorkload unmarshal devicemap ((read c).data.take (read c).count.toNat) none (some c)
      (clock c) []).2

/-- Runs `updateWorkloads` once per tick, each tick giving the time and the
probe outcomes. -/
def updateTicks : List (Int × (Nat → ProbeResult)) → List workloadT → List ConnEvent →
    Option (List workloadT × List ConnEvent)
  | [], workload, trace => some (workload, trace)
  | tick :: rest, workload, trace =>
    match updateWorkloads tick.1 tick.2 workload trace with
    | none => none
    | some r => updateTicks rest r.1 r.2

/-! ## Reference descriptions of a sequence of passes -/

/-- Whether the cursor of a workload moves past the last segment at `now`. -/
def passesLast (now : Int) (wl : workloadT) : Bool :=
  decide (skipExpired now (wl.profile.drop wl.activity) wl.activity ≠ wl.activity) &&
    decide (wl.profile.length ≤ skipExpired now (wl.profile.drop wl.activity) wl.activity)

/-- The workloads a sequence of passes keeps, each after its updates. -/
def keptTicks : List (Int × (Nat → ProbeResult)) → List workloadT → List workloadT
  | [], workload => workload
  | tick :: rest, workload => keptTicks rest (keptWorkloads tick.1 tick.2 workload)

/-- One workload through a sequence of passes: its value after the last pass,
or `none` once a pass has marked it for removal. -/
def lifeOf : List (Int × (Nat → ProbeResult)) → workloadT → Option workloadT
  | [], wl => some wl
  | tick :: rest, wl =>
    if (updateOne tick.1 tick.2 wl).2 then none
    else lifeOf rest (updateOne tick.1 tick.2 wl).1

/-- Number of passes, while the workload is stored, at which it is live and its
cursor moves past the last segment. -/
def passCount : List (Int × (Nat → ProbeResult)) → workloadT → Nat
  | [], _ => 0
  | tick :: rest, wl =>
    (if !disconnected tick.2 wl && passesLast tick.1 wl then 1 else 0) +
      (if (updateOne tick.1 tick.2 wl).2 then 0
        else passCount rest (updateOne tick.1 tick.2 wl).1)

/-- The elements of a list whose index, counted from `i`, is not in `rm`, in
the order of the list. -/
def keepIdx {α : Type} (rm : List Nat) : Nat → List α → List α
  | _, [] => []
  | i, x :: xs => if i ∈ rm then keepIdx rm (i + 1) xs else x :: keepIdx rm (i + 1) xs

/-! ## Device information (`devinfo.go`)

A Go map read from a configuration file is an association list with the keys
in the order in which the map is iterated; a lookup is `List.lookup`. -/

/-- Label name and value (`labelPairT`). -/
structure labelPairT where
  name : String
  value : String
deriving DecidableEq, Repr

/-- Parsed device type file (`devtypeT`). -/
structure devtypeT where
  DeviceLabels : List (String × String)
  MetricLimits : List (String × limitT)

/-- Parsed device list file (`devlistT`). -/
structure devlistT where
  DeviceLabels : List (List (String × String))

/-- Parsed exporter identity file (`identityT`). -/
structure identityT where
  DeviceLabelMap : List (String × String)
  MetricMap : List (String × String)
  MetricLabels : List (String × List (String × String))

/-- Device labels, metric limits and what to output (`devinfoT`). -/
structure devinfoT where
  deviceLabels : List (List labelPairT)
  metricLimits : List (String × limitT)
  devicemap : List (String × Nat)
  metricLabels : List (String × List labelPairT)
  output : List String

/-- Assignment `m[key] = value` on a map held as an association list. -/
def mapInsert {β : Type} : List (String × β) → String → β → List (String × β)
  | [], key, value => [(key, value)]
  | (k, v) :: rest, key, value =>
    if k = key then (key, value) :: rest else (k, v) :: mapInsert rest key value

/-- Loop of `mapLabels`: the labels that have an identity mapping, under the
mapped name, and the names of those that have none. -/
def mapLabels (labels : List (String × String)) (identity : identityT) :
    List labelPairT × List String :=
  match labels with
  | [] => ([], [])
  | (label, value) :: rest =>
    let tail := mapLabels rest identity
    match identity.DeviceLabelMap.lookup label with
    | some name => ({ name := name, value := value } :: tail.1, tail.2)
    | none => (tail.1, label :: tail.2)

/-- Stable sort of a label list by name (`sortLabelList`). -/
def sortLabelList (labels : List labelPairT) : List labelPairT :=
  labels.insertionSort (fun a b => a.name ≤ b.name)

/-- Loop of `getDevinfo` over the devices from index `dev` on: the sorted
label list of each device and the file name table; `none` is `log.Fatalf` for a
device without a `file` label. -/
def devicesLoop (identity : identityT) (devlabels : List labelPairT) :
    Nat → List (List (String × String)) → List (String × Nat) →
    Option (List (List labelPairT) × List (String × Nat))
  | _, [], devicemap => some ([], devicemap)
  | dev, labels :: rest, devicemap =>
    match labels.lookup "file" with
    | none => none
    | some file =>
      match devicesLoop identity devlabels (dev + 1) rest (mapInsert devicemap file dev) with
      | none => none
      | some r => some (sortLabelList ((mapLabels labels identity).1 ++ devlabels) :: r.1, r.2)

/-- Loop of `getDevinfo` that maps the metric limit names to output names. -/
def limitsLoop (identity : identityT) :
    List (String × limitT) → List (String × limitT) → List (String × limitT)
  | [], acc => acc
  | (metric, limit) :: rest, acc =>
    match identity.MetricMap.lookup metric with
    | none => limitsLoop identity rest acc
    | some name => limitsLoop identity rest (mapInsert acc name limit)

/-- Loop of `getDevinfo` over the metric labels; `none` is `log.Fatalf` for a
metric without an identity mapping. -/
def metricLabelsLoop (identity : identityT) :
    List (String × List (String × String)) → List (String × List labelPairT) →
    Option (List (String × List labelPairT))
  | [], acc => some acc
  | (metric, labels) :: rest, acc =>
    match identity.MetricMap.lookup metric with
    | none => none
    | some name =>
      metricLabelsLoop identity rest
        (mapInsert acc name
          (sortLabelList (labels.map (fun p => { name := p.1, value := p.2 }))))

/-- Builds the device information from the parsed configuration files
(`getDevinfo`); `none` is a `log.Fatalf`. -/
def getDevinfo (devcount : Nat) (identity : identityT) (devtype : devtypeT)
    (devlist : devlistT) : Option devinfoT :=
  let devlabels := (mapLabels devtype.DeviceLabels identity).1
  if devlist.DeviceLabels.length < devcount then none
  else
    match devicesLoop identity devlabels 0 (devlist.DeviceLabels.take devcount) [] with
    | none => none
    | some devices =>
      match metricLabelsLoop identity identity.MetricLabels [] with
      | none => none
      | some metricLabels =>
        some { deviceLabels := devices.1
               metricLimits := limitsLoop identity devtype.MetricLimits []
               devicemap := devices.2
               metricLabels := metricLabels
               output := (identity.MetricMap.map Prod.snd).insertionSort (fun a b => a ≤ b) }

/-! ## Scrape handling (`main.go`) -/

/-- Name of the exporter. -/
def project : String := "fakedev-exporter"

/-- Version of the exporter. -/
def version : String := "v0.1"

/-- Path of the metrics page. -/
def metricURL : String := "/metrics"

/-- Text `name="value"` of one label. -/
def renderLabel (label : labelPairT) : String :=
  label.name ++ "=\"" ++ label.value ++ "\""

/-- Inner loop of `writeMetric` over one label set: the output so far and the
`comma` flag. -/
def writeLabels : List labelPairT → Bool → String → String × Bool
  | [], comma, w => (w, comma)
  | label :: rest, comma, w =>
    if comma then
      writeLabels rest comma (w ++ (", " ++ label.name ++ "=\"" ++ label.value ++ "\""))
    else
      writeLabels rest true (w ++ (label.name ++ "=\"" ++ label.value ++ "\""))

/-- Appends the line of one metric of device `dev` to the output `w`
(`writeMetric`); `fmtG` is the `%g` formatting of a value. -/
def writeMetric (fmtG : ℚ → String) (devinfo : devinfoT) (w : String) (dev : Nat)
    (metric : String) (mvalue : ℚ) : Option String :=
  match devinfo.deviceLabels[dev]? with
  | none => none
  | some deviceLabels =>
    let labelSets := [deviceLabels, (devinfo.metricLabels.lookup metric).getD []]
    let start : String × Bool := (w ++ (metric ++ "\x7b"), false)
    let r := labelSets.foldl (fun acc labels => writeLabels labels acc.2 acc.1) start
    some (r.1 ++ ("\x7d " ++ fmtG mvalue ++ "\n"))

/-- Request as `requestCheck` sees it; `hasBody` is `r.Body != http.NoBody`. -/
structure requestT where
  Method : String
  Path : String
  hasBody : Bool
deriving DecidableEq, Repr

/-- Status code for a request (`requestCheck`). -/
def requestCheck (r : requestT) : Nat :=
  if r.Method ≠ "GET" then 405
  else if r.Path ≠ metricURL then 404
  else if r.hasBody then 400
  else 200

/-- The mutable state of the server. -/
structure serverT where
  workload : List workloadT
  device : List (String → Option ℚ)
  connections : List Nat
  trace : List ConnEvent
  draws : Nat

/-- Status and body of a response. -/
structure responseT where
  status : Nat
  body : String
deriving DecidableEq, Repr

/-- Report loop of `exporter` over the output metrics for device `dev`. -/
def writeMetrics (fmtG : ℚ → String) (devinfo : devinfoT) (dev : Nat)
    (values : String → Option ℚ) : List String → String → Option String
  | [], w => some w
  | metric :: rest, w =>
    match values metric with
    | none => writeMetrics fmtG devinfo dev values rest w
    | some value =>
      match writeMetric fmtG devinfo w dev metric value with
      | none => none
      | some w1 => writeMetrics fmtG devinfo dev values rest w1

/-- Report loop of `exporter` over the devices from index `dev` on. -/
def writeDevices (fmtG : ℚ → String) (devinfo : devinfoT) :
    Nat → List (String → Option ℚ) → String → Option String
  | _, [], w => some w
  | dev, values :: rest, w =>
    match writeMetrics fmtG devinfo dev values devinfo.output w with
    | none => none
    | some w1 => writeDevices fmtG devinfo (dev + 1) rest w1

/-- Handles one request (`exporter`), the lock being held throughout: the new
state and the response; `none` is a run-time panic. -/
def exporter (unmarshal : List UInt8 → Option workloadInfoT) (devinfo : devinfoT)
    (read : Nat → ReadResult) (clock : Nat → Int) (rnd : Nat → ℚ) (now : Int)
    (probe : Nat → ProbeResult) (fmtG : ℚ → String) (st : serverT) (r : requestT) :
    Option (serverT × responseT) :=
  let status := requestCheck r
  if status ≠ 200 then some (st, { status := status, body := "" })
  else
    let accepted := acceptWorkloads unmarshal (fun name => devinfo.devicemap.lookup name)
      read clock st.connections st.workload st.trace
    match runSimulation rnd devinfo.metricLimits accepted.1 st.device st.draws with
    | none => none
    | some sim =>
      match updateWorkloads now probe accepted.1 accepted.2 with
      | none => none
      | some updated =>
        match writeDevices fmtG devinfo 0 sim.1 ("# " ++ project ++ " " ++ version ++ "\n") with
        | none => none
        | some body =>
          some ({ workload := updated.1, device := sim.1, connections := [],
                  trace := updated.2, draws := sim.2.2 },
                { status := 200, body := body })

instance labelNameTotal : IsTotal labelPairT (fun a b => a.name ≤ b.name) :=
  ⟨fun a b => le_total a.name b.name⟩

instance labelNameTrans : IsTrans labelPairT (fun a b => a.name ≤ b.name) :=
  ⟨fun _ _ _ hab hbc => le_trans hab hbc⟩

/-! ## The workload client (`cmd/fakedev-workload`) -/

/-- Segment as the client holds it (`profileT`): unsigned percents and
seconds. -/
structure profileT where
  Load : Nat
  Fluctuation : Nat
  Seconds : Nat
deriving DecidableEq, Repr

/-- Pieces of a text around each occurrence of `sep` (`strings.Split` with a
one-character separator); `cur` holds the current piece, reversed. -/
def splitChars (sep : Char) : List Char → List Char → List String
  | [], cur => [String.mk cur.reverse]
  | c :: rest, cur =>
    if c = sep then String.mk cur.reverse :: splitChars sep rest []
    else splitChars sep rest (c :: cur)

/-- Loop of `parseProfiles` over the activities; `scan act` is what
`fmt.Sscanf(act, "%v:%v:%v", ...)` reads, `none` when it fails or reads fewer
than three integers; the result `none` is `log.Fatalf`. -/
def parseProfilesLoop (scan : String → Option (Nat × Nat × Nat)) :
    List String → List profileT → Option (List profileT)
  | [], profile => some profile
  | act :: rest, profile =>
    match scan act with
    | none => none
    | some (load, flux, secs) =>
      if load > 100 ∨ flux > load then none
      else
        parseProfilesLoop scan rest
          (profile ++ [{ Load := load, Fluctuation := flux, Seconds := secs }])

/-- Parses the activity list of the command line (`parseProfiles`). -/
def parseProfiles (scan : String → Option (Nat × Nat × Nat)) (spec : String) :
    Option (List profileT) :=
  if spec = "" then some []
  else parseProfilesLoop scan (splitChars ',' spec.toList []) []

/-- The segment the exporter decodes from the one the client marshals: the
fields have the same names and values. -/
def sentProfile (p : profileT) : wlProfileT :=
  { Load := (p.Load : Int), Fluctuation := (p.Fluctuation : Int), Seconds := p.Seconds }

/-- The descriptor the exporter decodes for a client profile sent under the
name `Workload` with repeat 1 for the device file `card0`. -/
def sentInfo (profile : List profileT) : workloadInfoT :=
  { Name := "Workload", Repeat := 1, Profile := profile.map sentProfile
    Devices := ["card0"], Limits := none }

/-! ## The read of the drain loop -/

/-- Length of the buffer `data` that `acceptWorkloads` reads into. -/
def readBufferSize : Nat := 1024

/-- The bounded read `c.Read(data)` of `acceptWorkloads` on a connection on
which the peer has written the bytes `sent` and nothing has been read yet: a
`Read` fills at most `len(data)` bytes, here from the front of `sent`; with
nothing to read the deadline passes and an error comes back. -/
def connRead (sent : List UInt8) : ReadResult :=
  if sent.length = 0 then
    { count := 0, err := true, data := List.replicate readBufferSize 0 }
  else
    { count := ((min sent.length readBufferSize : Nat) : Int), err := false
      data := sent.take readBufferSize ++ List.replicate (readBufferSize - sent.length) 0 }

/-- The loop of `acceptWorkloads` with the queue made explicit: a connection is
taken from the front of `connections` until the `select` finds it empty; the
queue that is left comes first in the result. -/
def acceptDrain (unmarshal : List UInt8 → Option workloadInfoT)
    (devicemap : String → Option Nat) (read : Nat → ReadResult) (clock : Nat → Int) :
    List Nat → List workloadT × List ConnEvent →
    List Nat × (List workloadT × List ConnEvent)
  | [], st => ([], st)
  | c :: rest, st =>
    acceptDrain unmarshal devicemap read clock rest
      (acceptOne unmarshal devicemap read clock st c)

/-! ## Well-formed stores -/

/-- What `addWorkloadsToMetric` and `updateWorkloads` rely on for a stored
workload: a non-empty profile, a non-empty device set with every index below
the device count, and the cursor inside the profile. -/
def wfWorkload (devcount : Nat) (wl : workloadT) : Prop :=
  wl.profile ≠ [] ∧ devmapLen wl.devmap ≠ 0 ∧
    (∀ dev, devmapGet wl.devmap dev = true → dev < devcount) ∧
    wl.activity < wl.profile.length

/-- The stores that calls of `addWorkload`, `updateWorkloads` and
`removeWorkloads` reach from the empty store.  The preset device set handed to
`addWorkload` is nil or holds device indices, as in `acceptWorkloads` and
`loadWorkload`; the calls of `updateWorkloads` and `removeWorkloads` are those
that return. -/
inductive Reachable (unmarshal : List UInt8 → Option workloadInfoT)
    (devicemap : String → Option Nat) (devcount : Nat) : List workloadT → Prop where
  | empty : Reachable unmarshal devicemap devcount []
  | add (ws : List workloadT) (text : List UInt8) (preset : Option (List Nat))
      (conn : Option Nat) (now : Int) :
      Reachable unmarshal devicemap devcount ws →
      (∀ dev, devmapGet preset dev = true → dev < devcount) →
      Reachable unmarshal devicemap devcount
        (addWorkload unmarshal devicemap text preset conn now ws).2
  | update (ws : List workloadT) (now : Int) (probe : Nat → ProbeResult)
      (tr : List ConnEvent) (r : List workloadT × List ConnEvent) :
      Reachable unmarshal devicemap devcount ws →
      updateWorkloads now probe ws tr = some r →
      Reachable unmarshal devicemap devcount r.1
  | remove (ws : List workloadT) (rm : List Nat) (tr : List ConnEvent)
      (r : List workloadT × List ConnEvent) :
      Reachable unmarshal devicemap devcount ws →
      removeWorkloads rm ws tr = some r →
      Reachable unmarshal devicemap devcount r.1

/-! ## float64 arithmetic -/

/-- Count of binary digits of `n`, for `fuel` at least that count. -/
def bitLen : Nat → Nat → Nat
  | 0, _ => 0
  | fuel + 1, n => if n = 0 then 0 else bitLen fuel (n / 2) + 1

/-- Numerator and denominator of `n / d / 2 ^ e`. -/
def scaleQuotient (n d : Nat) (e : Int) : Nat × Nat :=
  if e ≤ 0 then (n * 2 ^ e.natAbs, d) else (n, d * 2 ^ e.natAbs)

/-- Significand `m` of 53 bits and exponent `e` with `m * 2 ^ e` the nearest to
`n / d`, ties going to the even significand (the rounding of float64). -/
def round53 (n d : Nat) : Nat × Int :=
  let k : Int := (bitLen 4096 n : Int) - (bitLen 4096 d : Int)
  let e1 : Int := k - 53
  let s1 := scaleQuotient n d e1
  let e : Int := if s1.1 / s1.2 ≥ 2 ^ 53 then e1 + 1 else e1
  let s := scaleQuotient n d e
  let q := s.1 / s.2
  let r := s.1 % s.2
  let m := if 2 * r > s.2 ∨ (2 * r = s.2 ∧ q % 2 = 1) then q + 1 else q
  (m, e)

/-- The number `m * 2 ^ e`. -/
def dyadic (m : Int) (e : Int) : ℚ :=
  if e ≥ 0 then mkRat (m * 2 ^ e.natAbs) 1 else mkRat m (2 ^ e.natAbs)

/-- The float64 nearest to `n / d`.  The exponent is not bounded (no overflow,
no subnormal numbers) and zero has no sign. -/
def roundQuotient (n : Int) (d : Nat) : ℚ :=
  if n = 0 then 0
  else
    let r := round53 n.natAbs d
    dyadic (if n < 0 then -(r.1 : Int) else (r.1 : Int)) r.2

/-- Sum `x + y` of two float64 numbers. -/
def f64add (x y : ℚ) : ℚ :=
  roundQuotient (x.num * y.den + y.num * x.den) (x.den * y.den)

/-- Difference `x - y` of two float64 numbers. -/
def f64sub (x y : ℚ) : ℚ :=
  roundQuotient (x.num * y.den - y.num * x.den) (x.den * y.den)

/-- Product `x * y` of two float64 numbers. -/
def f64mul (x y : ℚ) : ℚ :=
  roundQuotient (x.num * y.num) (x.den * y.den)

/-- Quotient `x / y` of two float64 numbers, `y` not zero. -/
def f64div (x y : ℚ) : ℚ :=
  roundQuotient (if y.num < 0 then -(x.num * y.den) else x.num * y.den) (y.num.natAbs * x.den)

/-- The loop of `addWorkloadsToMetric` with each operation of
`value += scale * (load + (rand.Float64()-0.5)*flux)` and of
`scale := limit.Max - limit.Min` rounded as float64. -/
def addWorkloadsToMetricF64 (rnd : Nat → ℚ) (dev : Nat) (limit : limitT) :
    List workloadT → ℚ → Nat → Option (ℚ × Nat)
  | [], value, k => some (value, k)
  | wl :: rest, value, k =>
    let scale := f64sub limit.Max limit.Min
    if !devmapGet wl.devmap dev then addWorkloadsToMetricF64 rnd dev limit rest value k
    else
      match wl.profile[wl.activity]? with
      | none => none
      | some seg =>
        let load := seg.load
        let flux := seg.fluctuation
        addWorkloadsToMetricF64 rnd dev limit rest
          (f64add value (f64mul scale (f64add load (f64mul (f64sub (rnd k) (1 / 2)) flux))))
          (k + 1)

/-- Ratios of a stored segment that passed the range checks of `addWorkload`:
the fluctuation is between 0 and the load, and their sum is at most 1. -/
def ratiosAdmitted (seg : devProfileT) : Prop :=
  0 ≤ seg.fluctuation ∧ seg.fluctuation ≤ seg.load ∧ seg.load + seg.fluctuation ≤ 1

/-- Status events the reap step owes for the workloads at the given indices of
`l`, in the order of the indices: on each connection that such a workload
owns, the byte "0" and then the close. -/
def removalEvents (l : List workloadT) (idxs : List Nat) : List ConnEvent :=
  (idxs.filterMap (fun k => (l[k]?).bind (fun wl => wl.conn))).flatMap
    (fun c => [ConnEvent.write c "0", ConnEvent.close c])

/-! ## float64 with overflow, infinities and NaN -/

/-- Value of a float64: a number, an infinity or NaN.  The sign of zero is not
kept: the comparisons of `runSimulation` do not tell the two zeros apart. -/
inductive Float64 where
  | finite (q : ℚ)
  | posInf
  | negInf
  | nan
deriving DecidableEq

/-- Magnitudes from this one on round to an infinity: halfway between the
largest float64 and `2 ^ 1024`. -/
def overflowBound : Nat := (2 ^ 54 - 1) * 2 ^ 970

/-- Count of the multiples of `2 ^ -1074` nearest to `n / d`, ties going to the
even count (the rounding of float64 below `2 ^ -1022`). -/
def roundSubnormal (n d : Nat) : Nat :=
  let s := n * 2 ^ 1074
  let q := s / d
  let r := s % d
  if 2 * r > d ∨ (2 * r = d ∧ q % 2 = 1) then q + 1 else q

/-- The float64 nearest to `n / d`, ties going to the even significand: an
infinity from `overflowBound` on, a multiple of `2 ^ -1074` below `2 ^ -1022`,
and a number of 53 significant bits in between. -/
def roundFloat64 (n : Int) (d : Nat) : Float64 :=
  if n = 0 then .finite 0
  else if n.natAbs ≥ overflowBound * d then (if n < 0 then .negInf else .posInf)
  else if n.natAbs * 2 ^ 1022 < d then
    .finite (mkRat (if n < 0 then -(roundSubnormal n.natAbs d : Int)
      else (roundSubnormal n.natAbs d : Int)) (2 ^ 1074))
  else .finite (roundQuotient n d)

/-- The float64 nearest to a rational number. -/
def toFloat64 (q : ℚ) : Float64 :=
  roundFloat64 q.num q.den

/-- Sum `x + y` of float64.  A sum with zero is the other operand, which is
exact. -/
def Float64.add : Float64 → Float64 → Float64
  | .nan, _ => .nan
  | _, .nan => .nan
  | .posInf, .negInf => .nan
  | .negInf, .posInf => .nan
  | .posInf, _ => .posInf
  | _, .posInf => .posInf
  | .negInf, _ => .negInf
  | _, .negInf => .negInf
  | .finite a, .finite b =>
    if b.num = 0 then .finite a
    else if a.num = 0 then .finite b
    else roundFloat64 (a.num * b.den + b.num * a.den) (a.den * b.den)

/-- Difference `x - y` of float64.  Subtracting zero gives the first operand,
which is exact. -/
def Float64.sub : Float64 → Float64 → Float64
  | .nan, _ => .nan
  | _, .nan => .nan
  | .posInf, .posInf => .nan
  | .negInf, .negInf => .nan
  | .posInf, _ => .posInf
  | _, .negInf => .posInf
  | .negInf, _ => .negInf
  | _, .posInf => .negInf
  | .finite a, .finite b =>
    if b.num = 0 then .finite a
    else roundFloat64 (a.num * b.den - b.num * a.den) (a.den * b.den)

/-- Sign of the product of an infinity of the given sign with the number `a`:
NaN for zero. -/
def Float64.scaleInf (negative : Bool) (a : ℚ) : Float64 :=
  if a.num = 0 then .nan
  else if (decide (a.num < 0)) = negative then .posInf else .negInf

/-- Product `x * y` of float64. -/
def Float64.mul : Float64 → Float64 → Float64
  | .nan, _ => .nan
  | _, .nan => .nan
  | .finite a, .finite b => roundFloat64 (a.num * b.num) (a.den * b.den)
  | .finite a, .posInf => Float64.scaleInf false a
  | .finite a, .negInf => Float64.scaleInf true a
  | .posInf, .finite b => Float64.scaleInf false b
  | .negInf, .finite b => Float64.scaleInf true b
  | .posInf, .posInf => .posInf
  | .posInf, .negInf => .negInf
  | .negInf, .posInf => .negInf
  | .negInf, .negInf => .posInf

/-- Comparison `x < y` of float64: false when either is NaN. -/
def Float64.lt : Float64 → Float64 → Bool
  | .nan, _ => false
  | _, .nan => false
  | .finite a, .finite b => decide (a < b)
  | .finite _, .posInf => true
  | .negInf, .finite _ => true
  | .negInf, .posInf => true
  | _, _ => false

/-! ## Simulation in float64

The stored ratios of `devProfileT` are the exact quotients `percent / 100`; the
float64 that `float64(p.Load) / 100.0` yields is the float64 nearest to that
quotient (`toFloat64`), the conversion of the integer being exact and the
division correctly rounded.  The limits read from the configuration are
float64 numbers.  A product and the sum that follows it are rounded one after
the other, as in the code compiled for amd64 (no fused multiply-add). -/

/-- Adds load and fluctuation of each workload simulated on device `dev` to
`value` (`addWorkloadsToMetric`) in float64; `rnd k` is the `k`-th value of
`rand.Float64()`. -/
def addWorkloadsToMetricIEEE (rnd : Nat → Float64) (dev : Nat) (limit : limitT) :
    List workloadT → Float64 → Nat → Option (Float64 × Nat)
  | [], value, k => some (value, k)
  | wl :: rest, value, k =>
    let scale := Float64.sub (.finite limit.Max) (.finite limit.Min)
    if !devmapGet wl.devmap dev then addWorkloadsToMetricIEEE rnd dev limit rest value k
    else
      match wl.profile[wl.activity]? with
      | none => none
      | some seg =>
        let load := toFloat64 seg.load
        let flux := toFloat64 seg.fluctuation
        addWorkloadsToMetricIEEE rnd dev limit rest
          (Float64.add value
            (Float64.mul scale
              (Float64.add load (Float64.mul (Float64.sub (rnd k) (.finite (1 / 2))) flux))))
          (k + 1)

/-- Diagnostic note of `runSimulation` for a float64 value that needed
limiting. -/
inductive LimitNoteIEEE where
  | below (value limit : Float64)
  | above (value limit : Float64)
deriving DecidableEq

/-- The two limiting steps of `runSimulation` in float64, in the order of the
source: a comparison with NaN is false. -/
def limitValueIEEE (limit : limitT) (value : Float64) : Float64 :=
  let value := if Float64.lt value (.finite limit.Min) then .finite limit.Min else value
  if Float64.lt (.finite limit.Max) value then .finite limit.Max else value

/-- Notes appended to `limited` for one metric, in float64. -/
def limitNotesIEEE (limit : limitT) (value : Float64) : List LimitNoteIEEE :=
  let first :=
    if Float64.lt value (.finite limit.Min) then
      [LimitNoteIEEE.below value (.finite limit.Min)]
    else []
  let value := if Float64.lt value (.finite limit.Min) then .finite limit.Min else value
  first ++ (if Float64.lt (.finite limit.Max) value then
    [LimitNoteIEEE.above value (.finite limit.Max)] else [])

/-- Assignment `m[metric] = value` on a map of float64 metric values. -/
def metricSetIEEE (m : String → Option Float64) (metric : String) (value : Float64) :
    String → Option Float64 :=
  fun name => if name = metric then some value else m name

/-- Inner loop of `runSimulation` over the metric limits for device `dev`, in
float64. -/
def simulateDeviceIEEE (rnd : Nat → Float64) (workload : List workloadT) (dev : Nat) :
    List (String × limitT) → (String → Option Float64) → List LimitNoteIEEE → Nat →
    Option ((String → Option Float64) × List LimitNoteIEEE × Nat)
  | [], values, limited, k => some (values, limited, k)
  | (metric, limit) :: rest, values, limited, k =>
    match addWorkloadsToMetricIEEE rnd dev limit workload (.finite limit.Min) k with
    | none => none
    | some (value, k1) =>
      simulateDeviceIEEE rnd workload dev rest
        (metricSetIEEE values metric (limitValueIEEE limit value))
        (limited ++ limitNotesIEEE limit value) k1

/-- Outer loop of `runSimulation` over the devices from index `dev` on, in
float64. -/
def runSimulationFromIEEE (rnd : Nat → Float64) (metricLimits : List (String × limitT))
    (workload : List workloadT) :
    Nat → List (String → Option Float64) → Nat →
    Option (List (String → Option Float64) × List (List LimitNoteIEEE) × Nat)
  | _, [], k => some ([], [], k)
  | dev, values :: rest, k =>
    match simulateDeviceIEEE rnd workload dev metricLimits values [] k with
    | none => none
    | some (values1, limited, k1) =>
      match runSimulationFromIEEE rnd metricLimits workload (dev + 1) rest k1 with
      | none => none
      | some (rest1, notes, k2) => some (values1 :: rest1, limited :: notes, k2)

/-- Updates all metrics of all devices (`runSimulation`) in float64: the new
device values, the notes of each device and the count of random draws. -/
def runSimulationIEEE (rnd : Nat → Float64) (metricLimits : List (String × limitT))
    (workload : List workloadT) (device : List (String → Option Float64)) (k : Nat) :
    Option (List (String → Option Float64) × List (List LimitNoteIEEE) × Nat) :=
  runSimulationFromIEEE rnd metricLimits workload 0 device k

/-- What one bound workload contributes to a metric: `(Max - Min) * (load +
offset)`, the offset being `(r - 0.5) * fluctuation` for the draw `r`. -/
def contributionIEEE (limit : limitT) (seg : devProfileT) (r : Float64) : Float64 :=
  Float64.mul (Float64.sub (.finite limit.Max) (.finite limit.Min))
    (Float64.add (toFloat64 seg.load)
      (Float64.mul (Float64.sub r (.finite (1 / 2))) (toFloat64 seg.fluctuation)))

/-- Running value after the contributions of the given workloads, each paired
with the index of its draw, are added to `start` one after the other. -/
def sumContributionsIEEE (rnd : Nat → Float64) (limit : limitT) (start : Float64)
    (bound : List (Nat × workloadT)) : Float64 :=
  bound.foldl
    (fun v p =>
      match p.2.profile[p.2.activity]? with
      | some seg => Float64.add v (contributionIEEE limit seg (rnd p.1))
      | none => v)
    start

/-- The unclamped sum of a metric on device `dev`: starting from `Min`, every
workload bound to the device adds the contribution of its current segment, in
store order, with one fresh draw each, the first being draw `k`. -/
def unclampedSumIEEE (rnd : Nat → Float64) (dev : Nat) (limit : limitT)
    (ws : List workloadT) (k : Nat) : Float64 :=
  sumContributionsIEEE rnd limit (.finite limit.Min)
    ((ws.filter (fun wl => devmapGet wl.devmap dev)).enumFrom k)

/-- The value `Min + (Max - Min) * load` in float64. -/
def singleLoadValueIEEE (limit : limitT) (load : Float64) : Float64 :=
  Float64.add (.finite limit.Min)
    (Float64.mul (Float64.sub (.finite limit.Max) (.finite limit.Min)) load)

/-! ## Example inputs -/

/-- Registry with the single device file name `card0` at index 0. -/
def exDevicemap : String → Option Nat :=
  fun name => if name = "card0" then some 0 else none

/-- Descriptor of a run-once workload with one segment of five seconds. -/
def exInfo : workloadInfoT :=
  { Name := "wl", Repeat := 1, Profile := [{ Load := 50, Fluctuation := 10, Seconds := 5 }]
    Devices := ["card0"], Limits := none }

/-- Descriptor whose only segment has load 50 and fluctuation 75. -/
def exInfoBad : workloadInfoT :=
  { Name := "Invalid", Repeat := 0, Profile := [{ Load := 50, Fluctuation := 75, Seconds := 0 }]
    Devices := ["card0"], Limits := none }

/-- Descriptor naming a known and an unknown device file. -/
def exInfoUnknown : workloadInfoT :=
  { Name := "wl", Repeat := 1, Profile := [{ Load := 50, Fluctuation := 10, Seconds := 5 }]
    Devices := ["card0", "card9"], Limits := none }

/-- Stored run-once workload on connection 3 whose only segment ends at time
6000. -/
def exLive : workloadT :=
  { name := "wl", conn := some 3, activity := 0, repeats := 1
    profile := [{ load := 1 / 2, fluctuation := 1 / 10, deadline := 6000, seconds := 5000 }]
    devmap := some [0] }

/-- Descriptor of a run-once workload whose single segment has no duration. -/
def exZero : workloadInfoT :=
  { Name := "wl", Repeat := 1, Profile := [{ Load := 50, Fluctuation := 10, Seconds := 0 }]
    Devices := ["card0"], Limits := none }

/-- The workload stored for `exZero` admitted on connection 3 at time 1000. -/
def exZeroStored : workloadT :=
  { name := "wl", conn := some 3, activity := 0, repeats := 1
    profile := [{ load := ((50 : Int) : ℚ) / 100, fluctuation := ((10 : Int) : ℚ) / 100
                  deadline := 1000 + 24 * hour, seconds := 24 * hour }]
    devmap := some [0] }

/-- Read that returns one byte and no error on every connection. -/
def exRead : Nat → ReadResult :=
  fun _ => { count := 1, err := false, data := [123] }

/-- Stored workload that loops forever, on connection 4, its two segments
ending at times 100 and 200. -/
def exForever : workloadT :=
  { name := "loop", conn := some 4, activity := 0, repeats := 0
    profile := [{ load := 1 / 2, fluctuation := 0, deadline := 100, seconds := 100 },
                { load := 1, fluctuation := 0, deadline := 200, seconds := 200 }]
    devmap := some [0] }

/-- Limits of the single metric `power`, from 0 to 100. -/
def exLimits : List (String × limitT) :=
  [("power", { Min := 0, Max := 100 })]

/-- Limits of a single metric whose `Min` is above its `Max`. -/
def exInverted : List (String × limitT) :=
  [("power", { Min := 10, Max := 5 })]

/-- Two devices with no metric value yet. -/
def exDevice : List (String → Option ℚ) :=
  [fun _ => none, fun _ => none]

/-- Stored workload on device 0 with load 100 percent and no fluctuation. -/
def exFull : workloadT :=
  { name := "full", conn := none, activity := 0, repeats := 0
    profile := [{ load := 1, fluctuation := 0, deadline := 100, seconds := 100 }]
    devmap := some [0] }

/-- Decoder standing for `json.Unmarshal` on a text that holds `info`. -/
def exUnmarshal (info : workloadInfoT) : List UInt8 → Option workloadInfoT :=
  fun _ => some info

/-- Stored workload with repeat 2 and no connection, its only segment ending at
time 100 and lasting 100. -/
def exTwice : workloadT :=
  { name := "twice", conn := none, activity := 0, repeats := 2
    profile := [{ load := 1 / 2, fluctuation := 0, deadline := 100, seconds := 100 }]
    devmap := some [0] }

/-- Three passes at times 50, 150 and 400, every probe finding the peer
connected. -/
def exTicks : List (Int × (Nat → ProbeResult)) :=
  [(50, fun _ => ProbeResult.deadlineExceeded), (150, fun _ => ProbeResult.deadlineExceeded),
    (400, fun _ => ProbeResult.deadlineExceeded)]

/-- Device information with one device labelled `a="1"`, `b="2"` and the
metric `metric` labelled `z="3"`. -/
def exLabelInfo : devinfoT :=
  { deviceLabels := [[{ name := "a", value := "1" }, { name := "b", value := "2" }]]
    metricLimits := [("metric", { Min := 0, Max := 100 })]
    devicemap := [("card0", 0)]
    metricLabels := [("metric", [{ name := "z", value := "3" }])]
    output := ["metric"] }

/-- Identity in which the label `vendor` and the metric `power` are mapped to
the empty string. -/
def exIdentityEmpty : identityT :=
  { DeviceLabelMap := [("vendor", "")], MetricMap := [("power", "")], MetricLabels := [] }

/-- Device type with the label `vendor` and a limit for the metric `power`. -/
def exDevtype : devtypeT :=
  { DeviceLabels := [("vendor", "intel")], MetricLimits := [("power", { Min := 0, Max := 100 })] }

/-- Device list with the single device file `card0`. -/
def exDevlist : devlistT :=
  { DeviceLabels := [[("file", "card0")]] }

/-- Descriptor whose single segment lasts 9223372037 seconds. -/
def exHuge : workloadInfoT :=
  { Name := "wl", Repeat := 1
    Profile := [{ Load := 0, Fluctuation := 0, Seconds := 9223372037 }]
    Devices := ["card0"], Limits := none }

/-- Descriptor with two segments of 9000000000 seconds each. -/
def exWrap : workloadInfoT :=
  { Name := "wl", Repeat := 1
    Profile := [{ Load := 0, Fluctuation := 0, Seconds := 9000000000 },
                { Load := 0, Fluctuation := 0, Seconds := 9000000000 }]
    Devices := ["card0"], Limits := none }

/-- Server state with one stored workload and one queued connection. -/
def exServer : serverT :=
  { workload := [exFull], device := exDevice, connections := [3], trace := [], draws := 0 }

/-- Descriptor with an out-of-range segment that also names an unknown device
file. -/
def exBothBad : workloadInfoT :=
  { Name := "Invalid", Repeat := 0, Profile := [{ Load := 50, Fluctuation := 75, Seconds := 0 }]
    Devices := ["card9"], Limits := none }

/-- Scanner standing for `fmt.Sscanf` on the activities `60:60:1` and
`98:1:0`. -/
def exScan : String → Option (Nat × Nat × Nat) :=
  fun act =>
    if act = "60:60:1" then some (60, 60, 1)
    else if act = "98:1:0" then some (98, 1, 0)
    else none

/-- Text of 1025 bytes, one more than the read buffer holds. -/
def exLongText : List UInt8 :=
  List.replicate 1025 32

/-- Decoder standing for `json.Unmarshal` on `exLongText`: it yields `exInfo`
for the complete text of 1025 bytes and fails on anything shorter or longer. -/
def exUnmarshalLong : List UInt8 → Option workloadInfoT :=
  fun text => if text.length = 1025 then some exInfo else none

/-- Descriptor with one segment of load 100 and fluctuation 0. -/
def exRoundInfo : workloadInfoT :=
  { Name := "full", Repeat := 0, Profile := [{ Load := 100, Fluctuation := 0, Seconds := 5 }]
    Devices := ["card0"], Limits := none }

/-- The workload stored for `exRoundInfo` admitted on connection 3 at time
1000. -/
def exRoundStored : workloadT :=
  { name := "full", conn := some 3, activity := 0, repeats := 0
    profile := [{ load := ((100 : Int) : ℚ) / 100, fluctuation := ((0 : Int) : ℚ) / 100
                  deadline := 1000 + wrapInt64 (0 + parseDurationSeconds 5)
                  seconds := wrapInt64 (0 + parseDurationSeconds 5) }]
    devmap := some [0] }

/-- Limit from -5 to the float64 nearest to 0.2. -/
def exRoundLimit : limitT :=
  { Min := mkRat (-5) 1, Max := mkRat 3602879701896397 18014398509481984 }

/-- Descriptor that lists no device files, as the baseline workloads of the
configuration file do. -/
def exPresetInfo : workloadInfoT :=
  { Name := "base", Repeat := 0, Profile := [{ Load := 50, Fluctuation := 10, Seconds := 5 }]
    Devices := [], Limits := none }

/-- Descriptor with one segment of load 0 and fluctuation 0. -/
def exIdleInfo : workloadInfoT :=
  { Name := "idle", Repeat := 0, Profile := [{ Load := 0, Fluctuation := 0, Seconds := 5 }]
    Devices := ["card0"], Limits := none }

/-- Limit from -1e308 to 1e308, the float64 `156575653125701 * 2 ^ 976`. -/
def exHugeLimit : limitT :=
  { Min := ((-(156575653125701 * 2 ^ 976) : Int) : ℚ)
    Max := ((156575653125701 * 2 ^ 976 : Int) : ℚ) }

/-- Every draw of `rand.Float64()` is 0.25. -/
def exDraw : Nat → Float64 :=
  fun _ => .finite (1 / 4)

/-- Two devices with no float64 metric value yet. -/
def exDeviceIEEE : List (String → Option Float64) :=
  [fun _ => none, fun _ => none]

/-- Limit from 0.1 to 0.3, the float64 nearest to each. -/
def exTenths : limitT :=
  { Min := mkRat 3602879701896397 (2 ^ 55), Max := mkRat 5404319552844595 (2 ^ 54) }

/-- Stored workload on device 0 with load 50 percent and no fluctuation. -/
def exHalf : workloadT :=
  { name := "half", conn := none, activity := 0, repeats := 0
    profile := [{ load := 1 / 2, fluctuation := 0, deadline := 100, seconds := 100 }]
    devmap := some [0] }

/-! ## Admission: lemmas -/

theorem buildProfile_ok (now : Int) (ps : List wlProfileT) :
    ∀ (i : Nat) (total : Int), (∀ p ∈ ps, segmentInRange p) →
      ∃ profile, buildProfile now i total ps = .ok profile ∧
        profile.map (fun s => (s.load, s.fluctuation)) =
          ps.map (fun p => ((p.Load : ℚ) / 100, (p.Fluctuation : ℚ) / 100)) := by
  induction ps with
  | nil => intro i total _; exact ⟨[], rfl, rfl⟩
  | cons p rest ih =>
    intro i total h
    have hp : segmentInRange p := h p (List.mem_cons_self _ _)
    obtain ⟨h1, h2, h3, h4, h5, h6⟩ := hp
    obtain ⟨tail, htail, hmap⟩ :=
      ih (i + 1) (wrapInt64 (total + (if p.Seconds > 0 then parseDurationSeconds p.Seconds
        else 24 * hour))) (fun q hq => h q (List.mem_cons_of_mem _ hq))
    have c1 : ¬ (p.Load < 0 ∨ p.Load > 100 ∨ p.Fluctuation < 0 ∨ p.Fluctuation > 100) := by
      omega
    have c2 : ¬ (p.Load - p.Fluctuation < 0 ∨ p.Load + p.Fluctuation > 100) := by omega
    refine ⟨{ load := (p.Load : ℚ) / 100
              fluctuation := (p.Fluctuation : ℚ) / 100
              deadline := now + wrapInt64 (total +
                (if p.Seconds > 0 then parseDurationSeconds p.Seconds else 24 * hour))
              seconds := wrapInt64 (total +
                (if p.Seconds > 0 then parseDurationSeconds p.Seconds else 24 * hour)) } :: tail,
      ?_, ?_⟩
    · simp only [buildProfile, if_neg c1, if_neg c2, htail]
    · simp [hmap]

theorem buildProfile_error (now : Int) (ps : List wlProfileT) :
    ∀ (i : Nat) (total : Int), (∃ p ∈ ps, ¬ segmentInRange p) →
      ∃ e, buildProfile now i total ps = .error e := by
  induction ps with
  | nil => intro i total h; obtain ⟨p, hp, _⟩ := h; cases hp
  | cons p rest ih =>
    intro i total h
    by_cases c1 : p.Load < 0 ∨ p.Load > 100 ∨ p.Fluctuation < 0 ∨ p.Fluctuation > 100
    · exact ⟨.notWithinRange i p.Load p.Fluctuation, by simp only [buildProfile, if_pos c1]⟩
    by_cases c2 : p.Load - p.Fluctuation < 0 ∨ p.Load + p.Fluctuation > 100
    · exact ⟨.sumNotWithinRange i p.Load p.Fluctuation,
        by simp only [buildProfile, if_neg c1, if_pos c2]⟩
    have hrest : ∃ q ∈ rest, ¬ segmentInRange q := by
      obtain ⟨q, hq, hbad⟩ := h
      rcases List.mem_cons.mp hq with rfl | hq
      · exact absurd (by unfold segmentInRange; omega) hbad
      · exact ⟨q, hq, hbad⟩
    obtain ⟨e, he⟩ :=
      ih (i + 1) (wrapInt64 (total + (if p.Seconds > 0 then parseDurationSeconds p.Seconds
        else 24 * hour))) hrest
    exact ⟨e, by simp only [buildProfile, if_neg c1, if_neg c2, he]⟩

theorem addWorkload_of_error (unmarshal : List UInt8 → Option workloadInfoT)
    (devicemap : String → Option Nat) (text : List UInt8) (devmap : Option (List Nat))
    (conn : Option Nat) (now : Int) (workload : List workloadT) (e : Reject)
    (h : admitWorkload unmarshal devicemap text devmap conn now = .error e) :
    addWorkload unmarshal devicemap text devmap conn now workload = (false, workload) := by
  simp only [addWorkload, h]

theorem addWorkload_of_ok (unmarshal : List UInt8 → Option workloadInfoT)
    (devicemap : String → Option Nat) (text : List UInt8) (devmap : Option (List Nat))
    (conn : Option Nat) (now : Int) (workload : List workloadT) (wl : workloadT)
    (h : admitWorkload unmarshal devicemap text devmap conn now = .ok wl) :
    addWorkload unmarshal devicemap text devmap conn now workload = (true, workload ++ [wl]) := by
  simp only [addWorkload, h]

/-- Either outcome of `addWorkload` leaves the stored workloads in place. -/
theorem addWorkload_cases (unmarshal : List UInt8 → Option workloadInfoT)
    (devicemap : String → Option Nat) (text : List UInt8) (devmap : Option (List Nat))
    (conn : Option Nat) (now : Int) (workload : List workloadT) :
    addWorkload unmarshal devicemap text devmap conn now workload = (false, workload) ∨
      ∃ wl, admitWorkload unmarshal devicemap text devmap conn now = .ok wl ∧
        addWorkload unmarshal devicemap text devmap conn now workload =
          (true, workload ++ [wl]) := by
  cases h : admitWorkload unmarshal devicemap text devmap conn now with
  | error e => exact Or.inl (addWorkload_of_error _ _ _ _ _ _ _ e h)
  | ok wl => exact Or.inr ⟨wl, rfl, addWorkload_of_ok _ _ _ _ _ _ _ wl h⟩

theorem admitWorkload_no_devices (unmarshal : List UInt8 → Option workloadInfoT)
    (devicemap : String → Option Nat) (text : List UInt8) (devmap : Option (List Nat))
    (conn : Option Nat) (now : Int) (info : workloadInfoT)
    (hparse : unmarshal text = some info)
    (hdev : devmapLen (resolveDevices devicemap info devmap) = 0) :
    ∃ e, admitWorkload unmarshal devicemap text devmap conn now = .error e := by
  simp only [admitWorkload, hparse]
  by_cases hn : info.Name = ""
  · exact ⟨_, by rw [if_pos hn]⟩
  by_cases hp : info.Profile.length = 0
  · exact ⟨_, by rw [if_neg hn, if_pos hp]⟩
  · exact ⟨_, by rw [if_neg hn, if_neg hp, if_pos hdev]⟩

/-! ## Device resolution: lemmas -/

theorem devmapSet_mem (keys : List Nat) (dev d : Nat) :
    d ∈ devmapSet keys dev ↔ d ∈ keys ∨ d = dev := by
  unfold devmapSet
  split
  · constructor
    · intro h; exact Or.inl h
    · rintro (h | rfl)
      · exact h
      · assumption
  · simp

theorem devmapSet_nodup (keys : List Nat) (dev : Nat) (h : keys.Nodup) :
    (devmapSet keys dev).Nodup := by
  unfold devmapSet
  split
  · exact h
  · rename_i hnot
    exact List.Nodup.append h (List.nodup_singleton dev) (by simpa using hnot)

theorem mapDevicesLoop_spec (devicemap : String → Option Nat) (names : List String) :
    ∀ (errors : Nat) (devmap : List Nat),
      errors ≤ (mapDevicesLoop devicemap names errors devmap).1 ∧
      ((∃ n ∈ names, devicemap n = none) →
        errors < (mapDevicesLoop devicemap names errors devmap).1) ∧
      ((∀ n ∈ names, devicemap n ≠ none) →
        (mapDevicesLoop devicemap names errors devmap).1 = errors) ∧
      (devmap.Nodup → (mapDevicesLoop devicemap names errors devmap).2.Nodup) ∧
      (∀ d, d ∈ (mapDevicesLoop devicemap names errors devmap).2 ↔
        d ∈ devmap ∨ ∃ n ∈ names, devicemap n = some d) := by
  induction names with
  | nil =>
    intro errors devmap
    simp [mapDevicesLoop]
  | cons name rest ih =>
    intro errors devmap
    cases hname : devicemap name with
    | none =>
      obtain ⟨h1, _, h3, h4, h5⟩ := ih (errors + 1) devmap
      simp only [mapDevicesLoop, hname]
      refine ⟨by omega, fun _ => by omega, ?_, h4, ?_⟩
      · intro hall
        exact absurd hname (hall name (List.mem_cons_self _ _))
      · intro d
        rw [h5 d]
        constructor
        · rintro (h | ⟨n, hn, hd⟩)
          · exact Or.inl h
          · exact Or.inr ⟨n, List.mem_cons_of_mem _ hn, hd⟩
        · rintro (h | ⟨n, hn, hd⟩)
          · exact Or.inl h
          · rcases List.mem_cons.mp hn with rfl | hn
            · rw [hname] at hd; cases hd
            · exact Or.inr ⟨n, hn, hd⟩
    | some dev =>
      obtain ⟨h1, h2, h3, h4, h5⟩ := ih errors (devmapSet devmap dev)
      simp only [mapDevicesLoop, hname]
      refine ⟨h1, ?_, ?_, fun hnd => h4 (devmapSet_nodup _ _ hnd), ?_⟩
      · rintro ⟨n, hn, hd⟩
        rcases List.mem_cons.mp hn with rfl | hn
        · rw [hname] at hd; cases hd
        · exact h2 ⟨n, hn, hd⟩
      · intro hall
        exact h3 (fun n hn => hall n (List.mem_cons_of_mem _ hn))
      · intro d
        rw [h5 d, devmapSet_mem]
        constructor
        · rintro ((h | rfl) | ⟨n, hn, hd⟩)
          · exact Or.inl h
          · exact Or.inr ⟨name, List.mem_cons_self _ _, hname⟩
          · exact Or.inr ⟨n, List.mem_cons_of_mem _ hn, hd⟩
        · rintro (h | ⟨n, hn, hd⟩)
          · exact Or.inl (Or.inl h)
          · rcases List.mem_cons.mp hn with rfl | hn
            · rw [hname] at hd
              exact Or.inl (Or.inr (Option.some.inj hd).symm)
            · exact Or.inr ⟨n, hn, hd⟩

theorem mapDevices_unknown (devicemap : String → Option Nat) (names : List String)
    (h : ∃ n ∈ names, devicemap n = none) : mapDevices devicemap names = none := by
  have h2 := (mapDevicesLoop_spec devicemap names 0 []).2.1 h
  simp only [mapDevices, if_pos h2]

theorem mapDevices_known (devicemap : String → Option Nat) (names : List String)
    (h : ∀ n ∈ names, devicemap n ≠ none) :
    ∃ keys, mapDevices devicemap names = some keys ∧ keys.Nodup ∧
      ∀ d, d ∈ keys ↔ ∃ n ∈ names, devicemap n = some d := by
  obtain ⟨_, _, h3, h4, h5⟩ := mapDevicesLoop_spec devicemap names 0 []
  refine ⟨(mapDevicesLoop devicemap names 0 []).2, ?_, h4 List.nodup_nil, ?_⟩
  · simp only [mapDevices, h3 h]; simp
  · intro d; rw [h5 d]; simp

/-! ## Admission: claims -/

/-- C1: a parsed descriptor with a non-empty name, a non-empty profile, a
non-empty resolved device set and every segment in range is admitted:
`addWorkload` returns true and appends exactly one workload at the end of the
store, with cursor 0, the descriptor's repeat count, and one profile entry per
segment in the same order (load and fluctuation as ratios). -/
theorem addWorkload_admits_valid (unmarshal : List UInt8 → Option workloadInfoT)
    (devicemap : String → Option Nat) (text : List UInt8) (devmap : Option (List Nat))
    (conn : Option Nat) (now : Int) (workload : List workloadT) (info : workloadInfoT)
    (hparse : unmarshal text = some info)
    (hname : info.Name ≠ "")
    (hprofile : info.Profile ≠ [])
    (hdev : devmapLen (resolveDevices devicemap info devmap) ≠ 0)
    (hseg : ∀ p ∈ info.Profile, segmentInRange p) :
    ∃ wl, addWorkload unmarshal devicemap text devmap conn now workload =
        (true, workload ++ [wl]) ∧
      wl.activity = 0 ∧ wl.repeats = info.Repeat ∧ wl.name = info.Name ∧ wl.conn = conn ∧
      wl.devmap = resolveDevices devicemap info devmap ∧
      wl.profile.length = info.Profile.length ∧
      wl.profile.map (fun s => (s.load, s.fluctuation)) =
        info.Profile.map (fun p => ((p.Load : ℚ) / 100, (p.Fluctuation : ℚ) / 100)) := by
  obtain ⟨profile, hbuild, hmap⟩ := buildProfile_ok now info.Profile 0 0 hseg
  have hlen : info.Profile.length ≠ 0 := by
    intro h; exact hprofile (List.length_eq_zero.mp h)
  have hadm : admitWorkload unmarshal devicemap text devmap conn now =
      .ok { name := info.Name, conn := conn, activity := 0, repeats := info.Repeat
            profile := profile, devmap := resolveDevices devicemap info devmap } := by
    simp only [admitWorkload, hparse, if_neg hname, if_neg hlen, if_neg hdev, hbuild]
  refine ⟨_, addWorkload_of_ok _ _ _ _ _ _ _ _ hadm, rfl, rfl, rfl, rfl, rfl, ?_, hmap⟩
  have := congrArg List.length hmap
  simpa using this

theorem addWorkload_admits_valid_witness :
    ∃ wl, addWorkload (exUnmarshal exInfo) exDevicemap [] none (some 3) 1000 [] =
        (true, [] ++ [wl]) ∧
      wl.activity = 0 ∧ wl.repeats = exInfo.Repeat ∧ wl.name = exInfo.Name ∧
      wl.conn = some 3 ∧
      wl.devmap = resolveDevices exDevicemap exInfo none ∧
      wl.profile.length = exInfo.Profile.length ∧
      wl.profile.map (fun s => (s.load, s.fluctuation)) =
        exInfo.Profile.map (fun p => ((p.Load : ℚ) / 100, (p.Fluctuation : ℚ) / 100)) :=
  addWorkload_admits_valid (exUnmarshal exInfo) exDevicemap [] none (some 3) 1000 [] exInfo
    rfl (by decide) (by decide) (by decide) (by decide)

/-- C2: a parsed descriptor with an empty name, an empty profile, or a segment
whose load or fluctuation is outside 0..100 or whose load minus fluctuation is
negative or load plus fluctuation exceeds 100, is refused: `addWorkload`
returns false and the store is exactly what it was. -/
theorem addWorkload_rejects_invalid (unmarshal : List UInt8 → Option workloadInfoT)
    (devicemap : String → Option Nat) (text : List UInt8) (devmap : Option (List Nat))
    (conn : Option Nat) (now : Int) (workload : List workloadT) (info : workloadInfoT)
    (hparse : unmarshal text = some info)
    (hbad : info.Name = "" ∨ info.Profile = [] ∨
      ∃ p ∈ info.Profile, p.Load < 0 ∨ p.Load > 100 ∨ p.Fluctuation < 0 ∨
        p.Fluctuation > 100 ∨ p.Load - p.Fluctuation < 0 ∨ p.Load + p.Fluctuation > 100) :
    addWorkload unmarshal devicemap text devmap conn now workload = (false, workload) := by
  have herr : ∃ e, admitWorkload unmarshal devicemap text devmap conn now = .error e := by
    simp only [admitWorkload, hparse]
    by_cases hn : info.Name = ""
    · exact ⟨.invalidName, by rw [if_pos hn]⟩
    by_cases hp : info.Profile.length = 0
    · exact ⟨.noProfile info.Name, by rw [if_neg hn, if_pos hp]⟩
    by_cases hd : devmapLen (resolveDevices devicemap info devmap) = 0
    · exact ⟨.noDevices info.Name, by rw [if_neg hn, if_neg hp, if_pos hd]⟩
    have hseg : ∃ p ∈ info.Profile, ¬ segmentInRange p := by
      rcases hbad with h | h | ⟨p, hp, hbad⟩
      · exact absurd h hn
      · exact absurd (by rw [h]; rfl) hp
      · exact ⟨p, hp, by unfold segmentInRange; omega⟩
    obtain ⟨e, he⟩ := buildProfile_error now info.Profile 0 0 hseg
    exact ⟨e, by rw [if_neg hn, if_neg hp, if_neg hd, he]⟩
  obtain ⟨e, he⟩ := herr
  exact addWorkload_of_error _ _ _ _ _ _ _ e he

theorem addWorkload_rejects_invalid_witness :
    addWorkload (exUnmarshal exInfoBad) exDevicemap [] none (some 3) 1000 [] = (false, []) :=
  addWorkload_rejects_invalid (exUnmarshal exInfoBad) exDevicemap [] none (some 3) 1000 []
    exInfoBad rfl (Or.inr (Or.inr ⟨{ Load := 50, Fluctuation := 75, Seconds := 0 },
      by decide, by decide⟩))

theorem admitWorkload_of_valid (unmarshal : List UInt8 → Option workloadInfoT)
    (devicemap : String → Option Nat) (text : List UInt8) (devmap : Option (List Nat))
    (conn : Option Nat) (now : Int) (info : workloadInfoT)
    (hparse : unmarshal text = some info)
    (hname : info.Name ≠ "")
    (hprofile : info.Profile ≠ [])
    (hdev : devmapLen (resolveDevices devicemap info devmap) ≠ 0)
    (hseg : ∀ p ∈ info.Profile, segmentInRange p) :
    ∃ profile, admitWorkload unmarshal devicemap text devmap conn now =
      .ok { name := info.Name, conn := conn, activity := 0, repeats := info.Repeat
            profile := profile, devmap := resolveDevices devicemap info devmap } := by
  obtain ⟨profile, hbuild, _⟩ := buildProfile_ok now info.Profile 0 0 hseg
  have hlen : info.Profile.length ≠ 0 := by
    intro h; exact hprofile (List.length_eq_zero.mp h)
  exact ⟨profile, by
    simp only [admitWorkload, hparse, if_neg hname, if_neg hlen, if_neg hdev, hbuild]⟩

/-- C3: device resolution is all-or-nothing.  `mapDevices` returns the nil map
when some name is not in the registry and otherwise the set of the indices the
names map to; a descriptor listing an unknown name is refused whatever the
preset set; an otherwise valid descriptor with no `Devices` and a non-empty
preset set is admitted with the preset set as its device set; an otherwise
valid descriptor whose `Devices` are all known is admitted with the set of
their indices, whatever the preset set; and a descriptor with no `Devices` and
an empty or nil preset set is refused. -/
theorem mapDevices_all_or_nothing (devicemap : String → Option Nat) :
    (∀ names, (∃ n ∈ names, devicemap n = none) → mapDevices devicemap names = none) ∧
    (∀ names, (∀ n ∈ names, devicemap n ≠ none) →
      ∃ keys, mapDevices devicemap names = some keys ∧ keys.Nodup ∧
        ∀ d, d ∈ keys ↔ ∃ n ∈ names, devicemap n = some d) ∧
    (∀ unmarshal text preset conn now workload info, unmarshal text = some info →
      (∃ n ∈ info.Devices, devicemap n = none) →
      addWorkload unmarshal devicemap text preset conn now workload = (false, workload)) ∧
    (∀ unmarshal text preset conn now workload info, unmarshal text = some info →
      info.Name ≠ "" → info.Profile ≠ [] → (∀ p ∈ info.Profile, segmentInRange p) →
      info.Devices = [] → devmapLen preset ≠ 0 →
      ∃ wl, addWorkload unmarshal devicemap text preset conn now workload =
          (true, workload ++ [wl]) ∧
        wl.devmap = preset) ∧
    (∀ unmarshal text preset conn now workload info, unmarshal text = some info →
      info.Name ≠ "" → info.Profile ≠ [] → (∀ p ∈ info.Profile, segmentInRange p) →
      info.Devices ≠ [] → (∀ n ∈ info.Devices, devicemap n ≠ none) →
      ∃ wl keys, addWorkload unmarshal devicemap text preset conn now workload =
          (true, workload ++ [wl]) ∧
        wl.devmap = some keys ∧ keys.Nodup ∧
        ∀ d, d ∈ keys ↔ ∃ n ∈ info.Devices, devicemap n = some d) ∧
    (∀ unmarshal text preset conn now workload info, unmarshal text = some info →
      info.Devices = [] → devmapLen preset = 0 →
      addWorkload unmarshal devicemap text preset conn now workload = (false, workload)) := by
  refine ⟨fun names h => mapDevices_unknown devicemap names h,
    fun names h => mapDevices_known devicemap names h, ?_, ?_, ?_, ?_⟩
  · intro unmarshal text preset conn now workload info hparse hunknown
    have hpos : info.Devices.length > 0 := by
      obtain ⟨n, hn, _⟩ := hunknown
      exact List.length_pos_of_mem hn
    have hdev : devmapLen (resolveDevices devicemap info preset) = 0 := by
      simp only [resolveDevices, if_pos hpos, mapDevices_unknown devicemap _ hunknown, devmapLen]
    obtain ⟨e, he⟩ :=
      admitWorkload_no_devices unmarshal devicemap text preset conn now info hparse hdev
    exact addWorkload_of_error _ _ _ _ _ _ _ e he
  · intro unmarshal text preset conn now workload info hparse hname hprofile hseg hnone hpreset
    have hres : resolveDevices devicemap info preset = preset := by
      simp [resolveDevices, hnone]
    obtain ⟨profile, hadm⟩ := admitWorkload_of_valid unmarshal devicemap text preset conn now
      info hparse hname hprofile (by rw [hres]; exact hpreset) hseg
    exact ⟨_, addWorkload_of_ok _ _ _ _ _ _ _ _ hadm, hres⟩
  · intro unmarshal text preset conn now workload info hparse hname hprofile hseg hsome hknown
    obtain ⟨keys, hkeys, hnodup, hmem⟩ := mapDevices_known devicemap info.Devices hknown
    have hpos : info.Devices.length > 0 := List.length_pos.mpr hsome
    have hres : resolveDevices devicemap info preset = some keys := by
      simp only [resolveDevices, if_pos hpos, hkeys]
    have hne : devmapLen (resolveDevices devicemap info preset) ≠ 0 := by
      rw [hres]
      obtain ⟨n, hn⟩ := List.exists_mem_of_ne_nil _ hsome
      cases hd : devicemap n with
      | none => exact absurd hd (hknown n hn)
      | some d =>
        have hdk : d ∈ keys := (hmem d).mpr ⟨n, hn, hd⟩
        simp only [devmapLen]
        exact Nat.pos_iff_ne_zero.mp (List.length_pos_of_mem hdk)
    obtain ⟨profile, hadm⟩ := admitWorkload_of_valid unmarshal devicemap text preset conn now
      info hparse hname hprofile hne hseg
    exact ⟨_, keys, addWorkload_of_ok _ _ _ _ _ _ _ _ hadm, hres, hnodup, hmem⟩
  · intro unmarshal text preset conn now workload info hparse hnone hpreset
    have hres : resolveDevices devicemap info preset = preset := by
      simp [resolveDevices, hnone]
    obtain ⟨e, he⟩ := admitWorkload_no_devices unmarshal devicemap text preset conn now info
      hparse (by rw [hres]; exact hpreset)
    exact addWorkload_of_error _ _ _ _ _ _ _ e he

theorem mapDevices_all_or_nothing_witness :
    (∃ wl, addWorkload (exUnmarshal exPresetInfo) exDevicemap [] (some [0]) none 1000 [] =
        (true, [] ++ [wl]) ∧
      wl.devmap = some [0]) ∧
    addWorkload (exUnmarshal exPresetInfo) exDevicemap [] none none 1000 [] = (false, []) ∧
    addWorkload (exUnmarshal exInfoUnknown) exDevicemap [] (some [0]) (some 3) 1000 [] =
      (false, []) :=
  have h := mapDevices_all_or_nothing exDevicemap
  ⟨h.2.2.2.1 (exUnmarshal exPresetInfo) [] (some [0]) none 1000 [] exPresetInfo rfl
      (by decide) (by decide) (by decide) rfl (by decide),
    h.2.2.2.2.2 (exUnmarshal exPresetInfo) [] none none 1000 [] exPresetInfo rfl rfl rfl,
    h.2.2.1 (exUnmarshal exInfoUnknown) [] (some [0]) (some 3) 1000 [] exInfoUnknown rfl
      ⟨"card9", by decide, by decide⟩⟩

/-! ## Removal: list lemmas -/

theorem eraseIdxs_cons {α : Type} (l : List α) (k : Nat) (rm : List Nat) :
    eraseIdxs l (k :: rm) = eraseIdxs (l.eraseIdx k) rm := rfl

theorem eraseIdxs_append {α : Type} (l : List α) (a b : List Nat) :
    eraseIdxs l (a ++ b) = eraseIdxs (eraseIdxs l a) b := by
  simp [eraseIdxs, List.foldl_append]

theorem take_eq_of_agree {α : Type} (A B : List α) (n : Nat)
    (h : ∀ j < n, A[j]? = B[j]?) : A.take n = B.take n := by
  apply List.ext_getElem?
  intro j
  rw [List.getElem?_take, List.getElem?_take]
  split
  · rename_i hj; exact h j hj
  · rfl

theorem eraseIdx_perm_of_agree {α : Type} (A B : List α) (k : Nat) (hperm : A.Perm B)
    (h : ∀ j < k + 1, A[j]? = B[j]?) : (A.eraseIdx k).Perm (B.eraseIdx k) := by
  have htake1 : A.take (k + 1) = B.take (k + 1) := take_eq_of_agree A B (k + 1) h
  have htake : A.take k = B.take k :=
    take_eq_of_agree A B k (fun j hj => h j (by omega))
  have hdrop : (A.drop (k + 1)).Perm (B.drop (k + 1)) := by
    have hA := List.take_append_drop (k + 1) A
    have hB := List.take_append_drop (k + 1) B
    rw [← hA, ← hB, htake1] at hperm
    exact (List.perm_append_left_iff _).mp hperm
  rw [List.eraseIdx_eq_take_drop_succ, List.eraseIdx_eq_take_drop_succ, htake]
  exact List.Perm.append_left _ hdrop

theorem eraseIdxs_perm_of_agree {α : Type} (rm : List Nat) :
    ∀ (A B : List α) (r : Nat), A.Perm B → (∀ j < r, A[j]? = B[j]?) →
      rm.Sorted (· > ·) → (∀ k ∈ rm, k < r) → (eraseIdxs A rm).Perm (eraseIdxs B rm) := by
  induction rm with
  | nil => intro A B r hperm _ _ _; exact hperm
  | cons k rest ih =>
    intro A B r hperm hagree hsorted hlt
    have hk : k < r := hlt k (List.mem_cons_self _ _)
    rw [eraseIdxs_cons, eraseIdxs_cons]
    apply ih (A.eraseIdx k) (B.eraseIdx k) k
    · exact eraseIdx_perm_of_agree A B k hperm (fun j hj => hagree j (by omega))
    · intro j hj
      rw [List.getElem?_eraseIdx_of_lt _ _ _ hj, List.getElem?_eraseIdx_of_lt _ _ _ hj]
      exact hagree j (by omega)
    · exact (List.sorted_cons.mp hsorted).2
    · intro k' hk'
      exact (List.sorted_cons.mp hsorted).1 k' hk'

theorem set_perm_eraseIdx_concat {α : Type} (a : α) :
    ∀ (l : List α) (r : Nat), r < l.length → (l.set r a).Perm (l.eraseIdx r ++ [a]) := by
  intro l
  induction l with
  | nil => intro r h; simp at h
  | cons x xs ih =>
    intro r h
    cases r with
    | zero =>
      simp only [List.set_cons_zero, List.eraseIdx_cons_zero]
      exact (List.perm_append_singleton a xs).symm
    | succ r =>
      simp only [List.set_cons_succ, List.eraseIdx_cons_succ, List.cons_append]
      exact List.Perm.cons x (ih r (by simpa using h))

theorem exitTrace_congr (A B : List workloadT) (rm : List Nat)
    (h : ∀ k ∈ rm, A[k]? = B[k]?) : exitTrace A rm = exitTrace B rm := by
  induction rm with
  | nil => rfl
  | cons k rest ih =>
    simp only [exitTrace, h k (List.mem_cons_self _ _)]
    rw [ih (fun k' hk' => h k' (List.mem_cons_of_mem _ hk'))]

theorem exitTrace_append (A : List workloadT) (a b : List Nat) :
    exitTrace A (a ++ b) = exitTrace A a ++ exitTrace A b := by
  induction a with
  | nil => rfl
  | cons k rest ih =>
    show _ ++ exitTrace A (rest ++ b) = (_ ++ exitTrace A rest) ++ exitTrace A b
    rw [ih, List.append_assoc]

/-! ## Removal: the loop of `removeWorkloads` -/

theorem removeLoop_store_lt (L0 junk : List workloadT) (last last1 : workloadT) (r : Nat)
    (h : r < L0.length) :
    ((L0 ++ [last] ++ junk).set r last).set L0.length last1 =
      L0.set r last ++ last1 :: junk := by
  rw [List.append_assoc, List.set_append_left _ _ h,
    List.set_append_right _ _ (by simp)]
  simp

theorem removeLoop_store_eq (L0 junk : List workloadT) (last last1 : workloadT) :
    ((L0 ++ [last] ++ junk).set L0.length last).set L0.length last1 =
      L0 ++ last1 :: junk := by
  rw [List.append_assoc, List.set_append_right _ _ (le_refl _),
    List.set_append_right _ _ (le_refl _)]
  simp

theorem removeLoop_spec (count : Nat) (rm : List Nat) :
    ∀ (i : Nat) (L junk : List workloadT) (tr : List ConnEvent),
      L.length + i = count → junk.length = i → rm.Sorted (· > ·) →
      (∀ r ∈ rm, r < L.length) →
      ∃ L1 junk1, removeLoop count i rm (L ++ junk) tr =
          some (L1 ++ junk1, tr ++ exitTrace L rm) ∧
        L1.length + rm.length = L.length ∧ L1.Perm (eraseIdxs L rm) := by
  induction rm with
  | nil =>
    intro i L junk tr _ _ _ _
    exact ⟨L, junk, by simp [removeLoop, exitTrace], by simp, by simp [eraseIdxs]⟩
  | cons r rest ih =>
    intro i L junk tr hcount hjunk hsorted hlt
    have hr : r < L.length := hlt r (List.mem_cons_self _ _)
    have hrest_sorted := (List.sorted_cons.mp hsorted).2
    have hrest_lt : ∀ k ∈ rest, k < r := fun k hk => (List.sorted_cons.mp hsorted).1 k hk
    rcases List.eq_nil_or_concat L with hnil | ⟨L0, last, hL⟩
    · subst hnil; simp at hr
    rw [List.concat_eq_append] at hL
    subst hL
    have hlen : (L0 ++ [last]).length = L0.length + 1 := by simp
    have hoff : count - i - 1 = L0.length := by omega
    have hnot : ¬ count < i + 1 := by omega
    have hw : (L0 ++ [last])[r]? = some ((L0 ++ [last])[r]) := List.getElem?_eq_getElem hr
    have hw1 : (L0 ++ [last] ++ junk)[r]? = some ((L0 ++ [last])[r]) := by
      rw [List.getElem?_append_left hr]; exact hw
    have hlast : (L0 ++ [last] ++ junk)[L0.length]? = some last := by
      rw [List.append_assoc, List.getElem?_append_right (le_refl _)]
      simp
    have hrle : r ≤ L0.length := by omega
    have hstep : removeLoop count i (r :: rest) (L0 ++ [last] ++ junk) tr =
        removeLoop count (i + 1) rest
          (((L0 ++ [last] ++ junk).set r last).set L0.length { last with devmap := none })
          (tr ++ exitEvents ((L0 ++ [last])[r]).conn) := by
      simp only [removeLoop, if_neg hnot, hoff, hw1, hlast]
    have htrace : ∀ L1 : List workloadT, (∀ k < r, L1[k]? = (L0 ++ [last])[k]?) →
        tr ++ exitEvents ((L0 ++ [last])[r]).conn ++ exitTrace L1 rest =
          tr ++ exitTrace (L0 ++ [last]) (r :: rest) := by
      intro L1 hagree
      rw [exitTrace_congr L1 (L0 ++ [last]) rest (fun k hk => hagree k (hrest_lt k hk))]
      simp only [exitTrace, hw, List.append_assoc]
    rcases Nat.lt_or_ge r L0.length with hlt0 | hge0
    · obtain ⟨L1, junk1, hrun, hlen1, hperm1⟩ :=
        ih (i + 1) (L0.set r last) ({ last with devmap := none } :: junk)
          (tr ++ exitEvents ((L0 ++ [last])[r]).conn)
          (by simp; omega) (by simp; omega) hrest_sorted
          (fun k hk => by have := hrest_lt k hk; simp; omega)
      have hagree : ∀ k < r, (L0.set r last)[k]? = (L0 ++ [last])[k]? := by
        intro k hk
        rw [List.getElem?_set_ne (by omega), List.getElem?_append_left (by omega)]
      refine ⟨L1, junk1, ?_, ?_, ?_⟩
      · rw [hstep, removeLoop_store_lt L0 junk last _ r hlt0, hrun, htrace _ hagree]
      · simp at hlen1 ⊢; omega
      · rw [eraseIdxs_cons, List.eraseIdx_append_of_lt_length hlt0]
        refine hperm1.trans ?_
        apply eraseIdxs_perm_of_agree rest _ _ r (set_perm_eraseIdx_concat last L0 r hlt0)
        · intro k hk
          have hlen2 : (L0.eraseIdx r).length = L0.length - 1 := by
            rw [List.length_eraseIdx, if_pos hlt0]
          rw [List.getElem?_set_ne (by omega), List.getElem?_append_left (by omega),
            List.getElem?_eraseIdx_of_lt _ _ _ hk]
        · exact hrest_sorted
        · exact hrest_lt
    · have hreq : r = L0.length := by omega
      subst hreq
      obtain ⟨L1, junk1, hrun, hlen1, hperm1⟩ :=
        ih (i + 1) L0 ({ last with devmap := none } :: junk)
          (tr ++ exitEvents ((L0 ++ [last])[L0.length]).conn)
          (by omega) (by simp; omega) hrest_sorted (fun k hk => hrest_lt k hk)
      have hagree : ∀ k < L0.length, L0[k]? = (L0 ++ [last])[k]? := by
        intro k hk
        rw [List.getElem?_append_left hk]
      refine ⟨L1, junk1, ?_, ?_, ?_⟩
      · rw [hstep, removeLoop_store_eq L0 junk last _, hrun, htrace _ hagree]
      · simp at hlen1 ⊢; omega
      · rw [eraseIdxs_cons, List.eraseIdx_append_of_length_le (le_refl _)]
        simpa using hperm1

/-! ## One pass of `updateWorkloads` -/

theorem updateLoop_fst (now : Int) (probe : Nat → ProbeResult) (ws : List workloadT) :
    ∀ i, (updateLoop now probe i ws).1 = ws.map (fun wl => (updateOne now probe wl).1) := by
  induction ws with
  | nil => intro i; rfl
  | cons w rest ih => intro i; simp only [updateLoop, List.map_cons, ih (i + 1)]

theorem updateLoop_snd_cons (now : Int) (probe : Nat → ProbeResult) (w : workloadT)
    (rest : List workloadT) (i : Nat) :
    (updateLoop now probe i (w :: rest)).2 =
      if (updateOne now probe w).2 then i :: (updateLoop now probe (i + 1) rest).2
      else (updateLoop now probe (i + 1) rest).2 := rfl

theorem updateLoop_snd_bounds (now : Int) (probe : Nat → ProbeResult) (ws : List workloadT) :
    ∀ i, (∀ k ∈ (updateLoop now probe i ws).2, i ≤ k ∧ k < i + ws.length) ∧
      (updateLoop now probe i ws).2.Sorted (· < ·) := by
  induction ws with
  | nil => intro i; simp [updateLoop]
  | cons w rest ih =>
    intro i
    obtain ⟨hb, hs⟩ := ih (i + 1)
    rw [updateLoop_snd_cons]
    split
    · constructor
      · intro k hk
        rcases List.mem_cons.mp hk with rfl | hk
        · simp
        · have := hb k hk
          simp only [List.length_cons]; omega
      · exact List.sorted_cons.mpr ⟨fun k hk => by have := hb k hk; omega, hs⟩
    · constructor
      · intro k hk
        have := hb k hk
        simp only [List.length_cons]; omega
      · exact hs

theorem keptWorkloads_cons (now : Int) (probe : Nat → ProbeResult) (w : workloadT)
    (rest : List workloadT) :
    keptWorkloads now probe (w :: rest) =
      if (updateOne now probe w).2 then keptWorkloads now probe rest
      else (updateOne now probe w).1 :: keptWorkloads now probe rest := by
  unfold keptWorkloads
  cases h : (updateOne now probe w).2 <;> simp [List.filter_cons, h]

theorem statusTrace_cons (now : Int) (probe : Nat → ProbeResult) (w : workloadT)
    (rest : List workloadT) :
    statusTrace now probe (w :: rest) =
      statusTrace now probe rest ++ statusEvents now probe w := by
  simp [statusTrace, List.flatMap_append]

theorem updateLoop_erase (now : Int) (probe : Nat → ProbeResult) (ws : List workloadT) :
    ∀ (i : Nat) (pre : List workloadT), pre.length = i →
      eraseIdxs (pre ++ ws.map (fun wl => (updateOne now probe wl).1))
        (updateLoop now probe i ws).2.reverse = pre ++ keptWorkloads now probe ws := by
  induction ws with
  | nil => intro i pre _; simp [updateLoop, eraseIdxs, keptWorkloads]
  | cons w rest ih =>
    intro i pre hpre
    have hrest := ih (i + 1) (pre ++ [(updateOne now probe w).1]) (by simp [hpre])
    simp only [List.append_assoc, List.singleton_append] at hrest
    rw [updateLoop_snd_cons, keptWorkloads_cons, List.map_cons]
    split
    · rw [List.reverse_cons, eraseIdxs_append, hrest, eraseIdxs_cons,
        List.eraseIdx_append_of_length_le (by omega)]
      simp [eraseIdxs, hpre]
    · exact hrest

theorem updateLoop_trace (now : Int) (probe : Nat → ProbeResult) (ws : List workloadT) :
    ∀ (i : Nat) (pre : List workloadT), pre.length = i →
      exitTrace (pre ++ ws.map (fun wl => (updateOne now probe wl).1))
        (updateLoop now probe i ws).2.reverse = statusTrace now probe ws := by
  induction ws with
  | nil => intro i pre _; simp [updateLoop, exitTrace, statusTrace]
  | cons w rest ih =>
    intro i pre hpre
    have hrest := ih (i + 1) (pre ++ [(updateOne now probe w).1]) (by simp [hpre])
    simp only [List.append_assoc, List.singleton_append] at hrest
    rw [updateLoop_snd_cons, statusTrace_cons, List.map_cons]
    split
    · rename_i hmark
      have hget : (pre ++ (updateOne now probe w).1 ::
          rest.map (fun wl => (updateOne now probe wl).1))[i]? =
          some (updateOne now probe w).1 := by
        rw [List.getElem?_append_right (by omega)]
        simp [hpre]
      rw [List.reverse_cons, exitTrace_append, hrest]
      simp [exitTrace, hget, statusEvents, hmark]
    · rename_i hmark
      rw [hrest]
      simp [statusEvents, hmark]

theorem insertionSort_ge_of_sorted_lt (rm : List Nat) (h : rm.Sorted (· < ·)) :
    rm.insertionSort (fun a b => a ≥ b) = rm.reverse := by
  apply List.eq_of_perm_of_sorted (r := fun a b : Nat => a ≥ b)
  · exact (List.perm_insertionSort _ rm).trans (List.reverse_perm rm).symm
  · exact List.sorted_insertionSort _ rm
  · have : rm.reverse.Sorted (· > ·) := List.pairwise_reverse.mpr h
    exact List.Pairwise.imp (fun hab => Nat.le_of_lt hab) this

/-- One pass of `updateWorkloads` never fails; it sends the status events of
the marked workloads, from the last index down, and keeps (in some order) the
updates of the workloads that were not marked. -/
theorem updateWorkloads_spec (now : Int) (probe : Nat → ProbeResult) (ws : List workloadT)
    (tr : List ConnEvent) :
    ∃ ws1, updateWorkloads now probe ws tr = some (ws1, tr ++ statusTrace now probe ws) ∧
      ws1.Perm (keptWorkloads now probe ws) := by
  have herase := updateLoop_erase now probe ws 0 [] rfl
  have htrace := updateLoop_trace now probe ws 0 [] rfl
  obtain ⟨hb, hs⟩ := updateLoop_snd_bounds now probe ws 0
  simp only [List.nil_append] at herase htrace
  unfold updateWorkloads removeWorkloads
  simp only [updateLoop_fst]
  by_cases hrm : (updateLoop now probe 0 ws).2.length = 0
  · have hnil : (updateLoop now probe 0 ws).2 = [] := List.length_eq_zero.mp hrm
    rw [hnil] at herase htrace
    simp only [List.reverse_nil, eraseIdxs, List.foldl_nil, exitTrace] at herase htrace
    refine ⟨ws.map (fun wl => (updateOne now probe wl).1), ?_, ?_⟩
    · simp [hrm, ← htrace]
    · rw [herase]
  · obtain ⟨L1, junk1, hrun, hlen, hperm⟩ :=
      removeLoop_spec (ws.map (fun wl => (updateOne now probe wl).1)).length
        (updateLoop now probe 0 ws).2.reverse 0
        (ws.map (fun wl => (updateOne now probe wl).1)) [] tr rfl rfl
        (List.pairwise_reverse.mpr hs)
        (fun k hk => by
          have := hb k (List.mem_reverse.mp hk)
          simp only [List.length_map]; omega)
    rw [List.append_nil] at hrun
    rw [if_neg hrm, insertionSort_ge_of_sorted_lt _ hs, hrun]
    simp only [List.length_reverse] at hlen
    have hnot : ¬ (ws.map (fun wl => (updateOne now probe wl).1)).length <
        (updateLoop now probe 0 ws).2.length := by omega
    refine ⟨L1, ?_, ?_⟩
    · simp only [if_neg hnot, htrace]
      have htake : (ws.map (fun wl => (updateOne now probe wl).1)).length -
          (updateLoop now probe 0 ws).2.length = L1.length := by omega
      rw [htake, List.take_left']
      rfl
    · rw [← herase]; exact hperm

/-! ## One workload in one pass -/

theorem updateOne_disconnected (now : Int) (probe : Nat → ProbeResult) (wl : workloadT)
    (h : disconnected probe wl = true) :
    updateOne now probe wl = ({ wl with conn := none }, true) := by
  simp only [updateOne, h, if_true]

theorem completes_of_disconnected (now : Int) (probe : Nat → ProbeResult) (wl : workloadT)
    (h : disconnected probe wl = true) : completes now probe wl = false := by
  simp [completes, h]

theorem updateOne_completes (now : Int) (probe : Nat → ProbeResult) (wl : workloadT)
    (h : completes now probe wl = true) : updateOne now probe wl = (wl, true) := by
  simp only [completes, Bool.and_eq_true, Bool.not_eq_true', decide_eq_true_eq] at h
  obtain ⟨⟨⟨h1, h2⟩, h3⟩, h4⟩ := h
  have h5 : ¬ skipExpired now (wl.profile.drop wl.activity) wl.activity < wl.profile.length := by
    omega
  simp [updateOne, h1, if_neg h2, if_neg h5, if_pos h4]

theorem updateOne_snd (now : Int) (probe : Nat → ProbeResult) (wl : workloadT) :
    (updateOne now probe wl).2 = (disconnected probe wl || completes now probe wl) := by
  cases hd : disconnected probe wl with
  | true => rw [updateOne_disconnected now probe wl hd] ; rfl
  | false =>
    cases hc : completes now probe wl with
    | true => rw [updateOne_completes now probe wl hc] ; rfl
    | false =>
      simp only [completes, hd, Bool.not_false, Bool.true_and, Bool.and_eq_false_iff,
        decide_eq_false_iff_not, not_not, not_le] at hc
      simp only [updateOne, hd, Bool.false_eq_true, if_false, Bool.or_false]
      split
      · rfl
      split
      · rfl
      split
      · rename_i h1 h2 h3
        rcases hc with (hc | hc) | hc
        · exact absurd hc h1
        · exact absurd hc h2
        · exact absurd h3 hc
      · rfl

theorem statusEvents_eq (now : Int) (probe : Nat → ProbeResult) (wl : workloadT) :
    statusEvents now probe wl = if completes now probe wl then exitEvents wl.conn else [] := by
  unfold statusEvents
  cases hd : disconnected probe wl with
  | true =>
    rw [updateOne_disconnected now probe wl hd, completes_of_disconnected now probe wl hd]
    rfl
  | false =>
    cases hc : completes now probe wl with
    | true => rw [updateOne_completes now probe wl hc]
    | false =>
      have := updateOne_snd now probe wl
      rw [hd, hc] at this
      simp [this]

theorem addWorkload_fst (unmarshal : List UInt8 → Option workloadInfoT)
    (devicemap : String → Option Nat) (text : List UInt8) (devmap : Option (List Nat))
    (conn : Option Nat) (now : Int) (workload : List workloadT) :
    addWorkload unmarshal devicemap text devmap conn now workload =
      ((addWorkload unmarshal devicemap text devmap conn now []).1,
        workload ++ (addWorkload unmarshal devicemap text devmap conn now []).2) := by
  unfold addWorkload
  cases admitWorkload unmarshal devicemap text devmap conn now <;> simp

theorem acceptOne_eq (unmarshal : List UInt8 → Option workloadInfoT)
    (devicemap : String → Option Nat) (read : Nat → ReadResult) (clock : Nat → Int)
    (ws : List workloadT) (tr : List ConnEvent) (c : Nat) :
    acceptOne unmarshal devicemap read clock (ws, tr) c =
      (ws ++ submissionAdmitted unmarshal devicemap read clock c,
        tr ++ (if submissionRejected unmarshal devicemap read clock c
          then [ConnEvent.write c wlExitError, ConnEvent.close c] else [])) := by
  unfold acceptOne submissionAdmitted submissionRejected
  by_cases h : (read c).count ≤ 0 ∨ (read c).err = true
  · have h2 : (decide ((read c).count ≤ 0) || (read c).err) = true := by
      simpa using h
    simp [h, h2]
  · have h2 : (decide ((read c).count ≤ 0) || (read c).err) = false := by
      simpa using h
    dsimp only
    rw [addWorkload_fst unmarshal devicemap _ none (some c) (clock c) ws]
    simp only [if_neg h, h2, Bool.false_or]
    cases (addWorkload unmarshal devicemap ((read c).data.take (read c).count.toNat) none
      (some c) (clock c) []).1 <;> simp

theorem acceptWorkloads_eq (unmarshal : List UInt8 → Option workloadInfoT)
    (devicemap : String → Option Nat) (read : Nat → ReadResult) (clock : Nat → Int)
    (connections : List Nat) :
    ∀ (ws : List workloadT) (tr : List ConnEvent),
      acceptWorkloads unmarshal devicemap read clock connections ws tr =
        (ws ++ connections.flatMap (submissionAdmitted unmarshal devicemap read clock),
          tr ++ connections.flatMap (fun c =>
            if submissionRejected unmarshal devicemap read clock c
            then [ConnEvent.write c wlExitError, ConnEvent.close c] else [])) := by
  induction connections with
  | nil => intro ws tr; simp [acceptWorkloads]
  | cons c rest ih =>
    intro ws tr
    have := ih (ws ++ submissionAdmitted unmarshal devicemap read clock c)
      (tr ++ (if submissionRejected unmarshal devicemap read clock c
          then [ConnEvent.write c wlExitError, ConnEvent.close c] else []))
    unfold acceptWorkloads at this ⊢
    rw [List.foldl_cons, acceptOne_eq, this]
    simp [List.flatMap_cons, List.append_assoc]

theorem statusTrace_eq (now : Int) (probe : Nat → ProbeResult) (ws : List workloadT) :
    statusTrace now probe ws =
      ws.reverse.flatMap (fun wl => if completes now probe wl then exitEvents wl.conn else []) := by
  unfold statusTrace
  congr 1
  funext wl
  exact statusEvents_eq now probe wl

theorem write_mem_statusTrace (now : Int) (probe : Nat → ProbeResult) (ws : List workloadT)
    (c : Nat) (data : String) (h : ConnEvent.write c data ∈ statusTrace now probe ws) :
    data = wlExitOK ∧ ∃ wl ∈ ws, wl.conn = some c ∧ completes now probe wl = true := by
  rw [statusTrace_eq, List.mem_flatMap] at h
  obtain ⟨wl, hwl, hev⟩ := h
  cases hc : completes now probe wl with
  | false => simp [hc] at hev
  | true =>
    rw [hc, if_pos rfl] at hev
    cases hconn : wl.conn with
    | none => simp [hconn, exitEvents] at hev
    | some c1 =>
      simp only [hconn, exitEvents, List.mem_cons, ConnEvent.write.injEq, List.mem_singleton,
        reduceCtorEq, or_false, List.not_mem_nil] at hev
      obtain ⟨rfl, rfl⟩ := hev
      exact ⟨rfl, wl, List.mem_reverse.mp hwl, hconn, hc⟩

/-! ## Status bytes: claims -/

/-- C4: in the drain loop every refused submission (nothing read, read error,
or `addWorkload` returning false) gets exactly the byte "1" followed by close
and adds no workload, and an admitted one gets nothing; in `updateWorkloads`
the byte "0" is written only to the connection of a stored workload that is
not found disconnected, has repeat 1 and whose cursor moved past the last
segment. -/
theorem status_bytes_of_rejection_and_completion
    (unmarshal : List UInt8 → Option workloadInfoT) (devicemap : String → Option Nat)
    (read : Nat → ReadResult) (clock : Nat → Int) :
    (∀ connections ws tr,
      acceptWorkloads unmarshal devicemap read clock connections ws tr =
        (ws ++ connections.flatMap (submissionAdmitted unmarshal devicemap read clock),
          tr ++ connections.flatMap (fun c =>
            if submissionRejected unmarshal devicemap read clock c
            then [ConnEvent.write c wlExitError, ConnEvent.close c] else []))) ∧
    (∀ c, submissionRejected unmarshal devicemap read clock c = true →
      submissionAdmitted unmarshal devicemap read clock c = []) ∧
    wlExitError = "1" ∧ wlExitOK = "0" ∧
    (∀ now probe ws tr, ∃ ws1 sent,
      updateWorkloads now probe ws tr = some (ws1, tr ++ sent) ∧
      ∀ c data, ConnEvent.write c data ∈ sent →
        data = wlExitOK ∧ ∃ wl ∈ ws, wl.conn = some c ∧ disconnected probe wl = false ∧
          wl.repeats = 1 ∧
          skipExpired now (wl.profile.drop wl.activity) wl.activity ≠ wl.activity ∧
          wl.profile.length ≤ skipExpired now (wl.profile.drop wl.activity) wl.activity) := by
  refine ⟨fun connections ws tr =>
      acceptWorkloads_eq unmarshal devicemap read clock connections ws tr, ?_, rfl, rfl, ?_⟩
  · intro c h
    simp only [submissionAdmitted, h, if_true]
  · intro now probe ws tr
    obtain ⟨ws1, hrun, _⟩ := updateWorkloads_spec now probe ws tr
    refine ⟨ws1, statusTrace now probe ws, hrun, ?_⟩
    intro c data hmem
    obtain ⟨hdata, wl, hwl, hconn, hc⟩ := write_mem_statusTrace now probe ws c data hmem
    simp only [completes, Bool.and_eq_true, Bool.not_eq_true', decide_eq_true_eq] at hc
    obtain ⟨⟨⟨h1, h2⟩, h3⟩, h4⟩ := hc
    exact ⟨hdata, wl, hwl, hconn, h1, h4, h2, h3⟩

/-- C6, as the claim states it, fails: a run-once workload on connection 3
whose peer has closed is removed by `updateWorkloads` (the store becomes empty)
and no event at all is recorded for the connection: no status byte is written. -/
theorem disconnect_removal_writes_nothing :
    updateWorkloads 2000 (fun _ => ProbeResult.closed) [exLive] [] = some ([], []) := by
  decide

/-- C6, amended: one pass of `updateWorkloads` never fails and sends, for each
stored workload that completes (live, repeat 1, cursor past the last segment)
and has a connection, exactly the byte "0" followed by close, and nothing
else; a workload found disconnected is marked for removal and gets no status
write; the store keeps the updates of the unmarked workloads; a refused
submission in the drain loop gets exactly "1" followed by close. -/
theorem removal_status_events (now : Int) (probe : Nat → ProbeResult) (ws : List workloadT)
    (tr : List ConnEvent) :
    (∃ ws1, updateWorkloads now probe ws tr =
        some (ws1, tr ++ ws.reverse.flatMap (fun wl =>
          if completes now probe wl then exitEvents wl.conn else [])) ∧
      ws1.Perm (keptWorkloads now probe ws)) ∧
    (∀ wl, (updateOne now probe wl).2 =
      (disconnected probe wl || completes now probe wl)) ∧
    (∀ wl, disconnected probe wl = true → completes now probe wl = false) ∧
    (∀ c, exitEvents (some c) = [ConnEvent.write c "0", ConnEvent.close c]) ∧
    (∀ unmarshal devicemap read clock c ws0 tr0,
      submissionRejected unmarshal devicemap read clock c = true →
      acceptOne unmarshal devicemap read clock (ws0, tr0) c =
        (ws0, tr0 ++ [ConnEvent.write c "1", ConnEvent.close c])) := by
  refine ⟨?_, fun wl => updateOne_snd now probe wl,
    fun wl h => completes_of_disconnected now probe wl h, fun c => rfl, ?_⟩
  · obtain ⟨ws1, hrun, hperm⟩ := updateWorkloads_spec now probe ws tr
    exact ⟨ws1, by rw [hrun, statusTrace_eq], hperm⟩
  · intro unmarshal devicemap read clock c ws0 tr0 h
    rw [acceptOne_eq]
    simp [submissionAdmitted, h, wlExitError]

/-! ## Segments without duration -/

theorem addWorkload_true_inv (unmarshal : List UInt8 → Option workloadInfoT)
    (devicemap : String → Option Nat) (text : List UInt8) (devmap : Option (List Nat))
    (conn : Option Nat) (now : Int) (workload : List workloadT) (wl : workloadT)
    (h : addWorkload unmarshal devicemap text devmap conn now workload =
      (true, workload ++ [wl])) :
    admitWorkload unmarshal devicemap text devmap conn now = .ok wl := by
  unfold addWorkload at h
  cases hadm : admitWorkload unmarshal devicemap text devmap conn now with
  | error e => rw [hadm] at h; simp at h
  | ok wl1 =>
    rw [hadm] at h
    simp only [Prod.mk.injEq, true_and, List.append_cancel_left_eq, List.cons.injEq,
      and_true] at h
    rw [h]

theorem admitWorkload_ok_inv (unmarshal : List UInt8 → Option workloadInfoT)
    (devicemap : String → Option Nat) (text : List UInt8) (devmap : Option (List Nat))
    (conn : Option Nat) (now : Int) (info : workloadInfoT) (wl : workloadT)
    (hparse : unmarshal text = some info)
    (h : admitWorkload unmarshal devicemap text devmap conn now = .ok wl) :
    ∃ profile, buildProfile now 0 0 info.Profile = .ok profile ∧
      wl = { name := info.Name, conn := conn, activity := 0, repeats := info.Repeat
             profile := profile, devmap := resolveDevices devicemap info devmap } ∧
      info.Name ≠ "" ∧ info.Profile.length ≠ 0 ∧
      devmapLen (resolveDevices devicemap info devmap) ≠ 0 := by
  simp only [admitWorkload, hparse] at h
  by_cases hn : info.Name = ""
  · rw [if_pos hn] at h; cases h
  by_cases hp : info.Profile.length = 0
  · rw [if_neg hn, if_pos hp] at h; cases h
  by_cases hd : devmapLen (resolveDevices devicemap info devmap) = 0
  · rw [if_neg hn, if_neg hp, if_pos hd] at h; cases h
  rw [if_neg hn, if_neg hp, if_neg hd] at h
  cases hbuild : buildProfile now 0 0 info.Profile with
  | error e => rw [hbuild] at h; cases h
  | ok profile =>
    rw [hbuild] at h
    cases h
    exact ⟨profile, rfl, rfl, hn, hp, hd⟩

theorem wrapInt64_day : wrapInt64 (0 + 24 * hour) = 24 * hour := by decide

theorem buildProfile_single_zero (now : Int) (p : wlProfileT) (profile : List devProfileT)
    (hsec : p.Seconds = 0) (h : buildProfile now 0 0 [p] = .ok profile) :
    profile = [{ load := (p.Load : ℚ) / 100, fluctuation := (p.Fluctuation : ℚ) / 100
                 deadline := now + 24 * hour, seconds := 24 * hour }] := by
  simp only [buildProfile, hsec, lt_self_iff_false, if_false, wrapInt64_day] at h
  split at h
  · cases h
  split at h
  · cases h
  · cases h; rfl

theorem statusTrace_append (now : Int) (probe : Nat → ProbeResult) (a b : List workloadT) :
    statusTrace now probe (a ++ b) = statusTrace now probe b ++ statusTrace now probe a := by
  simp [statusTrace, List.flatMap_append]

theorem keptWorkloads_append (now : Int) (probe : Nat → ProbeResult) (a b : List workloadT) :
    keptWorkloads now probe (a ++ b) = keptWorkloads now probe a ++ keptWorkloads now probe b := by
  simp [keptWorkloads, List.filter_append]

/-- C5, as the claim states it, fails: the run-once descriptor `exZero`, whose
single segment has `Seconds` zero, is admitted on connection 3 at time 1000;
the `updateWorkloads` pass of the same scrape and that of a scrape fifteen
seconds later both leave it in the store and write nothing. -/
theorem zero_seconds_survives_next_tick :
    acceptWorkloads (exUnmarshal exZero) exDevicemap exRead (fun _ => 1000) [3] [] [] =
        ([exZeroStored], []) ∧
      updateWorkloads 1000 (fun _ => ProbeResult.deadlineExceeded) [exZeroStored] [] =
        some ([exZeroStored], []) ∧
      updateWorkloads (1000 + 15 * second) (fun _ => ProbeResult.deadlineExceeded)
        [exZeroStored] [] = some ([exZeroStored], []) :=
  ⟨rfl, rfl, rfl⟩

theorem updateOne_run_once_single (now : Int) (probe : Nat → ProbeResult) (wl : workloadT)
    (c : Nat) (seg : devProfileT) (hconn : wl.conn = some c)
    (hprobe : probe c = ProbeResult.deadlineExceeded) (hact : wl.activity = 0)
    (hrep : wl.repeats = 1) (hprof : wl.profile = [seg]) :
    updateOne now probe wl = (wl, decide (seg.deadline ≤ now)) := by
  have hd : disconnected probe wl = false := by
    simp [disconnected, hconn, hprobe, ProbeResult.isDeadlineExceeded]
  by_cases hnow : now < seg.deadline
  · have hskip : skipExpired now (wl.profile.drop wl.activity) wl.activity = wl.activity := by
      simp [hprof, hact, skipExpired, hnow]
    have hdec : decide (seg.deadline ≤ now) = false := by simpa using hnow
    simp only [updateOne, hd, Bool.false_eq_true, if_false, hskip, if_true, hdec]
  · have hskip : skipExpired now (wl.profile.drop wl.activity) wl.activity = 1 := by
      simp [hprof, hact, skipExpired, hnow]
    have hdec : decide (seg.deadline ≤ now) = true := by simpa using hnow
    simp only [updateOne, hd, Bool.false_eq_true, if_false, hskip, hdec]
    simp [hact, hprof, hrep]

theorem keptWorkloads_single (now : Int) (probe : Nat → ProbeResult) (wl : workloadT) :
    keptWorkloads now probe [wl] =
      if (updateOne now probe wl).2 then [] else [(updateOne now probe wl).1] := by
  rw [keptWorkloads_cons]
  split <;> rfl

theorem statusTrace_single (now : Int) (probe : Nat → ProbeResult) (wl : workloadT) :
    statusTrace now probe [wl] = statusEvents now probe wl := by
  simp [statusTrace]

/-- C5, amended: a workload admitted on a connection with repeat 1 and a
single segment whose `Seconds` is zero has the deadline admission time plus 24
hours.  While its connection probes as open, every `updateWorkloads` pass at a
time before that deadline keeps it unchanged in the store and writes nothing
to its connection, and a pass at or after the deadline removes it, writes "0"
to its connection and closes it. -/
theorem zero_seconds_run_once_lifetime (unmarshal : List UInt8 → Option workloadInfoT)
    (devicemap : String → Option Nat) (text : List UInt8) (devmap : Option (List Nat))
    (c : Nat) (t0 : Int) (ws0 : List workloadT) (info : workloadInfoT) (p : wlProfileT)
    (wl : workloadT)
    (hparse : unmarshal text = some info) (hrep : info.Repeat = 1)
    (hprof : info.Profile = [p]) (hsec : p.Seconds = 0)
    (hadm : addWorkload unmarshal devicemap text devmap (some c) t0 ws0 =
      (true, ws0 ++ [wl])) :
    wl.profile.map (fun s => s.deadline) = [t0 + 24 * hour] ∧
    (∀ now probe pre post tr, probe c = ProbeResult.deadlineExceeded → now < t0 + 24 * hour →
      ∃ ws1, updateWorkloads now probe (pre ++ wl :: post) tr =
          some (ws1, tr ++ (statusTrace now probe post ++ statusTrace now probe pre)) ∧
        ws1.Perm (keptWorkloads now probe pre ++ wl :: keptWorkloads now probe post)) ∧
    (∀ now probe pre post tr, probe c = ProbeResult.deadlineExceeded → t0 + 24 * hour ≤ now →
      ∃ ws1, updateWorkloads now probe (pre ++ wl :: post) tr =
          some (ws1, tr ++ (statusTrace now probe post ++
            [ConnEvent.write c "0", ConnEvent.close c] ++ statusTrace now probe pre)) ∧
        ws1.Perm (keptWorkloads now probe pre ++ keptWorkloads now probe post)) := by
  have hok := addWorkload_true_inv unmarshal devicemap text devmap (some c) t0 ws0 wl hadm
  obtain ⟨profile, hbuild, hwl, _, _, _⟩ :=
    admitWorkload_ok_inv unmarshal devicemap text devmap (some c) t0 info wl hparse hok
  rw [hprof] at hbuild
  have hprofile := buildProfile_single_zero t0 p profile hsec hbuild
  have hone : ∀ now probe, probe c = ProbeResult.deadlineExceeded →
      updateOne now probe wl = (wl, decide (t0 + 24 * hour ≤ now)) := by
    intro now probe hprobe
    exact updateOne_run_once_single now probe wl c _ (by rw [hwl]) hprobe (by rw [hwl])
      (by rw [hwl]; exact hrep) (by rw [hwl, hprofile])
  refine ⟨by rw [hwl, hprofile]; rfl, ?_, ?_⟩
  · intro now probe pre post tr hprobe hnow
    obtain ⟨ws1, hrun, hperm⟩ := updateWorkloads_spec now probe (pre ++ wl :: post) tr
    have hdec : decide (t0 + 24 * hour ≤ now) = false := by simpa using hnow
    have hcons : wl :: post = [wl] ++ post := rfl
    refine ⟨ws1, ?_, ?_⟩
    · rw [hrun, statusTrace_append, hcons, statusTrace_append, statusTrace_single,
        statusEvents, hone now probe hprobe, hdec]
      simp
    · rw [keptWorkloads_append, hcons, keptWorkloads_append, keptWorkloads_single,
        hone now probe hprobe, hdec] at hperm
      simpa using hperm
  · intro now probe pre post tr hprobe hnow
    obtain ⟨ws1, hrun, hperm⟩ := updateWorkloads_spec now probe (pre ++ wl :: post) tr
    have hdec : decide (t0 + 24 * hour ≤ now) = true := by simpa using hnow
    have hcons : wl :: post = [wl] ++ post := rfl
    have hconn : wl.conn = some c := by rw [hwl]
    refine ⟨ws1, ?_, ?_⟩
    · rw [hrun, statusTrace_append, hcons, statusTrace_append, statusTrace_single,
        statusEvents, hone now probe hprobe, hdec]
      simp [hconn, exitEvents, wlExitOK]
    · rw [keptWorkloads_append, hcons, keptWorkloads_append, keptWorkloads_single,
        hone now probe hprobe, hdec] at hperm
      simpa using hperm

theorem zero_seconds_run_once_lifetime_witness :
    exZeroStored.profile.map (fun s => s.deadline) = [1000 + 24 * hour] ∧
    (∀ now probe pre post tr, probe 3 = ProbeResult.deadlineExceeded →
      now < 1000 + 24 * hour →
      ∃ ws1, updateWorkloads now probe (pre ++ exZeroStored :: post) tr =
          some (ws1, tr ++ (statusTrace now probe post ++ statusTrace now probe pre)) ∧
        ws1.Perm (keptWorkloads now probe pre ++ exZeroStored :: keptWorkloads now probe post)) ∧
    (∀ now probe pre post tr, probe 3 = ProbeResult.deadlineExceeded →
      1000 + 24 * hour ≤ now →
      ∃ ws1, updateWorkloads now probe (pre ++ exZeroStored :: post) tr =
          some (ws1, tr ++ (statusTrace now probe post ++
            [ConnEvent.write 3 "0", ConnEvent.close 3] ++ statusTrace now probe pre)) ∧
        ws1.Perm (keptWorkloads now probe pre ++ keptWorkloads now probe post)) :=
  zero_seconds_run_once_lifetime (exUnmarshal exZero) exDevicemap [] none 3 1000 [] exZero
    { Load := 50, Fluctuation := 10, Seconds := 0 } exZeroStored rfl rfl rfl rfl rfl

/-! ## Workloads that repeat forever -/

theorem updateOne_repeat_zero (now : Int) (probe : Nat → ProbeResult) (wl : workloadT)
    (hrep : wl.repeats = 0) (hlive : disconnected probe wl = false) :
    (updateOne now probe wl).2 = false ∧ (updateOne now probe wl).1.repeats = 0 ∧
      (updateOne now probe wl).1.conn = wl.conn ∧
      (updateOne now probe wl).1.name = wl.name ∧
      (updateOne now probe wl).1.devmap = wl.devmap ∧
      (skipExpired now (wl.profile.drop wl.activity) wl.activity ≠ wl.activity →
        wl.profile.length ≤ skipExpired now (wl.profile.drop wl.activity) wl.activity →
        (updateOne now probe wl).1.activity = 0) := by
  simp only [updateOne, hlive, Bool.false_eq_true, if_false, hrep]
  split
  · rename_i h; exact ⟨rfl, hrep, rfl, rfl, rfl, fun hne => absurd h hne⟩
  split
  · rename_i h; exact ⟨rfl, rfl, rfl, rfl, rfl, fun _ hle => by omega⟩
  · simp

theorem mem_keptWorkloads (now : Int) (probe : Nat → ProbeResult) (ws : List workloadT)
    (wl : workloadT) (hmem : wl ∈ ws) (hkeep : (updateOne now probe wl).2 = false) :
    (updateOne now probe wl).1 ∈ keptWorkloads now probe ws := by
  unfold keptWorkloads
  exact List.mem_map.mpr ⟨wl, List.mem_filter.mpr ⟨hmem, by simp [hkeep]⟩, rfl⟩

theorem disconnected_of_live (probe : Nat → ProbeResult) (wl : workloadT)
    (hlive : wl.conn = none ∨ ∃ c, wl.conn = some c ∧ probe c = ProbeResult.deadlineExceeded) :
    disconnected probe wl = false := by
  rcases hlive with h | ⟨c, h, hp⟩
  · simp [disconnected, h]
  · simp [disconnected, h, hp, ProbeResult.isDeadlineExceeded]

theorem updateTicks_keeps_repeat_zero (conn : Option Nat) (name : String)
    (devmap : Option (List Nat)) (ticks : List (Int × (Nat → ProbeResult))) :
    ∀ (ws : List workloadT) (tr : List ConnEvent),
      (∀ t ∈ ticks, conn = none ∨ ∃ c, conn = some c ∧ t.2 c = ProbeResult.deadlineExceeded) →
      (∃ wl ∈ ws, wl.repeats = 0 ∧ wl.conn = conn ∧ wl.name = name ∧ wl.devmap = devmap) →
      ∃ ws1 tr1, updateTicks ticks ws tr = some (ws1, tr1) ∧
        ∃ wl ∈ ws1, wl.repeats = 0 ∧ wl.conn = conn ∧ wl.name = name ∧ wl.devmap = devmap := by
  induction ticks with
  | nil => intro ws tr _ h; exact ⟨ws, tr, rfl, h⟩
  | cons t rest ih =>
    intro ws tr hprobe hex
    obtain ⟨wl, hmem, hrep, hconn, hname, hdev⟩ := hex
    have hlive : disconnected t.2 wl = false :=
      disconnected_of_live t.2 wl (by rw [hconn]; exact hprobe t (List.mem_cons_self _ _))
    obtain ⟨h1, h2, h3, h4, h5, _⟩ := updateOne_repeat_zero t.1 t.2 wl hrep hlive
    obtain ⟨ws1, hrun, hperm⟩ := updateWorkloads_spec t.1 t.2 ws tr
    have hmem1 : (updateOne t.1 t.2 wl).1 ∈ ws1 :=
      hperm.mem_iff.mpr (mem_keptWorkloads t.1 t.2 ws wl hmem h1)
    obtain ⟨ws2, tr2, hrun2, hex2⟩ := ih ws1 (tr ++ statusTrace t.1 t.2 ws)
      (fun t1 ht1 => hprobe t1 (List.mem_cons_of_mem _ ht1))
      ⟨_, hmem1, h2, h3.trans hconn, h4.trans hname, h5.trans hdev⟩
    exact ⟨ws2, tr2, by simp only [updateTicks, hrun, hrun2], hex2⟩

/-- C10: a stored workload with repeat 0 whose connection is absent or probes
as still open is not marked for removal by `updateWorkloads`, at any time
`now`: its update is in the store after the pass, with repeat 0, and with the
cursor back at 0 when the cursor passed the last segment; and over any sequence
of passes in which its connection probes as open it stays in the store with
repeat 0. -/
theorem repeat_zero_never_removed (wl : workloadT) (hrep : wl.repeats = 0) :
    (∀ now probe,
      (wl.conn = none ∨ ∃ c, wl.conn = some c ∧ probe c = ProbeResult.deadlineExceeded) →
      (updateOne now probe wl).2 = false ∧ (updateOne now probe wl).1.repeats = 0 ∧
      (updateOne now probe wl).1.conn = wl.conn ∧
      (skipExpired now (wl.profile.drop wl.activity) wl.activity ≠ wl.activity →
        wl.profile.length ≤ skipExpired now (wl.profile.drop wl.activity) wl.activity →
        (updateOne now probe wl).1.activity = 0) ∧
      ∀ ws tr, wl ∈ ws → ∃ ws1 tr1, updateWorkloads now probe ws tr = some (ws1, tr1) ∧
        (updateOne now probe wl).1 ∈ ws1) ∧
    (∀ ticks ws tr, wl ∈ ws →
      (∀ t ∈ ticks, wl.conn = none ∨
        ∃ c, wl.conn = some c ∧ t.2 c = ProbeResult.deadlineExceeded) →
      ∃ ws1 tr1, updateTicks ticks ws tr = some (ws1, tr1) ∧
        ∃ wl1 ∈ ws1, wl1.repeats = 0 ∧ wl1.conn = wl.conn ∧ wl1.name = wl.name ∧
          wl1.devmap = wl.devmap) := by
  constructor
  · intro now probe hlive
    have hd := disconnected_of_live probe wl hlive
    obtain ⟨h1, h2, h3, _, _, h6⟩ := updateOne_repeat_zero now probe wl hrep hd
    refine ⟨h1, h2, h3, h6, ?_⟩
    intro ws tr hmem
    obtain ⟨ws1, hrun, hperm⟩ := updateWorkloads_spec now probe ws tr
    exact ⟨ws1, _, hrun, hperm.mem_iff.mpr (mem_keptWorkloads now probe ws wl hmem h1)⟩
  · intro ticks ws tr hmem hprobe
    exact updateTicks_keeps_repeat_zero wl.conn wl.name wl.devmap ticks ws tr hprobe
      ⟨wl, hmem, hrep, rfl, rfl, rfl⟩

theorem repeat_zero_never_removed_witness :
    updateWorkloads 250 (fun _ => ProbeResult.deadlineExceeded) [exForever] [] =
      some ([(updateOne 250 (fun _ => ProbeResult.deadlineExceeded) exForever).1], []) ∧
    (updateOne 250 (fun _ => ProbeResult.deadlineExceeded) exForever).1.activity = 0 ∧
    (updateOne 250 (fun _ => ProbeResult.deadlineExceeded) exForever).1.repeats = 0 :=
  have h := (repeat_zero_never_removed exForever rfl).1 250
    (fun _ => ProbeResult.deadlineExceeded) (Or.inr ⟨4, rfl, rfl⟩)
  ⟨rfl, h.2.2.2.1 (by decide) (by decide), h.2.1⟩

/-! ## Simulation: lemmas -/

theorem addWorkloadsToMetric_total (rnd : Nat → ℚ) (dev : Nat) (limit : limitT)
    (ws : List workloadT) (hwf : ∀ wl ∈ ws, wl.activity < wl.profile.length) :
    ∀ (value : ℚ) (k : Nat), ∃ v k1, addWorkloadsToMetric rnd dev limit ws value k = some (v, k1) := by
  induction ws with
  | nil => intro value k; exact ⟨value, k, rfl⟩
  | cons wl rest ih =>
    intro value k
    have hrest := ih (fun w hw => hwf w (List.mem_cons_of_mem _ hw))
    have hlt := hwf wl (List.mem_cons_self _ _)
    simp only [addWorkloadsToMetric]
    split
    · exact hrest value k
    · rw [List.getElem?_eq_getElem hlt]
      exact hrest _ _

theorem addWorkloadsToMetric_unbound (rnd : Nat → ℚ) (dev : Nat) (limit : limitT)
    (ws : List workloadT) (h : ∀ wl ∈ ws, devmapGet wl.devmap dev = false) :
    ∀ (value : ℚ) (k : Nat), addWorkloadsToMetric rnd dev limit ws value k = some (value, k) := by
  induction ws with
  | nil => intro value k; rfl
  | cons wl rest ih =>
    intro value k
    simp only [addWorkloadsToMetric, h wl (List.mem_cons_self _ _), Bool.not_false, if_true]
    exact ih (fun w hw => h w (List.mem_cons_of_mem _ hw)) value k

theorem addWorkloadsToMetric_append (rnd : Nat → ℚ) (dev : Nat) (limit : limitT)
    (a b : List workloadT) :
    ∀ (value : ℚ) (k : Nat), addWorkloadsToMetric rnd dev limit (a ++ b) value k =
      (addWorkloadsToMetric rnd dev limit a value k).bind
        (fun r => addWorkloadsToMetric rnd dev limit b r.1 r.2) := by
  induction a with
  | nil => intro value k; rfl
  | cons wl rest ih =>
    intro value k
    simp only [List.cons_append, addWorkloadsToMetric]
    split
    · exact ih value k
    · split
      · rfl
      · exact ih _ _

theorem addWorkloadsToMetric_single (rnd : Nat → ℚ) (dev : Nat) (limit : limitT)
    (pre post : List workloadT) (wl : workloadT) (seg : devProfileT)
    (hpre : ∀ w ∈ pre, devmapGet w.devmap dev = false)
    (hpost : ∀ w ∈ post, devmapGet w.devmap dev = false)
    (hbound : devmapGet wl.devmap dev = true) (hseg : wl.profile[wl.activity]? = some seg)
    (value : ℚ) (k : Nat) :
    addWorkloadsToMetric rnd dev limit (pre ++ wl :: post) value k =
      some (value + (limit.Max - limit.Min) * (seg.load + (rnd k - 1 / 2) * seg.fluctuation),
        k + 1) := by
  rw [addWorkloadsToMetric_append, addWorkloadsToMetric_unbound rnd dev limit pre hpre]
  simp only [Option.bind, addWorkloadsToMetric, hbound, Bool.not_true, Bool.false_eq_true,
    if_false, hseg]
  exact addWorkloadsToMetric_unbound rnd dev limit post hpost _ _

theorem limitValue_bounds (limit : limitT) (value : ℚ) (h : limit.Min ≤ limit.Max) :
    limit.Min ≤ limitValue limit value ∧ limitValue limit value ≤ limit.Max ∧
      (limit.Min ≤ value → value ≤ limit.Max → limitValue limit value = value) := by
  unfold limitValue
  by_cases h1 : value < limit.Min
  · have h2 : ¬ limit.Min > limit.Max := not_lt.mpr h
    simp only [if_pos h1, if_neg h2]
    exact ⟨le_refl _, h, fun h3 => absurd h1 (not_lt.mpr h3)⟩
  · simp only [if_neg h1]
    by_cases h2 : value > limit.Max
    · simp only [if_pos h2]
      exact ⟨h, le_refl _, fun _ h3 => absurd h2 (not_lt.mpr h3)⟩
    · simp only [if_neg h2]
      exact ⟨not_lt.mp h1, not_lt.mp h2, fun _ _ => trivial⟩

theorem simulateDevice_spec (rnd : Nat → ℚ) (ws : List workloadT) (dev : Nat)
    (hwf : ∀ wl ∈ ws, wl.activity < wl.profile.length) (limits : List (String × limitT)) :
    ∀ (values : String → Option ℚ) (limited : List LimitNote) (k : Nat),
      (limits.map Prod.fst).Nodup →
      ∃ values1 limited1 k1,
        simulateDevice rnd ws dev limits values limited k = some (values1, limited1, k1) ∧
        (∀ name, name ∉ limits.map Prod.fst → values1 name = values name) ∧
        (∀ metric limit, (metric, limit) ∈ limits →
          ∃ k0 raw k2, addWorkloadsToMetric rnd dev limit ws limit.Min k0 = some (raw, k2) ∧
            values1 metric = some (limitValue limit raw)) := by
  induction limits with
  | nil =>
    intro values limited k _
    exact ⟨values, limited, k, rfl, fun _ _ => rfl, fun _ _ h => by cases h⟩
  | cons ml rest ih =>
    intro values limited k hnodup
    obtain ⟨m, l⟩ := ml
    simp only [List.map_cons, List.nodup_cons] at hnodup
    obtain ⟨hm, hrest⟩ := hnodup
    obtain ⟨raw, k1, hraw⟩ := addWorkloadsToMetric_total rnd dev l ws hwf l.Min k
    obtain ⟨values1, limited1, k2, hrun, hother, hspec⟩ :=
      ih (metricSet values m (limitValue l raw)) (limited ++ limitNotes l raw) k1 hrest
    refine ⟨values1, limited1, k2, ?_, ?_, ?_⟩
    · simp only [simulateDevice, hraw, hrun]
    · intro name hname
      simp only [List.map_cons, List.mem_cons, not_or] at hname
      rw [hother name hname.2]
      simp [metricSet, hname.1]
    · intro metric limit hmem
      rcases List.mem_cons.mp hmem with heq | hmem
      · cases heq
        refine ⟨k, raw, k1, hraw, ?_⟩
        rw [hother m hm]
        simp [metricSet]
      · exact hspec metric limit hmem

theorem runSimulationFrom_spec (rnd : Nat → ℚ) (limits : List (String × limitT))
    (ws : List workloadT) (hwf : ∀ wl ∈ ws, wl.activity < wl.profile.length)
    (hnodup : (limits.map Prod.fst).Nodup) (device : List (String → Option ℚ)) :
    ∀ (start k : Nat), ∃ devs notes k1,
      runSimulationFrom rnd limits ws start device k = some (devs, notes, k1) ∧
      ∀ d, d < device.length → ∃ values1, devs[d]? = some values1 ∧
        ∀ metric limit, (metric, limit) ∈ limits →
          ∃ k0 raw k2,
            addWorkloadsToMetric rnd (start + d) limit ws limit.Min k0 = some (raw, k2) ∧
            values1 metric = some (limitValue limit raw) := by
  induction device with
  | nil =>
    intro start k
    exact ⟨[], [], k, rfl, fun d hd => by simp at hd⟩
  | cons values rest ih =>
    intro start k
    obtain ⟨values1, limited1, k1, hdev, _, hspec⟩ :=
      simulateDevice_spec rnd ws start hwf limits values [] k hnodup
    obtain ⟨devs, notes, k2, hrun, hrest⟩ := ih (start + 1) k1
    refine ⟨values1 :: devs, limited1 :: notes, k2, ?_, ?_⟩
    · simp only [runSimulationFrom, hdev, hrun]
    · intro d hd
      cases d with
      | zero => exact ⟨values1, by simp, by simpa using hspec⟩
      | succ d =>
        obtain ⟨v, hv, hvspec⟩ := hrest d (by simpa using hd)
        refine ⟨v, by simpa using hv, ?_⟩
        have hidx : start + (d + 1) = start + 1 + d := by omega
        rw [hidx]
        exact hvspec

/-! ## Simulation: claims -/

/-- C7, as the claim states it, fails: with no workload at all and a metric
limit whose `Min` 10 is above its `Max` 5, `runSimulation` stores 5 for the
metric on both devices, not `Min`. -/
theorem idle_device_inverted_limit :
    (runSimulation (fun _ => 0) exInverted [] exDevice 0).map
      (fun r => r.1.map (fun values => values "power")) = some [some 5, some 5] := by
  norm_num [runSimulation, runSimulationFrom, simulateDevice, addWorkloadsToMetric, limitValue,
    metricSet, exInverted, exDevice]

/-- C7, amended: for every device to which no stored workload is bound and
every metric limit with `Min ≤ Max`, `runSimulation` returns and sets that
device's value for the metric to exactly `limit.Min`. -/
theorem idle_device_reports_min (rnd : Nat → ℚ) (limits : List (String × limitT))
    (ws : List workloadT) (device : List (String → Option ℚ)) (k dev : Nat)
    (metric : String) (limit : limitT)
    (hwf : ∀ wl ∈ ws, wl.activity < wl.profile.length)
    (hnodup : (limits.map Prod.fst).Nodup)
    (hdev : dev < device.length)
    (hidle : ∀ wl ∈ ws, devmapGet wl.devmap dev = false)
    (hmem : (metric, limit) ∈ limits)
    (hle : limit.Min ≤ limit.Max) :
    ∃ devs notes k1 values, runSimulation rnd limits ws device k = some (devs, notes, k1) ∧
      devs[dev]? = some values ∧ values metric = some limit.Min := by
  obtain ⟨devs, notes, k1, hrun, hspec⟩ :=
    runSimulationFrom_spec rnd limits ws hwf hnodup device 0 k
  obtain ⟨values, hget, hvalues⟩ := hspec dev hdev
  obtain ⟨k0, raw, k2, hraw, hval⟩ := hvalues metric limit hmem
  rw [Nat.zero_add, addWorkloadsToMetric_unbound rnd dev limit ws hidle] at hraw
  cases hraw
  refine ⟨devs, notes, k1, values, hrun, hget, ?_⟩
  rw [hval, (limitValue_bounds limit limit.Min hle).2.2 (le_refl _) hle]

theorem idle_device_reports_min_witness :
    ∃ devs notes k1 values, runSimulation (fun _ => 0) exLimits [exFull] exDevice 0 =
        some (devs, notes, k1) ∧
      devs[1]? = some values ∧ values "power" = some 0 :=
  idle_device_reports_min (fun _ => 0) exLimits [exFull] exDevice 0 1 "power"
    { Min := 0, Max := 100 } (by decide) (by decide) (by decide) (by decide)
    (List.mem_cons_self _ _) (by norm_num)

/-! ## One live workload in one pass, by cases -/

theorem updateOne_unmoved (now : Int) (probe : Nat → ProbeResult) (wl : workloadT)
    (hlive : disconnected probe wl = false)
    (h : skipExpired now (wl.profile.drop wl.activity) wl.activity = wl.activity) :
    updateOne now probe wl = (wl, false) := by
  simp only [updateOne, hlive, Bool.false_eq_true, if_false, h, if_true]

theorem updateOne_advance (now : Int) (probe : Nat → ProbeResult) (wl : workloadT)
    (hlive : disconnected probe wl = false)
    (h1 : skipExpired now (wl.profile.drop wl.activity) wl.activity ≠ wl.activity)
    (h2 : skipExpired now (wl.profile.drop wl.activity) wl.activity < wl.profile.length) :
    updateOne now probe wl =
      ({ wl with activity := skipExpired now (wl.profile.drop wl.activity) wl.activity },
        false) := by
  simp only [updateOne, hlive, Bool.false_eq_true, if_false, if_neg h1, if_pos h2]

theorem updateOne_done (now : Int) (probe : Nat → ProbeResult) (wl : workloadT)
    (hlive : disconnected probe wl = false) (hpass : passesLast now wl = true)
    (hrep : wl.repeats = 1) : updateOne now probe wl = (wl, true) := by
  apply updateOne_completes
  simp only [passesLast, Bool.and_eq_true] at hpass
  simp [completes, hlive, hpass.1, hpass.2, hrep]

theorem updateOne_loop (now : Int) (probe : Nat → ProbeResult) (wl : workloadT)
    (hlive : disconnected probe wl = false) (hpass : passesLast now wl = true)
    (hrep : wl.repeats ≠ 1) :
    updateOne now probe wl =
      ({ wl with
          repeats := if wl.repeats > 0 then wl.repeats - 1 else wl.repeats
          profile := wl.profile.map (fun p => { p with deadline := now + p.seconds })
          activity := 0 }, false) := by
  simp only [passesLast, Bool.and_eq_true, decide_eq_true_eq] at hpass
  have h2 : ¬ skipExpired now (wl.profile.drop wl.activity) wl.activity < wl.profile.length := by
    omega
  simp only [updateOne, hlive, Bool.false_eq_true, if_false, if_neg hpass.1, if_neg h2,
    if_neg hrep]

theorem updateOne_no_pass (now : Int) (probe : Nat → ProbeResult) (wl : workloadT)
    (hlive : disconnected probe wl = false) (hpass : passesLast now wl = false) :
    (updateOne now probe wl).2 = false ∧ (updateOne now probe wl).1.repeats = wl.repeats ∧
      (updateOne now probe wl).1.conn = wl.conn := by
  by_cases h1 : skipExpired now (wl.profile.drop wl.activity) wl.activity = wl.activity
  · rw [updateOne_unmoved now probe wl hlive h1]
    exact ⟨rfl, rfl, rfl⟩
  · have h2 : skipExpired now (wl.profile.drop wl.activity) wl.activity < wl.profile.length := by
      simp only [passesLast, Bool.and_eq_false_iff, decide_eq_false_iff_not, not_not,
        not_le] at hpass
      rcases hpass with h | h
      · exact absurd h h1
      · exact h
    rw [updateOne_advance now probe wl hlive h1 h2]
    exact ⟨rfl, rfl, rfl⟩

/-! ## Sequences of passes -/

theorem keptWorkloads_perm (now : Int) (probe : Nat → ProbeResult) (a b : List workloadT)
    (h : a.Perm b) : (keptWorkloads now probe a).Perm (keptWorkloads now probe b) := by
  unfold keptWorkloads
  exact (h.filter _).map _

theorem keptTicks_perm (ticks : List (Int × (Nat → ProbeResult))) :
    ∀ (a b : List workloadT), a.Perm b → (keptTicks ticks a).Perm (keptTicks ticks b) := by
  induction ticks with
  | nil => intro a b h; exact h
  | cons t rest ih =>
    intro a b h
    exact ih _ _ (keptWorkloads_perm t.1 t.2 a b h)

theorem keptTicks_append (ticks : List (Int × (Nat → ProbeResult))) :
    ∀ (a b : List workloadT),
      keptTicks ticks (a ++ b) = keptTicks ticks a ++ keptTicks ticks b := by
  induction ticks with
  | nil => intro a b; rfl
  | cons t rest ih =>
    intro a b
    simp only [keptTicks, keptWorkloads_append, ih]

theorem keptTicks_nil (ticks : List (Int × (Nat → ProbeResult))) : keptTicks ticks [] = [] := by
  induction ticks with
  | nil => rfl
  | cons t rest ih => simpa [keptTicks, keptWorkloads] using ih

theorem keptTicks_single (ticks : List (Int × (Nat → ProbeResult))) :
    ∀ wl : workloadT, keptTicks ticks [wl] = (lifeOf ticks wl).toList := by
  induction ticks with
  | nil => intro wl; rfl
  | cons t rest ih =>
    intro wl
    simp only [keptTicks, lifeOf, keptWorkloads_single]
    split
    · simp [keptTicks_nil]
    · exact ih _

theorem updateTicks_perm (ticks : List (Int × (Nat → ProbeResult))) :
    ∀ (ws : List workloadT) (tr : List ConnEvent),
      ∃ ws1 tr1, updateTicks ticks ws tr = some (ws1, tr1) ∧ ws1.Perm (keptTicks ticks ws) := by
  induction ticks with
  | nil => intro ws tr; exact ⟨ws, tr, rfl, List.Perm.refl _⟩
  | cons t rest ih =>
    intro ws tr
    obtain ⟨ws1, hrun, hperm⟩ := updateWorkloads_spec t.1 t.2 ws tr
    obtain ⟨ws2, tr2, hrun2, hperm2⟩ := ih ws1 (tr ++ statusTrace t.1 t.2 ws)
    refine ⟨ws2, tr2, by simp only [updateTicks, hrun, hrun2], ?_⟩
    exact hperm2.trans (keptTicks_perm rest _ _ hperm)

theorem lifeOf_append (a b : List (Int × (Nat → ProbeResult))) :
    ∀ wl : workloadT, lifeOf (a ++ b) wl = (lifeOf a wl).bind (lifeOf b) := by
  induction a with
  | nil => intro wl; rfl
  | cons t rest ih =>
    intro wl
    simp only [List.cons_append, lifeOf]
    split
    · rfl
    · exact ih _

/-- A live workload with a finite repeat count is stored after a sequence of
passes exactly while fewer passes than its repeat count have moved its cursor
past the last segment, and its repeat count has then dropped by that number. -/
theorem lifeOf_finite (ticks : List (Int × (Nat → ProbeResult))) :
    ∀ wl : workloadT, 1 ≤ wl.repeats →
      (∀ t ∈ ticks, wl.conn = none ∨
        ∃ c, wl.conn = some c ∧ t.2 c = ProbeResult.deadlineExceeded) →
      (passCount ticks wl < wl.repeats ∧
        ∃ wl1, lifeOf ticks wl = some wl1 ∧ wl1.repeats = wl.repeats - passCount ticks wl ∧
          wl1.conn = wl.conn) ∨
      (passCount ticks wl = wl.repeats ∧ lifeOf ticks wl = none) := by
  induction ticks with
  | nil =>
    intro wl hrep _
    exact Or.inl ⟨by simpa [passCount] using hrep, wl, rfl, by simp [passCount], rfl⟩
  | cons t rest ih =>
    intro wl hrep hlive
    have hd : disconnected t.2 wl = false :=
      disconnected_of_live t.2 wl (hlive t (List.mem_cons_self _ _))
    cases hpass : passesLast t.1 wl with
    | false =>
      obtain ⟨h1, h2, h3⟩ := updateOne_no_pass t.1 t.2 wl hd hpass
      have hih := ih (updateOne t.1 t.2 wl).1 (by rw [h2]; exact hrep)
        (fun t1 ht1 => by rw [h3]; exact hlive t1 (List.mem_cons_of_mem _ ht1))
      simp only [passCount, lifeOf, hd, hpass, h1, Bool.not_false, Bool.and_false,
        Bool.false_eq_true, if_false, Nat.zero_add]
      rw [h2, h3] at hih
      exact hih
    | true =>
      by_cases hone : wl.repeats = 1
      · have hupd := updateOne_done t.1 t.2 wl hd hpass hone
        refine Or.inr ⟨?_, ?_⟩
        · simp [passCount, hd, hpass, hupd, hone]
        · simp [lifeOf, hupd]
      · have hupd := updateOne_loop t.1 t.2 wl hd hpass hone
        have hpos : wl.repeats > 0 := by omega
        have hih := ih (updateOne t.1 t.2 wl).1
          (by rw [hupd]; simp only [if_pos hpos]; omega)
          (fun t1 ht1 => by rw [hupd]; exact hlive t1 (List.mem_cons_of_mem _ ht1))
        simp only [passCount, lifeOf, hd, hpass, Bool.not_false, Bool.and_self, if_true]
        rw [hupd] at hih ⊢
        simp only [if_pos hpos, Bool.false_eq_true, if_false] at hih ⊢
        rcases hih with ⟨hlt, wl1, hlife, hrep1, hconn1⟩ | ⟨heq, hlife⟩
        · exact Or.inl ⟨by omega, wl1, hlife, by omega, hconn1⟩
        · exact Or.inr ⟨by omega, hlife⟩

theorem lifeOf_single (t : Int × (Nat → ProbeResult)) (wl : workloadT) :
    lifeOf [t] wl = if (updateOne t.1 t.2 wl).2 then none else some (updateOne t.1 t.2 wl).1 := by
  simp only [lifeOf]

/-- C11: a stored workload with finite repeat count `N ≥ 1` that every pass
finds live is removed exactly by the pass at which its cursor moves past the
last segment for the `N`-th time.  After any sequence of passes it is stored
while fewer than `N` such moves have happened, its repeat count being `N`
minus their number; the next pass then removes it exactly when it is the
`N`-th such move; and in any store the passes keep, beside the updates of the
other workloads, exactly that one workload or nothing. -/
theorem finite_repeat_runs_n_times (wl : workloadT) (N : Nat) (hN : 1 ≤ N)
    (hrep : wl.repeats = N) (ticks : List (Int × (Nat → ProbeResult)))
    (hlive : ∀ t ∈ ticks, wl.conn = none ∨
      ∃ c, wl.conn = some c ∧ t.2 c = ProbeResult.deadlineExceeded) :
    ((passCount ticks wl < N ∧
        ∃ wl1, lifeOf ticks wl = some wl1 ∧ wl1.repeats = N - passCount ticks wl ∧
          ∀ t, (wl.conn = none ∨
              ∃ c, wl.conn = some c ∧ t.2 c = ProbeResult.deadlineExceeded) →
            (lifeOf (ticks ++ [t]) wl = none ↔
              (passesLast t.1 wl1 = true ∧ passCount ticks wl + 1 = N))) ∨
      (passCount ticks wl = N ∧ lifeOf ticks wl = none)) ∧
    (∀ pre post tr, ∃ ws1 tr1,
      updateTicks ticks (pre ++ wl :: post) tr = some (ws1, tr1) ∧
      ws1.Perm (keptTicks ticks pre ++ ((lifeOf ticks wl).toList ++ keptTicks ticks post))) := by
  constructor
  · rcases lifeOf_finite ticks wl (by omega) hlive with ⟨hlt, wl1, hlife, hrep1, hconn1⟩ | h
    · left
      refine ⟨by omega, wl1, hlife, by omega, ?_⟩
      intro t ht
      have hd : disconnected t.2 wl1 = false :=
        disconnected_of_live t.2 wl1 (by rw [hconn1]; exact ht)
      rw [lifeOf_append, hlife, Option.bind, lifeOf_single]
      cases hpass : passesLast t.1 wl1 with
      | false =>
        have := (updateOne_no_pass t.1 t.2 wl1 hd hpass).1
        simp [this]
      | true =>
        by_cases hone : wl1.repeats = 1
        · rw [updateOne_done t.1 t.2 wl1 hd hpass hone]
          simp only [if_true, true_and, true_iff]
          omega
        · rw [updateOne_loop t.1 t.2 wl1 hd hpass hone]
          simp only [Bool.false_eq_true, if_false, true_and]
          constructor
          · intro h; cases h
          · intro h; omega
    · right
      rw [← hrep]; exact h
  · intro pre post tr
    obtain ⟨ws1, tr1, hrun, hperm⟩ := updateTicks_perm ticks (pre ++ wl :: post) tr
    refine ⟨ws1, tr1, hrun, ?_⟩
    have hcons : wl :: post = [wl] ++ post := rfl
    rw [hcons, keptTicks_append, keptTicks_append, keptTicks_single] at hperm
    exact hperm

theorem finite_repeat_runs_n_times_witness :
    passCount exTicks exTwice = 2 ∧ lifeOf exTicks exTwice = none ∧
      passCount (exTicks.take 2) exTwice = 1 ∧
      (lifeOf (exTicks.take 2) exTwice).map (fun w => w.repeats) = some 1 ∧
      ∃ ws1 tr1, updateTicks exTicks ([] ++ exTwice :: []) [] = some (ws1, tr1) ∧
        ws1.Perm (keptTicks exTicks [] ++ ((lifeOf exTicks exTwice).toList ++
          keptTicks exTicks [])) :=
  ⟨by decide, by decide, by decide, by decide,
    (finite_repeat_runs_n_times exTwice 2 (by decide) rfl exTicks
      (fun _ _ => Or.inl rfl)).2 [] [] []⟩

/-! ## Disconnects and the frame of one pass -/

/-- C12: a workload with a connection whose liveness probe returns anything
but deadline-exceeded is marked for removal whatever its repeat count; its
cursor, repeat count and deadlines are left as they were, and the store after
that `updateWorkloads` call holds only the updates of the other workloads. -/
theorem disconnect_removes_workload (now : Int) (probe : Nat → ProbeResult) (wl : workloadT)
    (c : Nat) (hconn : wl.conn = some c) (hprobe : probe c ≠ ProbeResult.deadlineExceeded) :
    updateOne now probe wl = ({ wl with conn := none }, true) ∧
    (updateOne now probe wl).1.activity = wl.activity ∧
    (updateOne now probe wl).1.repeats = wl.repeats ∧
    (updateOne now probe wl).1.profile = wl.profile ∧
    (∀ pre post tr, ∃ ws1, updateWorkloads now probe (pre ++ wl :: post) tr =
        some (ws1, tr ++ (statusTrace now probe post ++ statusTrace now probe pre)) ∧
      ws1.Perm (keptWorkloads now probe pre ++ keptWorkloads now probe post)) := by
  have hd : disconnected probe wl = true := by
    simp only [disconnected, hconn]
    cases hp : probe c <;> simp_all [ProbeResult.isDeadlineExceeded]
  have hupd := updateOne_disconnected now probe wl hd
  refine ⟨hupd, by rw [hupd], by rw [hupd], by rw [hupd], ?_⟩
  intro pre post tr
  obtain ⟨ws1, hrun, hperm⟩ := updateWorkloads_spec now probe (pre ++ wl :: post) tr
  have hcons : wl :: post = [wl] ++ post := rfl
  refine ⟨ws1, ?_, ?_⟩
  · rw [hrun, statusTrace_append, hcons, statusTrace_append, statusTrace_single,
      statusEvents, hupd]
    simp [exitEvents]
  · rw [keptWorkloads_append, hcons, keptWorkloads_append, keptWorkloads_single, hupd] at hperm
    simpa using hperm

theorem disconnect_removes_workload_witness :
    updateOne 50 (fun _ => ProbeResult.dataReceived) exForever =
        ({ exForever with conn := none }, true) ∧
    (updateOne 50 (fun _ => ProbeResult.dataReceived) exForever).1.activity =
      exForever.activity ∧
    (updateOne 50 (fun _ => ProbeResult.dataReceived) exForever).1.repeats =
      exForever.repeats ∧
    (updateOne 50 (fun _ => ProbeResult.dataReceived) exForever).1.profile =
      exForever.profile ∧
    (∀ pre post tr, ∃ ws1,
      updateWorkloads 50 (fun _ => ProbeResult.dataReceived) (pre ++ exForever :: post) tr =
        some (ws1, tr ++ (statusTrace 50 (fun _ => ProbeResult.dataReceived) post ++
          statusTrace 50 (fun _ => ProbeResult.dataReceived) pre)) ∧
      ws1.Perm (keptWorkloads 50 (fun _ => ProbeResult.dataReceived) pre ++
        keptWorkloads 50 (fun _ => ProbeResult.dataReceived) post)) :=
  disconnect_removes_workload 50 (fun _ => ProbeResult.dataReceived) exForever 4 rfl
    (by decide)

theorem skipExpired_spec (now : Int) (l : List devProfileT) :
    ∀ a0 : Nat, a0 ≤ skipExpired now l a0 ∧ skipExpired now l a0 ≤ a0 + l.length ∧
      (∀ j, j < skipExpired now l a0 - a0 → ∃ seg, l[j]? = some seg ∧ seg.deadline ≤ now) ∧
      (skipExpired now l a0 < a0 + l.length →
        ∃ seg, l[skipExpired now l a0 - a0]? = some seg ∧ now < seg.deadline) := by
  induction l with
  | nil => intro a0; simp [skipExpired]
  | cons p rest ih =>
    intro a0
    by_cases hnow : now < p.deadline
    · simp only [skipExpired, if_pos hnow, List.length_cons]
      refine ⟨le_refl _, by omega, fun j hj => by omega, fun _ => ⟨p, by simp, hnow⟩⟩
    · obtain ⟨h1, h2, h3, h4⟩ := ih (a0 + 1)
      simp only [skipExpired, if_neg hnow, List.length_cons]
      refine ⟨by omega, by omega, ?_, ?_⟩
      · intro j hj
        cases j with
        | zero => exact ⟨p, by simp, not_lt.mp hnow⟩
        | succ j =>
          obtain ⟨seg, hseg, hle⟩ := h3 j (by omega)
          exact ⟨seg, by simpa using hseg, hle⟩
      · intro hlt
        obtain ⟨seg, hseg, hlt1⟩ := h4 (by omega)
        have hidx : skipExpired now rest (a0 + 1) - a0 =
            (skipExpired now rest (a0 + 1) - (a0 + 1)) + 1 := by omega
        rw [hidx]
        exact ⟨seg, by simpa using hseg, hlt1⟩

/-- C20: one pass of `updateWorkloads` on a live workload.  If the cursor does
not move the workload is unchanged.  If it moves and stays in range, only the
cursor changes, to the least index at or after the old cursor whose deadline is
after `now`.  If it moves past the last segment and the repeat count is not 1,
the workload stays in the store with the repeat count one less when it was
above 1 and still 0 when it was 0, the cursor at 0, and every segment's
deadline at `now` plus the segment's offset. -/
theorem update_frame_of_live_workload (now : Int) (probe : Nat → ProbeResult)
    (wl : workloadT)
    (hlive : wl.conn = none ∨ ∃ c, wl.conn = some c ∧ probe c = ProbeResult.deadlineExceeded) :
    (skipExpired now (wl.profile.drop wl.activity) wl.activity = wl.activity →
      updateOne now probe wl = (wl, false)) ∧
    (skipExpired now (wl.profile.drop wl.activity) wl.activity ≠ wl.activity →
      skipExpired now (wl.profile.drop wl.activity) wl.activity < wl.profile.length →
      updateOne now probe wl =
        ({ wl with activity := skipExpired now (wl.profile.drop wl.activity) wl.activity },
          false) ∧
      wl.activity ≤ skipExpired now (wl.profile.drop wl.activity) wl.activity ∧
      (∃ seg, wl.profile[skipExpired now (wl.profile.drop wl.activity) wl.activity]? =
        some seg ∧ now < seg.deadline) ∧
      ∀ j, wl.activity ≤ j →
        j < skipExpired now (wl.profile.drop wl.activity) wl.activity →
        ∃ seg, wl.profile[j]? = some seg ∧ seg.deadline ≤ now) ∧
    (skipExpired now (wl.profile.drop wl.activity) wl.activity ≠ wl.activity →
      wl.profile.length ≤ skipExpired now (wl.profile.drop wl.activity) wl.activity →
      wl.repeats ≠ 1 →
      (updateOne now probe wl).2 = false ∧
      (wl.repeats > 1 → (updateOne now probe wl).1.repeats = wl.repeats - 1) ∧
      (wl.repeats = 0 → (updateOne now probe wl).1.repeats = 0) ∧
      (updateOne now probe wl).1.activity = 0 ∧
      (updateOne now probe wl).1.profile =
        wl.profile.map (fun p => { p with deadline := now + p.seconds }) ∧
      (updateOne now probe wl).1.name = wl.name ∧
      (updateOne now probe wl).1.conn = wl.conn ∧
      (updateOne now probe wl).1.devmap = wl.devmap ∧
      ∀ ws tr, wl ∈ ws → ∃ ws1 tr1, updateWorkloads now probe ws tr = some (ws1, tr1) ∧
        (updateOne now probe wl).1 ∈ ws1) := by
  have hd := disconnected_of_live probe wl hlive
  obtain ⟨s1, _, s3, s4⟩ := skipExpired_spec now (wl.profile.drop wl.activity) wl.activity
  refine ⟨fun h => updateOne_unmoved now probe wl hd h, ?_, ?_⟩
  · intro h1 h2
    refine ⟨updateOne_advance now probe wl hd h1 h2, s1, ?_, ?_⟩
    · obtain ⟨seg, hseg, hlt⟩ := s4 (by rw [List.length_drop]; omega)
      rw [List.getElem?_drop] at hseg
      refine ⟨seg, ?_, hlt⟩
      rw [← hseg]; congr 1; omega
    · intro j hj1 hj2
      obtain ⟨seg, hseg, hle⟩ := s3 (j - wl.activity) (by omega)
      rw [List.getElem?_drop] at hseg
      refine ⟨seg, ?_, hle⟩
      rw [← hseg]; congr 1; omega
  · intro h1 h2 hrep
    have hpass : passesLast now wl = true := by simp [passesLast, h1, h2]
    have hupd := updateOne_loop now probe wl hd hpass hrep
    have hkeep : (updateOne now probe wl).2 = false := by rw [hupd]
    refine ⟨hkeep, ?_, ?_, by rw [hupd], by rw [hupd], by rw [hupd], by rw [hupd],
      by rw [hupd], ?_⟩
    · intro hgt
      rw [hupd]
      simp only [if_pos (show wl.repeats > 0 by omega)]
    · intro hzero
      rw [hupd]
      simp [hzero]
    · intro ws tr hmem
      obtain ⟨ws1, hrun, hperm⟩ := updateWorkloads_spec now probe ws tr
      exact ⟨ws1, _, hrun, hperm.mem_iff.mpr (mem_keptWorkloads now probe ws wl hmem hkeep)⟩

theorem update_frame_of_live_workload_witness :
    updateOne 50 (fun _ => ProbeResult.deadlineExceeded) exForever = (exForever, false) ∧
    updateOne 150 (fun _ => ProbeResult.deadlineExceeded) exForever =
      ({ exForever with activity := 1 }, false) ∧
    (updateOne 250 (fun _ => ProbeResult.deadlineExceeded) exForever).1.activity = 0 ∧
    (updateOne 250 (fun _ => ProbeResult.deadlineExceeded) exForever).1.profile.map
      (fun p => p.deadline) = [350, 450] :=
  have h50 := update_frame_of_live_workload 50 (fun _ => ProbeResult.deadlineExceeded)
    exForever (Or.inr ⟨4, rfl, rfl⟩)
  have h150 := update_frame_of_live_workload 150 (fun _ => ProbeResult.deadlineExceeded)
    exForever (Or.inr ⟨4, rfl, rfl⟩)
  have h250 := update_frame_of_live_workload 250 (fun _ => ProbeResult.deadlineExceeded)
    exForever (Or.inr ⟨4, rfl, rfl⟩)
  ⟨h50.1 (by decide), (h150.2.1 (by decide) (by decide)).1,
    (h250.2.2 (by decide) (by decide) (by decide)).2.2.2.1,
    by rw [(h250.2.2 (by decide) (by decide) (by decide)).2.2.2.2.1]; rfl⟩

/-! ## `removeWorkloads` on any list of distinct indices -/

theorem keepIdx_of_lt {α : Type} (rm : List Nat) (l : List α) :
    ∀ i : Nat, (∀ k ∈ rm, k < i) → keepIdx rm i l = l := by
  induction l with
  | nil => intro i _; rfl
  | cons x xs ih =>
    intro i h
    have hi : i ∉ rm := fun hmem => Nat.lt_irrefl i (h i hmem)
    simp only [keepIdx, if_neg hi]
    rw [ih (i + 1) (fun k hk => Nat.lt_succ_of_lt (h k hk))]

theorem keepIdx_cons_eraseIdx {α : Type} (r : Nat) (rest : List Nat)
    (hrest : ∀ k ∈ rest, k < r) (l : List α) :
    ∀ i : Nat, i ≤ r → keepIdx (r :: rest) i l = keepIdx rest i (l.eraseIdx (r - i)) := by
  induction l with
  | nil => intro i _; simp [keepIdx]
  | cons x xs ih =>
    intro i hi
    rcases Nat.eq_or_lt_of_le hi with heq | hlt
    · subst heq
      have h1 : keepIdx (i :: rest) (i + 1) xs = xs :=
        keepIdx_of_lt (i :: rest) xs (i + 1) (fun k hk => by
          rcases List.mem_cons.mp hk with rfl | hk
          · omega
          · exact Nat.lt_succ_of_lt (hrest k hk))
      have h2 : keepIdx rest i xs = xs := keepIdx_of_lt rest xs i hrest
      simp [keepIdx, h1, h2]
    · have hidx : r - i = (r - (i + 1)) + 1 := by omega
      have hne : i ≠ r := by omega
      rw [hidx, List.eraseIdx_cons_succ]
      simp only [keepIdx, List.mem_cons, hne, false_or]
      rw [ih (i + 1) (by omega)]

theorem eraseIdxs_eq_keepIdx {α : Type} (rm : List Nat) :
    ∀ l : List α, rm.Sorted (· > ·) → eraseIdxs l rm = keepIdx rm 0 l := by
  induction rm with
  | nil => intro l _; exact (keepIdx_of_lt [] l 0 (fun k hk => by cases hk)).symm
  | cons r rest ih =>
    intro l hsorted
    rw [eraseIdxs_cons, ih _ (List.sorted_cons.mp hsorted).2,
      keepIdx_cons_eraseIdx r rest (fun k hk => (List.sorted_cons.mp hsorted).1 k hk) l 0
        (Nat.zero_le _)]
    rfl

theorem keepIdx_congr {α : Type} (rm rm1 : List Nat) (h : ∀ k, k ∈ rm ↔ k ∈ rm1)
    (l : List α) : ∀ i : Nat, keepIdx rm i l = keepIdx rm1 i l := by
  induction l with
  | nil => intro i; rfl
  | cons x xs ih =>
    intro i
    simp only [keepIdx, h i, ih (i + 1)]

theorem sorted_gt_of_nodup (rm : List Nat) (hnodup : rm.Nodup) :
    (rm.insertionSort (fun a b => a ≥ b)).Sorted (· > ·) := by
  have hs : (rm.insertionSort (fun a b => a ≥ b)).Sorted (fun a b => a ≥ b) :=
    List.sorted_insertionSort _ rm
  have hn : (rm.insertionSort (fun a b => a ≥ b)).Nodup :=
    (List.perm_insertionSort _ rm).nodup_iff.mpr hnodup
  exact (List.Pairwise.and hs hn).imp (fun h => by omega)

theorem removeWorkloads_spec (ws : List workloadT) (rm : List Nat)
    (tr : List ConnEvent) (hnodup : rm.Nodup) (hrange : ∀ k ∈ rm, k < ws.length) :
    ∃ ws1, removeWorkloads rm ws tr =
        some (ws1, tr ++ exitTrace ws (rm.insertionSort (fun a b => a ≥ b))) ∧
      ws1.length = ws.length - rm.length ∧
      ws1.Perm (keepIdx rm 0 ws) ∧
      (rm.insertionSort (fun a b => a ≥ b)).Perm rm ∧
      (rm.insertionSort (fun a b => a ≥ b)).Sorted (· > ·) := by
  have hperm := List.perm_insertionSort (fun a b : Nat => a ≥ b) rm
  have hsorted := sorted_gt_of_nodup rm hnodup
  unfold removeWorkloads
  by_cases hrm : rm.length = 0
  · have hnil : rm = [] := List.length_eq_zero.mp hrm
    subst hnil
    refine ⟨ws, by simp [exitTrace], by simp, ?_, hperm, hsorted⟩
    rw [keepIdx_of_lt [] ws 0 (fun k hk => by cases hk)]
  · obtain ⟨L1, junk1, hrun, hlen, hp1⟩ :=
      removeLoop_spec ws.length (rm.insertionSort (fun a b => a ≥ b)) 0 ws [] tr rfl rfl
        hsorted (fun k hk => hrange k (hperm.mem_iff.mp hk))
    rw [List.append_nil] at hrun
    rw [hperm.length_eq] at hlen
    have hnot : ¬ ws.length < rm.length := by omega
    have htake : ws.length - rm.length = L1.length := by omega
    refine ⟨L1, ?_, by omega, ?_, hperm, hsorted⟩
    · simp only [if_neg hrm, hrun, if_neg hnot]
      rw [htake, List.take_left']
      rfl
    · rw [eraseIdxs_eq_keepIdx _ ws hsorted] at hp1
      rw [keepIdx_congr rm _ (fun k => hperm.mem_iff.symm) ws 0]
      exact hp1

theorem exitTrace_eq_removalEvents (l : List workloadT) (idxs : List Nat) :
    exitTrace l idxs = removalEvents l idxs := by
  induction idxs with
  | nil => rfl
  | cons k rest ih =>
    have hrest : removalEvents l (k :: rest) =
        (match (l[k]?).bind (fun wl => wl.conn) with
          | some c => [ConnEvent.write c "0", ConnEvent.close c]
          | none => []) ++ removalEvents l rest := by
      unfold removalEvents
      rw [List.filterMap_cons]
      cases (l[k]?).bind (fun wl => wl.conn) with
      | none => rfl
      | some c => simp
    rw [hrest, ← ih]
    simp only [exitTrace]
    cases hk : l[k]? with
    | none => rfl
    | some wl =>
      cases hc : wl.conn with
      | none => simp [exitEvents, hc]
      | some c => simp [exitEvents, hc, wlExitOK]

theorem mem_removalEvents (l : List workloadT) (idxs : List Nat) (e : ConnEvent) :
    e ∈ removalEvents l idxs ↔
      ∃ k ∈ idxs, ∃ wl c, l[k]? = some wl ∧ wl.conn = some c ∧
        (e = ConnEvent.write c "0" ∨ e = ConnEvent.close c) := by
  unfold removalEvents
  simp only [List.mem_flatMap, List.mem_filterMap, List.mem_cons, List.mem_singleton,
    List.not_mem_nil, or_false]
  constructor
  · rintro ⟨c, ⟨k, hk, hc⟩, he⟩
    cases hl : l[k]? with
    | none => rw [hl] at hc; cases hc
    | some wl =>
      rw [hl] at hc
      exact ⟨k, hk, wl, c, hl, hc, he⟩
  · rintro ⟨k, hk, wl, c, hl, hc, he⟩
    exact ⟨c, ⟨k, hk, by rw [hl]; exact hc⟩, he⟩

/-- C18: for every store and every list `rm` of distinct in-range indices,
`removeWorkloads` returns; the store it leaves has length `len(store) -
len(rm)` and is a permutation of the workloads that were at the indices not
in `rm`, each unmodified; the events it records are, for the indices of `rm`
from the largest down, the byte "0" and then the close on the connection of
the workload that was at that index when it has one; so a connection is
written "0" exactly when it is the connection of a workload at an index in
`rm`, the same connections are closed, and nothing else is written. -/
theorem removeWorkloads_swap_remove (ws : List workloadT) (rm : List Nat)
    (tr : List ConnEvent) (hnodup : rm.Nodup) (hrange : ∀ k ∈ rm, k < ws.length) :
    ∃ ws1 events, removeWorkloads rm ws tr = some (ws1, tr ++ events) ∧
      ws1.length = ws.length - rm.length ∧
      ws1.Perm (keepIdx rm 0 ws) ∧
      events = ((rm.insertionSort (fun a b => a ≥ b)).filterMap
          (fun k => (ws[k]?).bind (fun wl => wl.conn))).flatMap
        (fun c => [ConnEvent.write c "0", ConnEvent.close c]) ∧
      (rm.insertionSort (fun a b => a ≥ b)).Perm rm ∧
      (rm.insertionSort (fun a b => a ≥ b)).Sorted (· > ·) ∧
      (∀ c, ConnEvent.write c "0" ∈ events ↔
        ∃ k ∈ rm, ∃ wl, ws[k]? = some wl ∧ wl.conn = some c) ∧
      (∀ c, ConnEvent.close c ∈ events ↔
        ∃ k ∈ rm, ∃ wl, ws[k]? = some wl ∧ wl.conn = some c) ∧
      (∀ c data, ConnEvent.write c data ∈ events → data = "0") := by
  obtain ⟨ws1, hrun, hlen, hperm, hsort, hsorted⟩ := removeWorkloads_spec ws rm tr hnodup hrange
  rw [exitTrace_eq_removalEvents] at hrun
  refine ⟨ws1, _, hrun, hlen, hperm, rfl, hsort, hsorted, ?_, ?_, ?_⟩
  · intro c
    rw [mem_removalEvents]
    constructor
    · rintro ⟨k, hk, wl, c1, hl, hc, he⟩
      rcases he with he | he
      · cases he
        exact ⟨k, hsort.mem_iff.mp hk, wl, hl, hc⟩
      · cases he
    · rintro ⟨k, hk, wl, hl, hc⟩
      exact ⟨k, hsort.mem_iff.mpr hk, wl, c, hl, hc, Or.inl rfl⟩
  · intro c
    rw [mem_removalEvents]
    constructor
    · rintro ⟨k, hk, wl, c1, hl, hc, he⟩
      rcases he with he | he
      · cases he
      · cases he
        exact ⟨k, hsort.mem_iff.mp hk, wl, hl, hc⟩
    · rintro ⟨k, hk, wl, hl, hc⟩
      exact ⟨k, hsort.mem_iff.mpr hk, wl, c, hl, hc, Or.inr rfl⟩
  · intro c data hmem
    rw [mem_removalEvents] at hmem
    obtain ⟨k, _, wl, c1, _, _, he⟩ := hmem
    rcases he with he | he
    · cases he; rfl
    · cases he

theorem removeWorkloads_swap_remove_witness :
    ∃ ws1 events, removeWorkloads [0, 2, 1] [exLive, exForever, exFull, exTwice] [] =
        some (ws1, [] ++ events) ∧
      ws1.length = 4 - 3 ∧
      ws1.Perm [exTwice] ∧
      events = [ConnEvent.write 4 "0", ConnEvent.close 4, ConnEvent.write 3 "0",
        ConnEvent.close 3] ∧
      ([0, 2, 1].insertionSort (fun a b => a ≥ b)).Perm [0, 2, 1] ∧
      ([0, 2, 1].insertionSort (fun a b => a ≥ b)).Sorted (· > ·) ∧
      (∀ c, ConnEvent.write c "0" ∈ events ↔
        ∃ k ∈ [0, 2, 1], ∃ wl, [exLive, exForever, exFull, exTwice][k]? = some wl ∧
          wl.conn = some c) ∧
      (∀ c, ConnEvent.close c ∈ events ↔
        ∃ k ∈ [0, 2, 1], ∃ wl, [exLive, exForever, exFull, exTwice][k]? = some wl ∧
          wl.conn = some c) ∧
      (∀ c data, ConnEvent.write c data ∈ events → data = "0") :=
  removeWorkloads_swap_remove [exLive, exForever, exFull, exTwice] [0, 2, 1] [] (by decide)
    (by decide)

/-! ## The metrics encoder -/

theorem intercalate_go_append (s : String) (l : List String) :
    ∀ (w acc : String),
      String.intercalate.go (w ++ acc) s l = w ++ String.intercalate.go acc s l := by
  induction l with
  | nil => intro w acc; rfl
  | cons a rest ih =>
    intro w acc
    simp only [String.intercalate.go]
    rw [← ih w (acc ++ s ++ a)]
    simp only [String.append_assoc]

theorem intercalate_go_go (s : String) (l1 l2 : List String) :
    ∀ acc : String, String.intercalate.go (String.intercalate.go acc s l1) s l2 =
      String.intercalate.go acc s (l1 ++ l2) := by
  induction l1 with
  | nil => intro acc; rfl
  | cons a rest ih =>
    intro acc
    simp only [String.intercalate.go, List.cons_append]
    exact ih _

theorem writeLabels_comma (labels : List labelPairT) :
    ∀ w : String, writeLabels labels true w =
      (String.intercalate.go w ", " (labels.map renderLabel), true) := by
  induction labels with
  | nil => intro w; rfl
  | cons label rest ih =>
    intro w
    simp only [writeLabels, if_true, List.map_cons, String.intercalate.go, renderLabel, ih]
    simp only [String.append_assoc]

theorem writeLabels_first (labels : List labelPairT) (w : String) :
    (writeLabels labels false w).1 =
      w ++ ", ".intercalate (labels.map renderLabel) ∧
    ((writeLabels labels false w).2 = true ↔ labels ≠ []) := by
  cases labels with
  | nil => simp [writeLabels, String.intercalate]
  | cons label rest =>
    simp only [writeLabels, Bool.false_eq_true, if_false, writeLabels_comma, List.map_cons,
      String.intercalate, ne_eq, reduceCtorEq, not_false_eq_true, iff_true, and_true]
    rw [intercalate_go_append]
    rfl

/-- C14: `writeMetric` appends to the output the metric name, an opening
brace, the device labels followed by the metric labels, each rendered as
`name="value"` and joined by a comma and a blank with no separator before the
first or after the last (also when there are no device labels), then a closing
brace, a blank, the formatted value and a newline. -/
theorem writeMetric_line (fmtG : ℚ → String) (devinfo : devinfoT) (w : String) (dev : Nat)
    (metric : String) (mvalue : ℚ) (deviceLabels : List labelPairT)
    (hdev : devinfo.deviceLabels[dev]? = some deviceLabels) :
    writeMetric fmtG devinfo w dev metric mvalue =
      some (w ++ (metric ++ "\x7b") ++
        ", ".intercalate
          ((deviceLabels ++ (devinfo.metricLabels.lookup metric).getD []).map renderLabel) ++
        ("\x7d " ++ fmtG mvalue ++ "\n")) := by
  simp only [writeMetric, hdev, List.foldl_cons, List.foldl_nil]
  congr 2
  obtain ⟨h1, h2⟩ := writeLabels_first deviceLabels (w ++ (metric ++ "\x7b"))
  cases deviceLabels with
  | nil =>
    simp only [writeLabels, List.nil_append]
    exact (writeLabels_first _ _).1
  | cons label rest =>
    have hcomma : (writeLabels (label :: rest) false (w ++ (metric ++ "\x7b"))).2 = true :=
      h2.mpr (by simp)
    rw [hcomma, writeLabels_comma, h1]
    simp only [String.intercalate, List.map_cons, List.map_append, List.cons_append]
    rw [intercalate_go_append, intercalate_go_go]

theorem writeMetric_line_witness :
    writeMetric (fun _ => "42") exLabelInfo "" 0 "metric" 42 =
      some "metric\x7ba=\"1\", b=\"2\", z=\"3\"\x7d 42\n" :=
  (writeMetric_line (fun _ => "42") exLabelInfo "" 0 "metric" 42
    [{ name := "a", value := "1" }, { name := "b", value := "2" }] rfl).trans (by decide)

/-! ## Label order -/

theorem sortLabelList_sorted (labels : List labelPairT) :
    (sortLabelList labels).Sorted (fun a b => a.name ≤ b.name) :=
  List.sorted_insertionSort _ labels

theorem mem_mapInsert {β : Type} (m : List (String × β)) (key : String) (value : β)
    (p : String × β) (h : p ∈ mapInsert m key value) : p = (key, value) ∨ p ∈ m := by
  induction m with
  | nil =>
    simp only [mapInsert, List.mem_singleton] at h
    exact Or.inl h
  | cons kv rest ih =>
    obtain ⟨k, v⟩ := kv
    simp only [mapInsert] at h
    split at h
    · rcases List.mem_cons.mp h with h | h
      · exact Or.inl h
      · exact Or.inr (List.mem_cons_of_mem _ h)
    · rcases List.mem_cons.mp h with h | h
      · exact Or.inr (by rw [h]; exact List.mem_cons_self _ _)
      · rcases ih h with h | h
        · exact Or.inl h
        · exact Or.inr (List.mem_cons_of_mem _ h)

theorem mem_of_lookup {β : Type} (m : List (String × β)) (key : String) (value : β)
    (h : m.lookup key = some value) : (key, value) ∈ m := by
  induction m with
  | nil => simp at h
  | cons kv rest ih =>
    obtain ⟨k, v⟩ := kv
    simp only [List.lookup] at h
    split at h
    · rename_i heq
      have hk : key = k := by simpa using heq
      cases h
      rw [hk]
      exact List.mem_cons_self _ _
    · exact List.mem_cons_of_mem _ (ih h)

theorem devicesLoop_sorted (identity : identityT) (devlabels : List labelPairT)
    (devs : List (List (String × String))) :
    ∀ (dev : Nat) (devicemap : List (String × Nat))
      (r : List (List labelPairT) × List (String × Nat)),
      devicesLoop identity devlabels dev devs devicemap = some r →
      ∀ labels ∈ r.1, labels.Sorted (fun a b => a.name ≤ b.name) := by
  induction devs with
  | nil =>
    intro dev devicemap r h labels hmem
    simp only [devicesLoop, Option.some.injEq] at h
    rw [← h] at hmem
    cases hmem
  | cons d rest ih =>
    intro dev devicemap r h labels hmem
    simp only [devicesLoop] at h
    split at h
    · cases h
    · rename_i file _
      split at h
      · cases h
      · rename_i r1 hr1
        cases h
        rcases List.mem_cons.mp hmem with hl | hl
        · rw [hl]; exact sortLabelList_sorted _
        · exact ih _ _ r1 hr1 labels hl

theorem metricLabelsLoop_sorted (identity : identityT)
    (ml : List (String × List (String × String))) :
    ∀ (acc r : List (String × List labelPairT)),
      (∀ p ∈ acc, p.2.Sorted (fun a b => a.name ≤ b.name)) →
      metricLabelsLoop identity ml acc = some r →
      ∀ p ∈ r, p.2.Sorted (fun a b => a.name ≤ b.name) := by
  induction ml with
  | nil =>
    intro acc r hacc h
    simp only [metricLabelsLoop, Option.some.injEq] at h
    rw [← h]; exact hacc
  | cons m rest ih =>
    intro acc r hacc h
    obtain ⟨metric, labels⟩ := m
    simp only [metricLabelsLoop] at h
    split at h
    · cases h
    · rename_i name _
      refine ih _ r ?_ h
      intro p hp
      rcases mem_mapInsert acc name _ p hp with hp | hp
      · rw [hp]; exact sortLabelList_sorted _
      · exact hacc p hp

theorem getDevinfo_sorted (devcount : Nat) (identity : identityT) (devtype : devtypeT)
    (devlist : devlistT) (info : devinfoT)
    (h : getDevinfo devcount identity devtype devlist = some info) :
    (∀ labels ∈ info.deviceLabels, labels.Sorted (fun a b => a.name ≤ b.name)) ∧
      (∀ p ∈ info.metricLabels, p.2.Sorted (fun a b => a.name ≤ b.name)) := by
  simp only [getDevinfo] at h
  split at h
  · cases h
  split at h
  · cases h
  rename_i devices hdevices
  split at h
  · cases h
  rename_i metricLabels hml
  cases h
  exact ⟨devicesLoop_sorted identity _ _ 0 [] devices hdevices,
    metricLabelsLoop_sorted identity _ [] metricLabels (fun p hp => by cases hp) hml⟩

/-- C15: `sortLabelList` returns a permutation of its input ordered
non-decreasingly by label name and sorting again changes nothing; every device
label list and every metric label list that `getDevinfo` stores is ordered that
way; hence in each line `writeMetric` emits from it the device labels and then
the metric labels are each in name order. -/
theorem label_lists_are_sorted :
    (∀ labels, (sortLabelList labels).Perm labels ∧
      (sortLabelList labels).Sorted (fun a b => a.name ≤ b.name) ∧
      sortLabelList (sortLabelList labels) = sortLabelList labels) ∧
    (∀ devcount identity devtype devlist info,
      getDevinfo devcount identity devtype devlist = some info →
      (∀ labels ∈ info.deviceLabels, labels.Sorted (fun a b => a.name ≤ b.name)) ∧
      (∀ p ∈ info.metricLabels, p.2.Sorted (fun a b => a.name ≤ b.name)) ∧
      ∀ fmtG w dev metric mvalue out,
        writeMetric fmtG info w dev metric mvalue = some out →
        ∃ deviceLabels metricLabels : List labelPairT,
          deviceLabels.Sorted (fun a b => a.name ≤ b.name) ∧
          metricLabels.Sorted (fun a b => a.name ≤ b.name) ∧
          out = w ++ (metric ++ "\x7b") ++
            ", ".intercalate ((deviceLabels ++ metricLabels).map renderLabel) ++
            ("\x7d " ++ fmtG mvalue ++ "\n")) := by
  constructor
  · intro labels
    exact ⟨List.perm_insertionSort _ labels, sortLabelList_sorted labels,
      List.Sorted.insertionSort_eq (sortLabelList_sorted labels)⟩
  · intro devcount identity devtype devlist info hinfo
    obtain ⟨hdev, hmet⟩ := getDevinfo_sorted devcount identity devtype devlist info hinfo
    refine ⟨hdev, hmet, ?_⟩
    intro fmtG w dev metric mvalue out hout
    cases hget : info.deviceLabels[dev]? with
    | none => simp [writeMetric, hget] at hout
    | some deviceLabels =>
      rw [writeMetric_line fmtG info w dev metric mvalue deviceLabels hget] at hout
      cases hout
      refine ⟨deviceLabels, (info.metricLabels.lookup metric).getD [],
        hdev _ (List.getElem?_mem hget), ?_, rfl⟩
      cases hl : info.metricLabels.lookup metric with
      | none => exact List.sorted_nil
      | some labels => exact hmet _ (mem_of_lookup _ _ _ hl)

/-! ## Requests -/

/-- C16: `requestCheck` returns 405 when the method is not GET, 404 for a GET
whose path is not `/metrics`, 400 for a GET of `/metrics` with a body, and 200
exactly for a GET of `/metrics` without a body; on any other status `exporter`
returns with that status, an empty body and the server state unchanged. -/
theorem requestCheck_statuses :
    (∀ r : requestT, r.Method ≠ "GET" → requestCheck r = 405) ∧
    (∀ r : requestT, r.Method = "GET" → r.Path ≠ "/metrics" → requestCheck r = 404) ∧
    (∀ r : requestT, r.Method = "GET" → r.Path = "/metrics" → r.hasBody = true →
      requestCheck r = 400) ∧
    (∀ r : requestT, requestCheck r = 200 ↔
      (r.Method = "GET" ∧ r.Path = "/metrics" ∧ r.hasBody = false)) ∧
    (∀ unmarshal devinfo read clock rnd now probe fmtG st r, requestCheck r ≠ 200 →
      exporter unmarshal devinfo read clock rnd now probe fmtG st r =
        some (st, { status := requestCheck r, body := "" })) := by
  refine ⟨?_, ?_, ?_, ?_, ?_⟩
  · intro r h
    simp only [requestCheck, if_pos h]
  · intro r h1 h2
    simp [requestCheck, h1, metricURL, h2]
  · intro r h1 h2 h3
    simp [requestCheck, h1, metricURL, h2, h3]
  · intro r
    unfold requestCheck metricURL
    by_cases h1 : r.Method = "GET"
    · by_cases h2 : r.Path = "/metrics"
      · cases h3 : r.hasBody <;> simp [h1, h2]
      · simp [h1, h2]
    · simp [h1]
  · intro unmarshal devinfo read clock rnd now probe fmtG st r h
    simp only [exporter, if_pos h]

/-! ## Evaluations at the inputs of the defects -/

/-- C13 at its failing inputs: a single segment of 9223372037 seconds, admitted
at time 1000, is stored with offset 0 and deadline 1000; and of two segments of
9000000000 seconds each the second is stored with a negative offset and a
deadline before the first one's. -/
theorem huge_seconds_zero_duration :
    (addWorkload (exUnmarshal exHuge) exDevicemap [] none (some 3) 1000 []).2.map
        (fun wl => wl.profile.map (fun s => (s.deadline, s.seconds))) = [[(1000, 0)]] ∧
    (addWorkload (exUnmarshal exWrap) exDevicemap [] none (some 3) 1000 []).2.map
        (fun wl => wl.profile.map (fun s => (s.deadline, s.seconds))) =
      [[(9000000000000001000, 9000000000000000000),
        (-446744073709550616, -446744073709551616)]] := by
  decide

/-- C17 at its failing input: with the label `vendor` and the metric `power`
mapped to the empty string, `mapLabels` exports the label under the empty name
and `getDevinfo` stores the limit and the output entry of the metric under the
empty name. -/
theorem empty_identity_value_gives_empty_name :
    mapLabels [("vendor", "intel")] exIdentityEmpty =
        ([{ name := "", value := "intel" }], []) ∧
    (getDevinfo 1 exIdentityEmpty exDevtype exDevlist).map
        (fun info => (info.deviceLabels, info.metricLimits.map Prod.fst, info.output)) =
      some ([[{ name := "", value := "intel" }]], [""], [""]) := by
  decide

/-! ## Order of the admission checks -/

theorem buildProfile_first_bad (now : Int) (p : wlProfileT) (post : List wlProfileT)
    (hbad : ¬ segmentInRange p) (pre : List wlProfileT) :
    ∀ (i : Nat) (total : Int), (∀ q ∈ pre, segmentInRange q) →
      buildProfile now i total (pre ++ p :: post) =
        .error (if p.Load < 0 ∨ p.Load > 100 ∨ p.Fluctuation < 0 ∨ p.Fluctuation > 100
          then Reject.notWithinRange (i + pre.length) p.Load p.Fluctuation
          else Reject.sumNotWithinRange (i + pre.length) p.Load p.Fluctuation) := by
  induction pre with
  | nil =>
    intro i total _
    by_cases c1 : p.Load < 0 ∨ p.Load > 100 ∨ p.Fluctuation < 0 ∨ p.Fluctuation > 100
    · simp only [List.nil_append, buildProfile, if_pos c1, List.length_nil, Nat.add_zero]
    · have c2 : p.Load - p.Fluctuation < 0 ∨ p.Load + p.Fluctuation > 100 := by
        unfold segmentInRange at hbad
        omega
      simp only [List.nil_append, buildProfile, if_neg c1, if_pos c2, List.length_nil,
        Nat.add_zero]
  | cons q rest ih =>
    intro i total hpre
    have hq : segmentInRange q := hpre q (List.mem_cons_self _ _)
    obtain ⟨h1, h2, h3, h4, h5, h6⟩ := hq
    have c1 : ¬ (q.Load < 0 ∨ q.Load > 100 ∨ q.Fluctuation < 0 ∨ q.Fluctuation > 100) := by
      omega
    have c2 : ¬ (q.Load - q.Fluctuation < 0 ∨ q.Load + q.Fluctuation > 100) := by omega
    have hrest := ih (i + 1) (wrapInt64 (total + (if q.Seconds > 0
      then parseDurationSeconds q.Seconds else 24 * hour)))
      (fun r hr => hpre r (List.mem_cons_of_mem _ hr))
    have hidx : i + 1 + rest.length = i + (q :: rest).length := by
      simp only [List.length_cons]; omega
    rw [hidx] at hrest
    show buildProfile now i total (q :: (rest ++ p :: post)) = _
    simp only [buildProfile, if_neg c1, if_neg c2, hrest]

/-- C21, as the claim states it, fails: the descriptor `exBothBad` has a
segment with load 50 and fluctuation 75 and names only an unknown device file;
`addWorkload` refuses it for having no mapped devices, even with a non-empty
preset set, and not for the segment. -/
theorem devices_checked_before_segments :
    admitWorkload (exUnmarshal exBothBad) exDevicemap [] (some [0]) (some 3) 1000 =
      .error (Reject.noDevices "Invalid") ∧
    buildProfile 1000 0 0 exBothBad.Profile = .error (Reject.sumNotWithinRange 0 50 75) :=
  ⟨rfl, rfl⟩

/-- C21, amended: `addWorkload` applies its checks in the order: descriptor
parses, `Name` non-empty, `Profile` non-empty, device set resolved and
non-empty, every segment in range; the first failing check in that order gives
the reason.  A descriptor with an out-of-range segment and an empty resolved
device set is refused for the device set; with a non-empty device set it is
refused for its first out-of-range segment, whose index is reported. -/
theorem admitWorkload_check_order (unmarshal : List UInt8 → Option workloadInfoT)
    (devicemap : String → Option Nat) (text : List UInt8) (devmap : Option (List Nat))
    (conn : Option Nat) (now : Int) :
    (unmarshal text = none →
      admitWorkload unmarshal devicemap text devmap conn now = .error Reject.unmarshal) ∧
    (∀ info, unmarshal text = some info →
      (info.Name = "" →
        admitWorkload unmarshal devicemap text devmap conn now = .error Reject.invalidName) ∧
      (info.Name ≠ "" → info.Profile = [] →
        admitWorkload unmarshal devicemap text devmap conn now =
          .error (Reject.noProfile info.Name)) ∧
      (info.Name ≠ "" → info.Profile ≠ [] →
        devmapLen (resolveDevices devicemap info devmap) = 0 →
        admitWorkload unmarshal devicemap text devmap conn now =
          .error (Reject.noDevices info.Name)) ∧
      (info.Name ≠ "" → info.Profile ≠ [] →
        devmapLen (resolveDevices devicemap info devmap) ≠ 0 →
        ∀ pre p post, info.Profile = pre ++ p :: post →
          (∀ q ∈ pre, segmentInRange q) → ¬ segmentInRange p →
          admitWorkload unmarshal devicemap text devmap conn now =
            .error (if p.Load < 0 ∨ p.Load > 100 ∨ p.Fluctuation < 0 ∨ p.Fluctuation > 100
              then Reject.notWithinRange pre.length p.Load p.Fluctuation
              else Reject.sumNotWithinRange pre.length p.Load p.Fluctuation)) ∧
      (info.Name ≠ "" → info.Profile ≠ [] →
        devmapLen (resolveDevices devicemap info devmap) ≠ 0 →
        (∀ q ∈ info.Profile, segmentInRange q) →
        ∃ wl, admitWorkload unmarshal devicemap text devmap conn now = .ok wl)) := by
  constructor
  · intro h
    simp only [admitWorkload, h]
  · intro info hparse
    have hlen : info.Profile ≠ [] → info.Profile.length ≠ 0 :=
      fun h hz => h (List.length_eq_zero.mp hz)
    refine ⟨?_, ?_, ?_, ?_, ?_⟩
    · intro hn
      simp only [admitWorkload, hparse, if_pos hn]
    · intro hn hp
      simp only [admitWorkload, hparse, if_neg hn, hp, List.length_nil, if_true]
    · intro hn hp hd
      simp only [admitWorkload, hparse, if_neg hn, if_neg (hlen hp), if_pos hd]
    · intro hn hp hd pre p post hsplit hpre hbad
      have hbuild := buildProfile_first_bad now p post hbad pre 0 0 hpre
      rw [← hsplit, Nat.zero_add] at hbuild
      simp only [admitWorkload, hparse, if_neg hn, if_neg (hlen hp), if_neg hd, hbuild]
    · intro hn hp hd hseg
      obtain ⟨profile, hbuild, _⟩ := buildProfile_ok now info.Profile 0 0 hseg
      exact ⟨{ name := info.Name, conn := conn, activity := 0, repeats := info.Repeat
               profile := profile, devmap := resolveDevices devicemap info devmap },
        by simp only [admitWorkload, hparse, if_neg hn, if_neg (hlen hp), if_neg hd, hbuild]⟩

/-! ## Client and server validation -/

theorem parseProfilesLoop_spec (scan : String → Option (Nat × Nat × Nat))
    (acts : List String) :
    ∀ (acc profile : List profileT),
      (∀ p ∈ acc, p.Load ≤ 100 ∧ p.Fluctuation ≤ p.Load) →
      parseProfilesLoop scan acts acc = some profile →
      ∀ p ∈ profile, p.Load ≤ 100 ∧ p.Fluctuation ≤ p.Load := by
  induction acts with
  | nil =>
    intro acc profile hacc h
    simp only [parseProfilesLoop, Option.some.injEq] at h
    rw [← h]; exact hacc
  | cons act rest ih =>
    intro acc profile hacc h
    simp only [parseProfilesLoop] at h
    split at h
    · cases h
    · rename_i load flux secs _
      split at h
      · cases h
      · rename_i hok
        refine ih _ profile ?_ h
        intro p hp
        rcases List.mem_append.mp hp with hp | hp
        · exact hacc p hp
        · simp only [List.mem_singleton] at hp
          rw [hp]
          simp only
          omega

theorem sentProfile_inRange (p : profileT) (h1 : p.Load ≤ 100)
    (h2 : p.Fluctuation ≤ p.Load) :
    segmentInRange (sentProfile p) ↔ p.Load + p.Fluctuation ≤ 100 := by
  unfold segmentInRange sentProfile
  simp only
  omega

/-- C25, as the claim states it, fails: the client's `parseProfiles` accepts
the activity `60:60:1` (load 60, fluctuation 60), and the exporter refuses the
descriptor sent for it because load plus fluctuation is 120. -/
theorem client_accepts_what_server_refuses :
    parseProfiles exScan "60:60:1" =
        some [{ Load := 60, Fluctuation := 60, Seconds := 1 }] ∧
    admitWorkload (exUnmarshal (sentInfo [{ Load := 60, Fluctuation := 60, Seconds := 1 }]))
        exDevicemap [] none (some 3) 1000 =
      .error (Reject.sumNotWithinRange 0 60 60) ∧
    addWorkload (exUnmarshal (sentInfo [{ Load := 60, Fluctuation := 60, Seconds := 1 }]))
        exDevicemap [] none (some 3) 1000 [] = (false, []) :=
  ⟨by decide, rfl, rfl⟩

/-- C25, amended: every segment that the client's `parseProfiles` accepts has
load at most 100 and fluctuation at most the load; such a segment passes the
exporter's per-segment validation exactly when in addition load plus
fluctuation is at most 100, so the exporter builds the profile when that holds
for every segment and refuses the descriptor otherwise. -/
theorem client_profile_server_validation (scan : String → Option (Nat × Nat × Nat))
    (spec : String) (profile : List profileT)
    (h : parseProfiles scan spec = some profile) :
    (∀ p ∈ profile, p.Load ≤ 100 ∧ p.Fluctuation ≤ p.Load) ∧
    (∀ p ∈ profile, segmentInRange (sentProfile p) ↔ p.Load + p.Fluctuation ≤ 100) ∧
    (∀ now i total, (∀ p ∈ profile, p.Load + p.Fluctuation ≤ 100) →
      ∃ stored, buildProfile now i total (profile.map sentProfile) = .ok stored) ∧
    (∀ now i total, (∃ p ∈ profile, p.Load + p.Fluctuation > 100) →
      ∃ e, buildProfile now i total (profile.map sentProfile) = .error e) := by
  have hall : ∀ p ∈ profile, p.Load ≤ 100 ∧ p.Fluctuation ≤ p.Load := by
    unfold parseProfiles at h
    split at h
    · cases h
      intro p hp; cases hp
    · exact parseProfilesLoop_spec scan _ [] profile (fun p hp => by cases hp) h
  refine ⟨hall, fun p hp => sentProfile_inRange p (hall p hp).1 (hall p hp).2, ?_, ?_⟩
  · intro now i total hsum
    obtain ⟨stored, hstored, _⟩ := buildProfile_ok now (profile.map sentProfile) i total
      (fun q hq => by
        obtain ⟨p, hp, rfl⟩ := List.mem_map.mp hq
        exact (sentProfile_inRange p (hall p hp).1 (hall p hp).2).mpr (hsum p hp))
    exact ⟨stored, hstored⟩
  · intro now i total hex
    obtain ⟨p, hp, hgt⟩ := hex
    exact buildProfile_error now (profile.map sentProfile) i total
      ⟨sentProfile p, List.mem_map.mpr ⟨p, hp, rfl⟩,
        fun hin => by
          have := (sentProfile_inRange p (hall p hp).1 (hall p hp).2).mp hin
          omega⟩

theorem client_profile_server_validation_witness :
    (∀ p ∈ [({ Load := 98, Fluctuation := 1, Seconds := 0 } : profileT)],
      p.Load ≤ 100 ∧ p.Fluctuation ≤ p.Load) ∧
    (∀ p ∈ [({ Load := 98, Fluctuation := 1, Seconds := 0 } : profileT)],
      segmentInRange (sentProfile p) ↔ p.Load + p.Fluctuation ≤ 100) ∧
    (∀ now i total,
      (∀ p ∈ [({ Load := 98, Fluctuation := 1, Seconds := 0 } : profileT)],
        p.Load + p.Fluctuation ≤ 100) →
      ∃ stored, buildProfile now i total
        ([({ Load := 98, Fluctuation := 1, Seconds := 0 } : profileT)].map sentProfile) =
          .ok stored) ∧
    (∀ now i total,
      (∃ p ∈ [({ Load := 98, Fluctuation := 1, Seconds := 0 } : profileT)],
        p.Load + p.Fluctuation > 100) →
      ∃ e, buildProfile now i total
        ([({ Load := 98, Fluctuation := 1, Seconds := 0 } : profileT)].map sentProfile) =
          .error e) :=
  client_profile_server_validation exScan "98:1:0"
    [{ Load := 98, Fluctuation := 1, Seconds := 0 }] (by decide)

/-! ## The bounded read of the drain loop -/

theorem connRead_text (sent : List UInt8) (h : sent ≠ []) :
    (connRead sent).data.take (connRead sent).count.toNat = sent.take readBufferSize ∧
      ¬ ((connRead sent).count ≤ 0 ∨ (connRead sent).err = true) := by
  have hlen : sent.length ≠ 0 := fun hz => h (List.length_eq_zero.mp hz)
  have hpos : 0 < sent.length := Nat.pos_of_ne_zero hlen
  simp only [connRead, if_neg hlen, Int.toNat_ofNat]
  constructor
  · have htake : (sent.take readBufferSize).length = min sent.length readBufferSize := by
      rw [List.length_take, Nat.min_comm]
    rw [← htake, List.take_left']
    rfl
  · simp only [readBufferSize, Bool.false_eq_true, or_false, not_le]
    omega

theorem acceptDrain_eq (unmarshal : List UInt8 → Option workloadInfoT)
    (devicemap : String → Option Nat) (read : Nat → ReadResult) (clock : Nat → Int)
    (connections : List Nat) :
    ∀ st : List workloadT × List ConnEvent,
      acceptDrain unmarshal devicemap read clock connections st =
        ([], acceptWorkloads unmarshal devicemap read clock connections st.1 st.2) := by
  induction connections with
  | nil => intro st; rfl
  | cons c rest ih =>
    intro st
    simp only [acceptDrain, ih, acceptWorkloads, List.foldl_cons]

theorem addWorkload_unmarshal_none (unmarshal : List UInt8 → Option workloadInfoT)
    (devicemap : String → Option Nat) (text : List UInt8) (devmap : Option (List Nat))
    (conn : Option Nat) (now : Int) (workload : List workloadT)
    (h : unmarshal text = none) :
    addWorkload unmarshal devicemap text devmap conn now workload = (false, workload) := by
  apply addWorkload_of_error _ _ _ _ _ _ _ Reject.unmarshal
  unfold admitWorkload
  rw [h]

theorem acceptOne_connRead (unmarshal : List UInt8 → Option workloadInfoT)
    (devicemap : String → Option Nat) (sent : Nat → List UInt8) (clock : Nat → Int)
    (c : Nat) (ws : List workloadT) (tr : List ConnEvent) (hsent : sent c ≠ []) :
    acceptOne unmarshal devicemap (fun c => connRead (sent c)) clock (ws, tr) c =
      if (addWorkload unmarshal devicemap ((sent c).take readBufferSize) none (some c)
          (clock c) ws).1 = true
      then ((addWorkload unmarshal devicemap ((sent c).take readBufferSize) none (some c)
          (clock c) ws).2, tr)
      else (ws, tr ++ [ConnEvent.write c wlExitError, ConnEvent.close c]) := by
  obtain ⟨hdata, hok⟩ := connRead_text (sent c) hsent
  simp only [acceptOne, if_neg hok, hdata]
  cases hadd : addWorkload unmarshal devicemap ((sent c).take readBufferSize) none (some c)
    (clock c) ws with
  | mk ok store => cases ok <;> simp

/-- C22, as the claim states it, fails: the client has written the 1025 bytes
of `exLongText`, which `addWorkload` admits when handed the whole text, but the
drain loop hands it only the 1024 bytes its buffer holds, refuses the
submission and writes "1". -/
theorem long_descriptor_is_truncated :
    addWorkload exUnmarshalLong exDevicemap exLongText none (some 3) 1000 [] =
        (true, [{ name := "wl", conn := some 3, activity := 0, repeats := 1
                  profile := [{ load := ((50 : Int) : ℚ) / 100
                                fluctuation := ((10 : Int) : ℚ) / 100
                                deadline := 1000 + 5 * second, seconds := 5 * second }]
                  devmap := some [0] }]) ∧
    acceptWorkloads exUnmarshalLong exDevicemap (fun _ => connRead exLongText)
        (fun _ => 1000) [3] [] [] =
      ([], [ConnEvent.write 3 "1", ConnEvent.close 3]) := by
  have hlen : exLongText.length = 1025 := List.length_replicate _ _
  have htext : exLongText ≠ [] := by
    intro h
    rw [h] at hlen
    cases hlen
  have hcut : (exLongText.take readBufferSize).length ≠ 1025 := by
    rw [List.length_take, hlen]
    decide
  have hshort : exUnmarshalLong (exLongText.take readBufferSize) = none :=
    if_neg hcut
  have hfull : exUnmarshalLong exLongText = some exInfo :=
    if_pos hlen
  constructor
  · simp only [addWorkload, admitWorkload, hfull]
    rfl
  · have hone : acceptOne exUnmarshalLong exDevicemap (fun _ => connRead exLongText)
        (fun _ => 1000) ([], []) 3 =
        if (addWorkload exUnmarshalLong exDevicemap (exLongText.take readBufferSize) none
            (some 3) 1000 []).1 = true
        then ((addWorkload exUnmarshalLong exDevicemap (exLongText.take readBufferSize) none
            (some 3) 1000 []).2, [])
        else ([], [] ++ [ConnEvent.write 3 wlExitError, ConnEvent.close 3]) :=
      acceptOne_connRead exUnmarshalLong exDevicemap (fun _ => exLongText)
        (fun _ => 1000) 3 [] [] htext
    unfold acceptWorkloads
    rw [List.foldl_cons, List.foldl_nil, hone,
      addWorkload_unmarshal_none exUnmarshalLong exDevicemap _ none (some 3) 1000 [] hshort]
    rfl

/-- C22, amended: for a queued connection on which the client has written a
non-empty text, the drain loop hands `addWorkload` what one read into its
1024-byte buffer returns, that is the first 1024 bytes of the text: a text of
at most 1024 bytes is handed over whole, a longer one truncated; and once
`acceptWorkloads` has returned, the admission queue is empty. -/
theorem acceptWorkloads_one_bounded_read (unmarshal : List UInt8 → Option workloadInfoT)
    (devicemap : String → Option Nat) (sent : Nat → List UInt8) (clock : Nat → Int) :
    (∀ c ws tr, sent c ≠ [] →
      acceptOne unmarshal devicemap (fun c => connRead (sent c)) clock (ws, tr) c =
        if (addWorkload unmarshal devicemap ((sent c).take readBufferSize) none (some c)
            (clock c) ws).1 = true
        then ((addWorkload unmarshal devicemap ((sent c).take readBufferSize) none (some c)
            (clock c) ws).2, tr)
        else (ws, tr ++ [ConnEvent.write c wlExitError, ConnEvent.close c])) ∧
    (∀ c, ((sent c).take readBufferSize).length ≤ 1024) ∧
    (∀ c, (sent c).length ≤ 1024 → (sent c).take readBufferSize = sent c) ∧
    (∀ connections st,
      acceptDrain unmarshal devicemap (fun c => connRead (sent c)) clock connections st =
        ([], acceptWorkloads unmarshal devicemap (fun c => connRead (sent c)) clock
          connections st.1 st.2)) := by
  refine ⟨?_, ?_, ?_, fun connections st => acceptDrain_eq _ _ _ _ connections st⟩
  · intro c ws tr hsent
    exact acceptOne_connRead unmarshal devicemap sent clock c ws tr hsent
  · intro c
    rw [List.length_take]
    exact Nat.min_le_left _ _
  · intro c h
    exact List.take_of_length_le h

/-! ## Well-formed stores: lemmas -/

theorem buildProfile_length (now : Int) (ps : List wlProfileT) :
    ∀ (i : Nat) (total : Int) (profile : List devProfileT),
      buildProfile now i total ps = .ok profile → profile.length = ps.length := by
  induction ps with
  | nil =>
    intro i total profile h
    simp only [buildProfile, Except.ok.injEq] at h
    rw [← h]
    rfl
  | cons p rest ih =>
    intro i total profile h
    simp only [buildProfile] at h
    split at h
    · cases h
    split at h
    · cases h
    split at h
    · cases h
    · rename_i tail htail
      cases h
      simp only [List.length_cons, ih _ _ tail htail]

theorem mapDevices_some_range (devicemap : String → Option Nat) (names : List String)
    (keys : List Nat) (h : mapDevices devicemap names = some keys) :
    ∀ d ∈ keys, ∃ n ∈ names, devicemap n = some d := by
  unfold mapDevices at h
  simp only at h
  split at h
  · cases h
  · cases h
    intro d hd
    have := ((mapDevicesLoop_spec devicemap names 0 []).2.2.2.2 d).mp hd
    simpa using this

theorem resolveDevices_range (devicemap : String → Option Nat) (devcount : Nat)
    (hmap : ∀ name dev, devicemap name = some dev → dev < devcount)
    (info : workloadInfoT) (preset : Option (List Nat))
    (hpreset : ∀ dev, devmapGet preset dev = true → dev < devcount) :
    ∀ dev, devmapGet (resolveDevices devicemap info preset) dev = true → dev < devcount := by
  intro dev hdev
  unfold resolveDevices at hdev
  split at hdev
  · cases hkeys : mapDevices devicemap info.Devices with
    | none => rw [hkeys] at hdev; simp [devmapGet] at hdev
    | some keys =>
      rw [hkeys] at hdev
      have hmem : dev ∈ keys := by simpa [devmapGet] using hdev
      obtain ⟨n, _, hn⟩ := mapDevices_some_range devicemap info.Devices keys hkeys dev hmem
      exact hmap n dev hn
  · exact hpreset dev hdev

theorem admitWorkload_wf (unmarshal : List UInt8 → Option workloadInfoT)
    (devicemap : String → Option Nat) (devcount : Nat)
    (hmap : ∀ name dev, devicemap name = some dev → dev < devcount)
    (text : List UInt8) (preset : Option (List Nat)) (conn : Option Nat) (now : Int)
    (hpreset : ∀ dev, devmapGet preset dev = true → dev < devcount) (wl : workloadT)
    (h : admitWorkload unmarshal devicemap text preset conn now = .ok wl) :
    wfWorkload devcount wl := by
  cases hparse : unmarshal text with
  | none => simp [admitWorkload, hparse] at h
  | some info =>
    obtain ⟨profile, hbuild, hwl, _, hp, hd⟩ :=
      admitWorkload_ok_inv unmarshal devicemap text preset conn now info wl hparse h
    have hlen := buildProfile_length now info.Profile 0 0 profile hbuild
    rw [hwl]
    refine ⟨?_, hd, resolveDevices_range devicemap devcount hmap info preset hpreset, ?_⟩
    · intro hnil
      simp only at hnil
      rw [hnil] at hlen
      exact hp hlen.symm
    · simp only
      omega

theorem updateOne_wf (devcount : Nat) (now : Int) (probe : Nat → ProbeResult)
    (wl : workloadT) (hwf : wfWorkload devcount wl)
    (hkeep : (updateOne now probe wl).2 = false) :
    wfWorkload devcount (updateOne now probe wl).1 := by
  obtain ⟨h1, h2, h3, h4⟩ := hwf
  have hpos : 0 < wl.profile.length := List.length_pos.mpr h1
  unfold updateOne at hkeep ⊢
  split
  · rename_i hd
    rw [if_pos hd] at hkeep
    cases hkeep
  · simp only
    split
    · exact ⟨h1, h2, h3, h4⟩
    split
    · rename_i hlt
      exact ⟨h1, h2, h3, hlt⟩
    split
    · rename_i hd hne hge hone
      simp only [if_neg hd, if_neg hne, if_neg hge, if_pos hone] at hkeep
      cases hkeep
    · refine ⟨?_, h2, h3, ?_⟩
      · simpa using h1
      · simpa using hpos

theorem removeLoop_subset (count : Nat) (orig : List workloadT) (rm : List Nat) :
    ∀ (i : Nat) (ws : List workloadT) (tr : List ConnEvent)
      (r : List workloadT × List ConnEvent),
      removeLoop count i rm ws tr = some r → ws.length = count →
      (∀ k, k < count - i → ∃ w ∈ orig, ws[k]? = some w) →
      ∀ k, k < count - i - rm.length → ∃ w ∈ orig, r.1[k]? = some w := by
  induction rm with
  | nil =>
    intro i ws tr r h _ hinv k hk
    simp only [removeLoop, Option.some.injEq] at h
    rw [← h]
    exact hinv k (by simpa using hk)
  | cons wli rest ih =>
    intro i ws tr r h hlen hinv k hk
    simp only [removeLoop] at h
    split at h
    · cases h
    rename_i hnot
    split at h
    · rename_i wl last hwl hlast
      refine ih (i + 1) _ _ r h (by simp [hlen]) ?_ k (by
        simp only [List.length_cons] at hk; omega)
      intro j hj
      obtain ⟨w0, hw0, hget0⟩ := hinv (count - i - 1) (by omega)
      have hlast0 : w0 = last := by
        rw [hlast] at hget0
        exact (Option.some.inj hget0).symm
      rw [List.getElem?_set_ne (by omega)]
      by_cases hjw : wli = j
      · subst hjw
        rw [List.getElem?_set_self (by omega)]
        exact ⟨last, hlast0 ▸ hw0, rfl⟩
      · rw [List.getElem?_set_ne hjw]
        exact hinv j (by omega)
    · cases h

theorem removeWorkloads_subset (rm : List Nat) (ws : List workloadT) (tr : List ConnEvent)
    (r : List workloadT × List ConnEvent) (h : removeWorkloads rm ws tr = some r) :
    ∀ w ∈ r.1, w ∈ ws := by
  unfold removeWorkloads at h
  split at h
  · cases h
    intro w hw; exact hw
  · simp only at h
    split at h
    · cases h
    · rename_i moved trace1 hloop
      split at h
      · cases h
      · cases h
        intro w hw
        obtain ⟨k, hk⟩ := List.mem_iff_getElem?.mp hw
        rw [List.getElem?_take] at hk
        split at hk
        · rename_i hlt
          obtain ⟨w0, hw0, hget⟩ := removeLoop_subset ws.length ws _ 0 ws tr (moved, trace1)
            hloop rfl (fun j hj => by
              have hj2 : j < ws.length := by omega
              exact ⟨ws[j], List.getElem_mem _, List.getElem?_eq_getElem hj2⟩) k (by
              rw [List.length_insertionSort]; omega)
          simp only at hget
          rw [hget] at hk
          cases hk
          exact hw0
        · cases hk

theorem reachable_wf (unmarshal : List UInt8 → Option workloadInfoT)
    (devicemap : String → Option Nat) (devcount : Nat)
    (hmap : ∀ name dev, devicemap name = some dev → dev < devcount) (ws : List workloadT)
    (hreach : Reachable unmarshal devicemap devcount ws) :
    ∀ wl ∈ ws, wfWorkload devcount wl := by
  induction hreach with
  | empty => intro wl hwl; cases hwl
  | add ws text preset conn now _ hpreset ih =>
    intro wl hwl
    rcases addWorkload_cases unmarshal devicemap text preset conn now ws with h | ⟨w, hw, h⟩
    · rw [h] at hwl
      exact ih wl hwl
    · rw [h] at hwl
      rcases List.mem_append.mp hwl with hwl | hwl
      · exact ih wl hwl
      · simp only [List.mem_singleton] at hwl
        rw [hwl]
        exact admitWorkload_wf unmarshal devicemap devcount hmap text preset conn now
          hpreset w hw
  | update ws now probe tr r _ hrun ih =>
    intro wl hwl
    obtain ⟨ws1, hspec, hperm⟩ := updateWorkloads_spec now probe ws tr
    rw [hspec] at hrun
    cases hrun
    have hkept := hperm.mem_iff.mp hwl
    unfold keptWorkloads at hkept
    obtain ⟨w0, hw0, rfl⟩ := List.mem_map.mp hkept
    obtain ⟨hmem, hkeep⟩ := List.mem_filter.mp hw0
    exact updateOne_wf devcount now probe w0 (ih w0 hmem) (by simpa using hkeep)
  | remove ws rm tr r _ hrun ih =>
    intro wl hwl
    exact ih wl (removeWorkloads_subset rm ws tr r hrun wl hwl)

/-- C23: every store reached from the empty store by calls of `addWorkload`,
`updateWorkloads` (at any time and with any probe outcomes) and
`removeWorkloads` holds only workloads with a non-empty profile, a non-empty
device set whose indices are below the device count, and a cursor inside the
profile; hence `addWorkloadsToMetric` returns on it, its index
`wl.profile[wl.activity]` being in range. -/
theorem reachable_store_is_well_formed (unmarshal : List UInt8 → Option workloadInfoT)
    (devicemap : String → Option Nat) (devcount : Nat)
    (hmap : ∀ name dev, devicemap name = some dev → dev < devcount) (ws : List workloadT)
    (hreach : Reachable unmarshal devicemap devcount ws) :
    (∀ wl ∈ ws, wl.profile ≠ [] ∧ devmapLen wl.devmap ≠ 0 ∧
      (∀ dev, devmapGet wl.devmap dev = true → dev < devcount) ∧
      wl.activity < wl.profile.length) ∧
    (∀ rnd dev limit value k,
      ∃ v k1, addWorkloadsToMetric rnd dev limit ws value k = some (v, k1)) := by
  have hwf := reachable_wf unmarshal devicemap devcount hmap ws hreach
  exact ⟨hwf, fun rnd dev limit value k =>
    addWorkloadsToMetric_total rnd dev limit ws (fun wl hwl => (hwf wl hwl).2.2.2) value k⟩

theorem reachable_store_is_well_formed_witness :
    (∀ wl ∈ (addWorkload (exUnmarshal exInfo) exDevicemap [] none (some 3) 1000 []).2,
      wl.profile ≠ [] ∧ devmapLen wl.devmap ≠ 0 ∧
      (∀ dev, devmapGet wl.devmap dev = true → dev < 1) ∧
      wl.activity < wl.profile.length) ∧
    (∀ rnd dev limit value k,
      ∃ v k1, addWorkloadsToMetric rnd dev limit
        (addWorkload (exUnmarshal exInfo) exDevicemap [] none (some 3) 1000 []).2 value k =
          some (v, k1)) :=
  reachable_store_is_well_formed (exUnmarshal exInfo) exDevicemap 1
    (fun name dev h => by
      unfold exDevicemap at h
      split at h
      · cases h; decide
      · cases h)
    _ (Reachable.add [] [] none (some 3) 1000 Reachable.empty
      (fun dev h => by simp [devmapGet] at h))

/-! ## Unclamped value of a single workload -/

theorem f64mul_zero (x : ℚ) : f64mul x 0 = 0 := by
  simp [f64mul, roundQuotient]

theorem exRoundStored_admitted :
    admitWorkload (exUnmarshal exRoundInfo) exDevicemap [] none (some 3) 1000 =
      .ok exRoundStored := by
  rfl

theorem exRoundStored_profile :
    exRoundStored.profile[exRoundStored.activity]? =
      some { load := 1, fluctuation := 0, deadline := 1000 + wrapInt64 (0 + parseDurationSeconds 5)
             seconds := wrapInt64 (0 + parseDurationSeconds 5) } := by
  simp [exRoundStored]

theorem exRound_value (rnd : Nat → ℚ) :
    addWorkloadsToMetricF64 rnd 0 exRoundLimit [exRoundStored] exRoundLimit.Min 0 =
      some (mkRat 225179981368525 1125899906842624, 1) := by
  have hb : devmapGet exRoundStored.devmap 0 = true := by decide
  simp only [addWorkloadsToMetricF64, hb, Bool.not_true, Bool.false_eq_true, if_false,
    exRoundStored_profile, f64mul_zero]
  decide

theorem buildProfile_ratios (now : Int) (ps : List wlProfileT) :
    ∀ (i : Nat) (total : Int) (profile : List devProfileT),
      buildProfile now i total ps = .ok profile → ∀ seg ∈ profile, ratiosAdmitted seg := by
  induction ps with
  | nil =>
    intro i total profile h seg hseg
    simp only [buildProfile, Except.ok.injEq] at h
    rw [← h] at hseg
    cases hseg
  | cons p rest ih =>
    intro i total profile h seg hseg
    simp only [buildProfile] at h
    split at h
    · cases h
    rename_i c1
    split at h
    · cases h
    rename_i c2
    split at h
    · cases h
    · rename_i tail htail
      cases h
      rcases List.mem_cons.mp hseg with hhead | htl
      · rw [hhead]
        have h1 : (0 : ℚ) ≤ (p.Fluctuation : ℚ) := by
          have : (0 : Int) ≤ p.Fluctuation := by omega
          exact_mod_cast this
        have h2 : (p.Fluctuation : ℚ) ≤ (p.Load : ℚ) := by
          have : p.Fluctuation ≤ p.Load := by omega
          exact_mod_cast this
        have h3 : (p.Load : ℚ) + (p.Fluctuation : ℚ) ≤ 100 := by
          have : p.Load + p.Fluctuation ≤ 100 := by omega
          exact_mod_cast this
        refine ⟨?_, ?_, ?_⟩
        · show (0 : ℚ) ≤ (p.Fluctuation : ℚ) / 100
          positivity
        · show (p.Fluctuation : ℚ) / 100 ≤ (p.Load : ℚ) / 100
          exact div_le_div_of_nonneg_right h2 (by norm_num)
        · show (p.Load : ℚ) / 100 + (p.Fluctuation : ℚ) / 100 ≤ 1
          rw [← add_div]
          exact (div_le_one (by norm_num)).mpr h3
      · exact ih _ _ tail htail seg htl

theorem admitWorkload_ratios (unmarshal : List UInt8 → Option workloadInfoT)
    (devicemap : String → Option Nat) (text : List UInt8) (preset : Option (List Nat))
    (conn : Option Nat) (now : Int) (wl : workloadT)
    (h : admitWorkload unmarshal devicemap text preset conn now = .ok wl) :
    ∀ seg ∈ wl.profile, ratiosAdmitted seg := by
  cases hparse : unmarshal text with
  | none => simp [admitWorkload, hparse] at h
  | some info =>
    obtain ⟨profile, hbuild, hwl, _, _, _⟩ :=
      admitWorkload_ok_inv unmarshal devicemap text preset conn now info wl hparse h
    rw [hwl]
    exact buildProfile_ratios now info.Profile 0 0 profile hbuild

theorem updateOne_ratios (now : Int) (probe : Nat → ProbeResult) (wl : workloadT)
    (h : ∀ seg ∈ wl.profile, ratiosAdmitted seg) :
    ∀ seg ∈ (updateOne now probe wl).1.profile, ratiosAdmitted seg := by
  unfold updateOne
  split
  · exact h
  · simp only
    split
    · exact h
    split
    · exact h
    split
    · exact h
    · intro seg hseg
      simp only [List.mem_map] at hseg
      obtain ⟨s0, hs0, rfl⟩ := hseg
      exact h s0 hs0

theorem reachable_ratios (unmarshal : List UInt8 → Option workloadInfoT)
    (devicemap : String → Option Nat) (devcount : Nat) (ws : List workloadT)
    (hreach : Reachable unmarshal devicemap devcount ws) :
    ∀ wl ∈ ws, ∀ seg ∈ wl.profile, ratiosAdmitted seg := by
  induction hreach with
  | empty => intro wl hwl; cases hwl
  | add ws text preset conn now _ hpreset ih =>
    intro wl hwl
    rcases addWorkload_cases unmarshal devicemap text preset conn now ws with h | ⟨w, hw, h⟩
    · rw [h] at hwl
      exact ih wl hwl
    · rw [h] at hwl
      rcases List.mem_append.mp hwl with hwl | hwl
      · exact ih wl hwl
      · simp only [List.mem_singleton] at hwl
        rw [hwl]
        exact admitWorkload_ratios unmarshal devicemap text preset conn now w hw
  | update ws now probe tr r _ hrun ih =>
    intro wl hwl
    obtain ⟨ws1, hspec, hperm⟩ := updateWorkloads_spec now probe ws tr
    rw [hspec] at hrun
    cases hrun
    have hkept := hperm.mem_iff.mp hwl
    unfold keptWorkloads at hkept
    obtain ⟨w0, hw0, rfl⟩ := List.mem_map.mp hkept
    obtain ⟨hmem, _⟩ := List.mem_filter.mp hw0
    exact updateOne_ratios now probe w0 (ih w0 hmem)
  | remove ws rm tr r _ hrun ih =>
    intro wl hwl
    exact ih wl (removeWorkloads_subset rm ws tr r hrun wl hwl)

theorem ratios_value_bounds (limit : limitT) (seg : devProfileT) (r : ℚ)
    (hle : limit.Min ≤ limit.Max) (hseg : ratiosAdmitted seg) (h0 : 0 ≤ r) (h1 : r < 1) :
    limit.Min ≤
        limit.Min + (limit.Max - limit.Min) * (seg.load + (r - 1 / 2) * seg.fluctuation) ∧
      limit.Min + (limit.Max - limit.Min) * (seg.load + (r - 1 / 2) * seg.fluctuation) ≤
        limit.Max := by
  obtain ⟨hf, hfl, hsum⟩ := hseg
  have hrf : 0 ≤ r * seg.fluctuation := mul_nonneg h0 hf
  have hrf1 : 0 ≤ (1 - r) * seg.fluctuation := mul_nonneg (sub_nonneg.mpr h1.le) hf
  have hx0 : 0 ≤ seg.load + (r - 1 / 2) * seg.fluctuation := by nlinarith
  have hx1 : seg.load + (r - 1 / 2) * seg.fluctuation ≤ 1 := by nlinarith
  have hs : 0 ≤ limit.Max - limit.Min := sub_nonneg.mpr hle
  have hm0 := mul_nonneg hs hx0
  have hm1 := mul_le_mul_of_nonneg_left hx1 hs
  constructor
  · linarith
  · linarith

theorem limitNotes_within (limit : limitT) (value : ℚ) (h1 : limit.Min ≤ value)
    (h2 : value ≤ limit.Max) : limitNotes limit value = [] := by
  simp only [limitNotes, if_neg (not_lt.mpr h1), gt_iff_lt, if_neg (not_lt.mpr h2),
    List.append_nil]

/-- C24 (counterexample): the descriptor with one segment of load 100 and
fluctuation 0 is admitted by `addWorkload`, its ratios being the float64
quotients 100/100 = 1 and 0/100 = 0; for the limit from -5 to 0.2 (the float64
nearest to 1/5), which has `Min ≤ Max`, and for every random draw, the float64
computation of `addWorkloadsToMetric` on the device bound to this single
workload returns 225179981368525 / 2 ^ 50 (printed 0.20000000000000018), which
is above `Max`, so `runSimulation` limits the value to `Max` and notes it. -/
theorem single_workload_rounding_exceeds_max :
    admitWorkload (exUnmarshal exRoundInfo) exDevicemap [] none (some 3) 1000 =
        .ok exRoundStored ∧
      exRoundStored.profile.map (fun s => (s.load, s.fluctuation)) =
        [(f64div 100 100, f64div 0 100)] ∧
      exRoundLimit.Min ≤ exRoundLimit.Max ∧
      exRoundLimit.Max = roundQuotient 1 5 ∧
      ∀ rnd : Nat → ℚ, ∃ raw,
        addWorkloadsToMetricF64 rnd 0 exRoundLimit [exRoundStored] exRoundLimit.Min 0 =
          some (raw, 1) ∧
        raw = mkRat 225179981368525 (2 ^ 50) ∧
        exRoundLimit.Max < raw ∧
        limitValue exRoundLimit raw = exRoundLimit.Max ∧
        limitNotes exRoundLimit raw = [LimitNote.above raw exRoundLimit.Max] := by
  refine ⟨exRoundStored_admitted, ?_, by decide, by decide, ?_⟩
  · have h1 : f64div 100 100 = 1 := by decide
    have h2 : f64div 0 100 = 0 := by decide
    rw [h1, h2]
    simp [exRoundStored]
  · intro rnd
    refine ⟨_, exRound_value rnd, by decide, by decide, by decide, by decide⟩

/-- C24 (amended): in exact arithmetic, that is with the rounding of float64
left out, for a store reached by calls of `addWorkload`, `updateWorkloads` and
`removeWorkloads`, a device bound to exactly one stored workload, every metric
limit with `Min ≤ Max` and all random draws in [0,1): the cursor of the
workload is on a segment, the value `addWorkloadsToMetric` returns is
`Min + (Max - Min) * (load + (r - 1/2) * fluctuation)`, it lies between `Min`
and `Max`, `runSimulation` notes no limiting for it and stores it as it is. -/
theorem single_workload_exact_value_within_limits
    (unmarshal : List UInt8 → Option workloadInfoT) (devicemap : String → Option Nat)
    (devcount : Nat) (hmap : ∀ name dev, devicemap name = some dev → dev < devcount)
    (rnd : Nat → ℚ) (limits : List (String × limitT)) (pre post : List workloadT)
    (wl : workloadT) (device : List (String → Option ℚ)) (k dev : Nat)
    (metric : String) (limit : limitT)
    (hreach : Reachable unmarshal devicemap devcount (pre ++ wl :: post))
    (hnodup : (limits.map Prod.fst).Nodup)
    (hdev : dev < device.length)
    (hmem : (metric, limit) ∈ limits)
    (hpre : ∀ w ∈ pre, devmapGet w.devmap dev = false)
    (hpost : ∀ w ∈ post, devmapGet w.devmap dev = false)
    (hbound : devmapGet wl.devmap dev = true)
    (hle : limit.Min ≤ limit.Max)
    (hrnd : ∀ j, 0 ≤ rnd j ∧ rnd j < 1) :
    ∃ seg, wl.profile[wl.activity]? = some seg ∧
      (∀ k0,
        addWorkloadsToMetric rnd dev limit (pre ++ wl :: post) limit.Min k0 =
          some (limit.Min +
            (limit.Max - limit.Min) * (seg.load + (rnd k0 - 1 / 2) * seg.fluctuation),
            k0 + 1) ∧
        limit.Min ≤ limit.Min +
          (limit.Max - limit.Min) * (seg.load + (rnd k0 - 1 / 2) * seg.fluctuation) ∧
        limit.Min + (limit.Max - limit.Min) * (seg.load + (rnd k0 - 1 / 2) * seg.fluctuation) ≤
          limit.Max ∧
        limitNotes limit (limit.Min +
          (limit.Max - limit.Min) * (seg.load + (rnd k0 - 1 / 2) * seg.fluctuation)) = []) ∧
      ∃ devs notes k1 values k0,
        runSimulation rnd limits (pre ++ wl :: post) device k = some (devs, notes, k1) ∧
        devs[dev]? = some values ∧
        values metric = some (limit.Min +
          (limit.Max - limit.Min) * (seg.load + (rnd k0 - 1 / 2) * seg.fluctuation)) := by
  have hwf := reachable_wf unmarshal devicemap devcount hmap _ hreach
  have hrat := reachable_ratios unmarshal devicemap devcount _ hreach
  have hwl : wl ∈ pre ++ wl :: post :=
    List.mem_append_right _ (List.mem_cons_self _ _)
  have hact : wl.activity < wl.profile.length := (hwf wl hwl).2.2.2
  have hseg : wl.profile[wl.activity]? = some (wl.profile[wl.activity]) :=
    List.getElem?_eq_getElem hact
  have hsegr : ratiosAdmitted (wl.profile[wl.activity]) :=
    hrat wl hwl _ (List.getElem_mem _)
  have hval := fun k0 => ratios_value_bounds limit (wl.profile[wl.activity]) (rnd k0) hle hsegr
    (hrnd k0).1 (hrnd k0).2
  refine ⟨wl.profile[wl.activity], hseg, ?_, ?_⟩
  · intro k0
    exact ⟨addWorkloadsToMetric_single rnd dev limit pre post wl _ hpre hpost hbound hseg _ k0,
      (hval k0).1, (hval k0).2, limitNotes_within limit _ (hval k0).1 (hval k0).2⟩
  · obtain ⟨devs, notes, k1, hrun, hspec⟩ :=
      runSimulationFrom_spec rnd limits (pre ++ wl :: post)
        (fun w hw => (hwf w hw).2.2.2) hnodup device 0 k
    obtain ⟨values, hget, hvalues⟩ := hspec dev hdev
    obtain ⟨k0, raw, k2, hraw, hstored⟩ := hvalues metric limit hmem
    rw [Nat.zero_add,
      addWorkloadsToMetric_single rnd dev limit pre post wl _ hpre hpost hbound hseg] at hraw
    simp only [Option.some.injEq, Prod.mk.injEq] at hraw
    obtain ⟨hraw, _⟩ := hraw
    rw [← hraw, (limitValue_bounds limit _ hle).2.2 (hval k0).1 (hval k0).2] at hstored
    exact ⟨devs, notes, k1, values, k0, hrun, hget, hstored⟩

theorem single_workload_exact_value_within_limits_witness :
    ∃ seg, exRoundStored.profile[exRoundStored.activity]? = some seg ∧
      (∀ k0,
        addWorkloadsToMetric (fun _ => 1 / 4) 0 { Min := 0, Max := 100 }
            ([] ++ exRoundStored :: []) (0 : ℚ) k0 =
          some ((0 : ℚ) +
            ((100 : ℚ) - 0) * (seg.load + ((1 / 4 : ℚ) - 1 / 2) * seg.fluctuation),
            k0 + 1) ∧
        (0 : ℚ) ≤ (0 : ℚ) +
          ((100 : ℚ) - 0) * (seg.load + ((1 / 4 : ℚ) - 1 / 2) * seg.fluctuation) ∧
        (0 : ℚ) + ((100 : ℚ) - 0) * (seg.load + ((1 / 4 : ℚ) - 1 / 2) * seg.fluctuation) ≤
          (100 : ℚ) ∧
        limitNotes { Min := 0, Max := 100 } ((0 : ℚ) +
          ((100 : ℚ) - 0) * (seg.load + ((1 / 4 : ℚ) - 1 / 2) * seg.fluctuation)) = []) ∧
      ∃ devs notes k1 values, ∃ _k0 : Nat,
        runSimulation (fun _ => 1 / 4) exLimits ([] ++ exRoundStored :: []) exDevice 0 =
          some (devs, notes, k1) ∧
        devs[0]? = some values ∧
        values "power" = some ((0 : ℚ) +
          ((100 : ℚ) - 0) * (seg.load + ((1 / 4 : ℚ) - 1 / 2) * seg.fluctuation)) :=
  single_workload_exact_value_within_limits (exUnmarshal exRoundInfo) exDevicemap 1
    (fun name dev h => by
      unfold exDevicemap at h
      split at h
      · cases h; decide
      · cases h)
    (fun _ => 1 / 4) exLimits [] [] exRoundStored exDevice 0 0 "power" { Min := 0, Max := 100 }
    (Reachable.add [] [] none (some 3) 1000 Reachable.empty
      (fun dev h => by simp [devmapGet] at h))
    (by decide) (by decide) (List.mem_cons_self _ _) (by decide) (by decide) (by decide)
    (by norm_num) (fun _ => by norm_num)

/-! ## Simulation in float64: lemmas -/

theorem addWorkloadsToMetricIEEE_sum (rnd : Nat → Float64) (dev : Nat) (limit : limitT)
    (ws : List workloadT) (hwf : ∀ wl ∈ ws, wl.activity < wl.profile.length) :
    ∀ (value : Float64) (k : Nat),
      addWorkloadsToMetricIEEE rnd dev limit ws value k =
        some (sumContributionsIEEE rnd limit value
            ((ws.filter (fun wl => devmapGet wl.devmap dev)).enumFrom k),
          k + (ws.filter (fun wl => devmapGet wl.devmap dev)).length) := by
  induction ws with
  | nil => intro value k; rfl
  | cons wl rest ih =>
    intro value k
    have hrest := ih (fun w hw => hwf w (List.mem_cons_of_mem _ hw))
    have hlt := hwf wl (List.mem_cons_self _ _)
    simp only [addWorkloadsToMetricIEEE]
    by_cases hb : devmapGet wl.devmap dev = true
    · rw [List.filter_cons_of_pos (by simpa using hb)]
      simp only [hb, Bool.not_true, Bool.false_eq_true, if_false,
        List.getElem?_eq_getElem hlt, hrest, List.enumFrom_cons, sumContributionsIEEE,
        List.foldl_cons, List.length_cons, contributionIEEE]
      congr 2
      omega
    · rw [List.filter_cons_of_neg (by simpa using hb)]
      simp only [Bool.not_eq_true] at hb
      simp only [hb, Bool.not_false, if_true, hrest]

theorem limitValueIEEE_spec (limit : limitT) (value : Float64) (h : limit.Min ≤ limit.Max) :
    (value = .nan → limitValueIEEE limit value = .nan) ∧
    (value ≠ .nan →
      ∃ q, limitValueIEEE limit value = .finite q ∧ limit.Min ≤ q ∧ q ≤ limit.Max) ∧
    (∀ q, value = .finite q → limit.Min ≤ q → q ≤ limit.Max →
      limitValueIEEE limit value = .finite q) := by
  have hnot : ¬ limit.Max < limit.Min := not_lt.mpr h
  cases value with
  | nan =>
    refine ⟨fun _ => by simp [limitValueIEEE, Float64.lt], fun hne => absurd rfl hne, ?_⟩
    intro q hq; cases hq
  | posInf =>
    refine ⟨fun hv => (by cases hv), fun _ => ⟨limit.Max, ?_, h, le_refl _⟩, ?_⟩
    · simp [limitValueIEEE, Float64.lt]
    · intro q hq; cases hq
  | negInf =>
    refine ⟨fun hv => (by cases hv), fun _ => ⟨limit.Min, ?_, le_refl _, h⟩, ?_⟩
    · simp [limitValueIEEE, Float64.lt, hnot]
    · intro q hq; cases hq
  | finite a =>
    refine ⟨fun hv => (by cases hv), fun _ => ?_, ?_⟩
    · by_cases h1 : a < limit.Min
      · exact ⟨limit.Min, by simp [limitValueIEEE, Float64.lt, h1, hnot], le_refl _, h⟩
      · by_cases h2 : limit.Max < a
        · exact ⟨limit.Max, by simp [limitValueIEEE, Float64.lt, h1, h2], h, le_refl _⟩
        · exact ⟨a, by simp [limitValueIEEE, Float64.lt, h1, h2], not_lt.mp h1, not_lt.mp h2⟩
    · intro q hq h1 h2
      cases hq
      simp [limitValueIEEE, Float64.lt, not_lt.mpr h1, not_lt.mpr h2]

theorem simulateDeviceIEEE_spec (rnd : Nat → Float64) (ws : List workloadT) (dev : Nat)
    (hwf : ∀ wl ∈ ws, wl.activity < wl.profile.length) (limits : List (String × limitT)) :
    ∀ (values : String → Option Float64) (limited : List LimitNoteIEEE) (k : Nat),
      (limits.map Prod.fst).Nodup →
      ∃ values1 limited1 k1,
        simulateDeviceIEEE rnd ws dev limits values limited k = some (values1, limited1, k1) ∧
        (∀ name, name ∉ limits.map Prod.fst → values1 name = values name) ∧
        (∀ metric limit, (metric, limit) ∈ limits →
          ∃ k0, values1 metric =
            some (limitValueIEEE limit (unclampedSumIEEE rnd dev limit ws k0))) := by
  induction limits with
  | nil =>
    intro values limited k _
    exact ⟨values, limited, k, rfl, fun _ _ => rfl, fun _ _ h => by cases h⟩
  | cons ml rest ih =>
    intro values limited k hnodup
    obtain ⟨m, l⟩ := ml
    simp only [List.map_cons, List.nodup_cons] at hnodup
    obtain ⟨hm, hrest⟩ := hnodup
    have hraw := addWorkloadsToMetricIEEE_sum rnd dev l ws hwf (.finite l.Min) k
    obtain ⟨values1, limited1, k2, hrun, hother, hspec⟩ :=
      ih (metricSetIEEE values m (limitValueIEEE l (unclampedSumIEEE rnd dev l ws k)))
        (limited ++ limitNotesIEEE l (unclampedSumIEEE rnd dev l ws k))
        (k + (ws.filter (fun wl => devmapGet wl.devmap dev)).length) hrest
    refine ⟨values1, limited1, k2, ?_, ?_, ?_⟩
    · simp only [simulateDeviceIEEE, hraw]
      exact hrun
    · intro name hname
      simp only [List.map_cons, List.mem_cons, not_or] at hname
      rw [hother name hname.2]
      simp [metricSetIEEE, hname.1]
    · intro metric limit hmem
      rcases List.mem_cons.mp hmem with heq | hmem
      · cases heq
        refine ⟨k, ?_⟩
        rw [hother m hm]
        simp [metricSetIEEE]
      · exact hspec metric limit hmem

theorem runSimulationFromIEEE_spec (rnd : Nat → Float64) (limits : List (String × limitT))
    (ws : List workloadT) (hwf : ∀ wl ∈ ws, wl.activity < wl.profile.length)
    (hnodup : (limits.map Prod.fst).Nodup) (device : List (String → Option Float64)) :
    ∀ (start k : Nat), ∃ devs notes k1,
      runSimulationFromIEEE rnd limits ws start device k = some (devs, notes, k1) ∧
      ∀ d, d < device.length → ∃ values1, devs[d]? = some values1 ∧
        ∀ metric limit, (metric, limit) ∈ limits →
          ∃ k0, values1 metric =
            some (limitValueIEEE limit (unclampedSumIEEE rnd (start + d) limit ws k0)) := by
  induction device with
  | nil =>
    intro start k
    exact ⟨[], [], k, rfl, fun d hd => by simp at hd⟩
  | cons values rest ih =>
    intro start k
    obtain ⟨values1, limited1, k1, hdev, _, hspec⟩ :=
      simulateDeviceIEEE_spec rnd ws start hwf limits values [] k hnodup
    obtain ⟨devs, notes, k2, hrun, hrest⟩ := ih (start + 1) k1
    refine ⟨values1 :: devs, limited1 :: notes, k2, ?_, ?_⟩
    · simp only [runSimulationFromIEEE, hdev, hrun]
    · intro d hd
      cases d with
      | zero => exact ⟨values1, by simp, by simpa using hspec⟩
      | succ d =>
        obtain ⟨v, hv, hvspec⟩ := hrest d (by simpa using hd)
        refine ⟨v, by simpa using hv, ?_⟩
        have hidx : start + (d + 1) = start + 1 + d := by omega
        rw [hidx]
        exact hvspec

theorem roundFloat64_finite (n : Int) (d : Nat) (h : n.natAbs < overflowBound * d) :
    ∃ q, roundFloat64 n d = .finite q := by
  unfold roundFloat64
  split
  · exact ⟨_, rfl⟩
  split
  · rename_i hge
    exact absurd h (not_lt.mpr hge)
  split
  · exact ⟨_, rfl⟩
  · exact ⟨_, rfl⟩

theorem overflowBound_pos : 0 < overflowBound := by
  unfold overflowBound
  exact Nat.mul_pos (by norm_num) (by positivity)

theorem sub_half_finite (r : ℚ) (h0 : 0 ≤ r) (h1 : r < 1) :
    ∃ q, Float64.sub (.finite r) (.finite (1 / 2)) = .finite q := by
  have hnum : ((1 : ℚ) / 2).num = 1 := by norm_num
  have hden : ((1 : ℚ) / 2).den = 2 := by norm_num
  have hne : ¬ ((1 : ℚ) / 2).num = 0 := by rw [hnum]; decide
  simp only [Float64.sub, if_neg hne, hnum, hden]
  apply roundFloat64_finite
  have hr0 : 0 ≤ r.num := Rat.num_nonneg.mpr h0
  have hr1 : r.num < r.den := Rat.lt_one_iff_num_lt_denom.mp h1
  have hd : 0 < r.den := r.den_pos
  have hb := overflowBound_pos
  have habs : (r.num * ((2 : Nat) : Int) - 1 * (r.den : Int)).natAbs ≤ r.den := by omega
  calc (r.num * ((2 : Nat) : Int) - 1 * (r.den : Int)).natAbs ≤ r.den := habs
    _ < r.den * 2 := by omega
    _ ≤ overflowBound * (r.den * 2) := Nat.le_mul_of_pos_left _ hb

theorem toFloat64_zero : toFloat64 0 = .finite 0 := by
  simp [toFloat64, roundFloat64]

theorem Float64.mul_finite_zero (q : ℚ) :
    Float64.mul (.finite q) (.finite 0) = .finite 0 := by
  simp [Float64.mul, roundFloat64]

theorem Float64.add_finite_zero (x : Float64) : Float64.add x (.finite 0) = x := by
  cases x <;> simp [Float64.add]

theorem contributionIEEE_without_fluctuation (limit : limitT) (seg : devProfileT)
    (r : ℚ) (hflux : seg.fluctuation = 0) (h0 : 0 ≤ r) (h1 : r < 1) :
    contributionIEEE limit seg (.finite r) =
      Float64.mul (Float64.sub (.finite limit.Max) (.finite limit.Min)) (toFloat64 seg.load) := by
  obtain ⟨q, hq⟩ := sub_half_finite r h0 h1
  simp only [contributionIEEE, hflux, toFloat64_zero, hq, Float64.mul_finite_zero,
    Float64.add_finite_zero]

theorem unclampedSumIEEE_single (rnd : Nat → Float64) (dev : Nat) (limit : limitT)
    (pre post : List workloadT) (wl : workloadT) (seg : devProfileT)
    (hpre : ∀ w ∈ pre, devmapGet w.devmap dev = false)
    (hpost : ∀ w ∈ post, devmapGet w.devmap dev = false)
    (hbound : devmapGet wl.devmap dev = true) (hseg : wl.profile[wl.activity]? = some seg)
    (k : Nat) :
    unclampedSumIEEE rnd dev limit (pre ++ wl :: post) k =
      Float64.add (.finite limit.Min) (contributionIEEE limit seg (rnd k)) := by
  have h1 : pre.filter (fun w => devmapGet w.devmap dev) = [] :=
    List.filter_eq_nil_iff.mpr (fun w hw => by simp [hpre w hw])
  have h2 : post.filter (fun w => devmapGet w.devmap dev) = [] :=
    List.filter_eq_nil_iff.mpr (fun w hw => by simp [hpost w hw])
  unfold unclampedSumIEEE
  rw [List.filter_append, h1, List.nil_append, List.filter_cons_of_pos (by simpa using hbound),
    h2]
  simp only [List.enumFrom_cons, List.enumFrom_nil, sumContributionsIEEE, List.foldl_cons,
    List.foldl_nil, hseg]

theorem Float64.lt_finite (a b : ℚ) :
    Float64.lt (.finite a) (.finite b) = decide (a < b) := rfl

theorem limitValueIEEE_cases (limit : limitT) (x : Float64) :
    (Float64.lt x (.finite limit.Min) = true → limit.Min ≤ limit.Max →
      limitValueIEEE limit x = .finite limit.Min) ∧
    (Float64.lt x (.finite limit.Min) = true → limit.Max < limit.Min →
      limitValueIEEE limit x = .finite limit.Max) ∧
    (Float64.lt (.finite limit.Max) x = true → limitValueIEEE limit x = .finite limit.Max) ∧
    (Float64.lt x (.finite limit.Min) = false → Float64.lt (.finite limit.Max) x = false →
      limitValueIEEE limit x = x) := by
  refine ⟨?_, ?_, ?_, ?_⟩
  · intro h1 hle
    simp only [limitValueIEEE, h1, if_true, Float64.lt_finite, decide_eq_true_eq,
      if_neg (not_lt.mpr hle)]
  · intro h1 hlt
    simp only [limitValueIEEE, h1, if_true, Float64.lt_finite, decide_eq_true_eq, if_pos hlt]
  · intro h2
    by_cases h1 : Float64.lt x (.finite limit.Min) = true
    · have hlt : limit.Max < limit.Min := by
        cases x with
        | finite a =>
          rw [Float64.lt_finite, decide_eq_true_eq] at h1 h2
          exact lt_trans h2 h1
        | posInf => simp [Float64.lt] at h1
        | negInf => simp [Float64.lt] at h2
        | nan => simp [Float64.lt] at h1
      simp only [limitValueIEEE, h1, if_true, Float64.lt_finite, decide_eq_true_eq,
        if_pos hlt]
    · simp only [limitValueIEEE, if_neg h1, h2, if_true]
  · intro h1 h2
    simp only [limitValueIEEE, h1, h2, Bool.false_eq_true, if_false]

/-! ## Simulation in float64: claims -/

/-- C8, as the claim states it, fails: the descriptor with one segment of load
0 and fluctuation 0 is admitted on device 0; for the limit from -1e308 to
1e308, which has `Min ≤ Max`, the difference `Max - Min` overflows to
+Inf, its product with 0 is NaN, and NaN passes both comparisons of
`runSimulation`, so the value stored for device 0 is NaN and not a number
between `Min` and `Max`; the idle device 1 stores `Min`. -/
theorem overflowing_limit_stores_nan :
    (addWorkload (exUnmarshal exIdleInfo) exDevicemap [] none (some 3) 1000 []).1 = true ∧
    exHugeLimit.Min ≤ exHugeLimit.Max ∧
    Float64.sub (.finite exHugeLimit.Max) (.finite exHugeLimit.Min) = .posInf ∧
    unclampedSumIEEE exDraw 0 exHugeLimit
      (addWorkload (exUnmarshal exIdleInfo) exDevicemap [] none (some 3) 1000 []).2 0 =
        .nan ∧
    (runSimulationIEEE exDraw [("power", exHugeLimit)]
      (addWorkload (exUnmarshal exIdleInfo) exDevicemap [] none (some 3) 1000 []).2
      exDeviceIEEE 0).map (fun r => r.1.map (fun values => values "power")) =
        some [some .nan, some (.finite exHugeLimit.Min)] := by
  decide!

/-- C8, amended: after `runSimulation`, for every device, every metric whose
limit has `Min ≤ Max`, every set of stored workloads (with their cursors in
range) and every sequence of random draws, `addWorkloadsToMetric` returns the
unclamped sum (`Min` plus the contribution of each workload bound to the
device, in store order); the stored value is NaN when that sum is NaN;
otherwise it is a number between `Min` and `Max`, and it is the unclamped sum
whenever that sum already lies between `Min` and `Max`. -/
theorem simulated_value_within_limits_or_nan (rnd : Nat → Float64)
    (limits : List (String × limitT)) (ws : List workloadT)
    (device : List (String → Option Float64)) (k dev : Nat)
    (metric : String) (limit : limitT)
    (hwf : ∀ wl ∈ ws, wl.activity < wl.profile.length)
    (hnodup : (limits.map Prod.fst).Nodup)
    (hdev : dev < device.length)
    (hmem : (metric, limit) ∈ limits)
    (hle : limit.Min ≤ limit.Max) :
    ∃ devs notes k1 values, runSimulationIEEE rnd limits ws device k = some (devs, notes, k1) ∧
      devs[dev]? = some values ∧
      ∃ k0 v, values metric = some v ∧
        addWorkloadsToMetricIEEE rnd dev limit ws (.finite limit.Min) k0 =
          some (unclampedSumIEEE rnd dev limit ws k0,
            k0 + (ws.filter (fun wl => devmapGet wl.devmap dev)).length) ∧
        (unclampedSumIEEE rnd dev limit ws k0 = .nan → v = .nan) ∧
        (unclampedSumIEEE rnd dev limit ws k0 ≠ .nan →
          ∃ q, v = .finite q ∧ limit.Min ≤ q ∧ q ≤ limit.Max) ∧
        (∀ q, unclampedSumIEEE rnd dev limit ws k0 = .finite q → limit.Min ≤ q →
          q ≤ limit.Max → v = .finite q) := by
  obtain ⟨devs, notes, k1, hrun, hspec⟩ :=
    runSimulationFromIEEE_spec rnd limits ws hwf hnodup device 0 k
  obtain ⟨values, hget, hvalues⟩ := hspec dev hdev
  obtain ⟨k0, hval⟩ := hvalues metric limit hmem
  rw [Nat.zero_add] at hval
  obtain ⟨h1, h2, h3⟩ := limitValueIEEE_spec limit (unclampedSumIEEE rnd dev limit ws k0) hle
  exact ⟨devs, notes, k1, values, hrun, hget, k0, _, hval,
    addWorkloadsToMetricIEEE_sum rnd dev limit ws hwf (.finite limit.Min) k0, h1, h2, h3⟩

theorem simulated_value_within_limits_or_nan_witness :
    (∃ devs notes k1 values,
      runSimulationIEEE exDraw exLimits [exFull, exLive] exDeviceIEEE 0 =
        some (devs, notes, k1) ∧
      devs[0]? = some values ∧
      ∃ k0 v, values "power" = some v ∧
        addWorkloadsToMetricIEEE exDraw 0 { Min := 0, Max := 100 } [exFull, exLive]
            (.finite 0) k0 =
          some (unclampedSumIEEE exDraw 0 { Min := 0, Max := 100 } [exFull, exLive] k0,
            k0 + ([exFull, exLive].filter (fun wl => devmapGet wl.devmap 0)).length) ∧
        (unclampedSumIEEE exDraw 0 { Min := 0, Max := 100 } [exFull, exLive] k0 = .nan →
          v = .nan) ∧
        (unclampedSumIEEE exDraw 0 { Min := 0, Max := 100 } [exFull, exLive] k0 ≠ .nan →
          ∃ q, v = .finite q ∧ (0 : ℚ) ≤ q ∧ q ≤ (100 : ℚ)) ∧
        (∀ q, unclampedSumIEEE exDraw 0 { Min := 0, Max := 100 } [exFull, exLive] k0 =
            .finite q → (0 : ℚ) ≤ q → q ≤ (100 : ℚ) → v = .finite q)) ∧
    unclampedSumIEEE exDraw 0 { Min := 0, Max := 100 } [exFull, exLive] 0 =
      .finite (mkRat 295 2) ∧
    (runSimulationIEEE exDraw exLimits [exFull, exLive] exDeviceIEEE 0).map
        (fun r => r.1.map (fun values => values "power")) =
      some [some (.finite 100), some (.finite 0)] :=
  ⟨simulated_value_within_limits_or_nan exDraw exLimits [exFull, exLive] exDeviceIEEE 0 0
    "power" { Min := 0, Max := 100 } (by decide) (by decide) (by decide)
    (List.mem_cons_self _ _) (by norm_num), by decide!, by decide!⟩

/-- C9, as the claim states it, fails.  For the limit from -1e308 to 1e308 and
the single admitted workload with load 0 and fluctuation 0, the float64 value
of `Min + (Max - Min) * load` is NaN, no comparison with NaN holds, and the
value stored is NaN, which is not in the range of the limit.  For the limit
from 0.1 to 0.3 and a single workload with load 0.5 and fluctuation 0, the
number `Min + (Max - Min) * load` is 14411518807585587 / 2 ^ 56 and lies
between `Min` and `Max`, but the value stored is the float64
3602879701896397 / 2 ^ 54 (printed 0.2). -/
theorem single_workload_value_rounded_or_nan :
    (addWorkload (exUnmarshal exIdleInfo) exDevicemap [] none (some 3) 1000 []).1 = true ∧
    singleLoadValueIEEE exHugeLimit (toFloat64 0) = .nan ∧
    Float64.lt .nan (.finite exHugeLimit.Min) = false ∧
    Float64.lt (.finite exHugeLimit.Max) .nan = false ∧
    ((runSimulationIEEE exDraw [("power", exHugeLimit)]
      (addWorkload (exUnmarshal exIdleInfo) exDevicemap [] none (some 3) 1000 []).2
      exDeviceIEEE 0).map (fun r => r.1.map (fun values => values "power"))).map
        (fun l => l.head?) = some (some (some .nan)) ∧
    exTenths.Min + (exTenths.Max - exTenths.Min) * (1 / 2) =
      mkRat 14411518807585587 (2 ^ 56) ∧
    exTenths.Min ≤ mkRat 14411518807585587 (2 ^ 56) ∧
    mkRat 14411518807585587 (2 ^ 56) ≤ exTenths.Max ∧
    mkRat 14411518807585587 (2 ^ 56) ≠ mkRat 3602879701896397 (2 ^ 54) ∧
    ((runSimulationIEEE exDraw [("power", exTenths)] [exHalf] exDeviceIEEE 0).map
        (fun r => r.1.map (fun values => values "power"))).map (fun l => l.head?) =
      some (some (some (.finite (mkRat 3602879701896397 (2 ^ 54))))) := by
  decide!

/-- C9, amended: for a device bound to exactly one stored workload whose
current segment has fluctuation 0, and draws of `rand.Float64()` in [0,1), the
value `runSimulation` stores for a metric is, whatever the draws, the float64
value `x` of `Min + (Max - Min) * load` (the difference, the product and the
sum each rounded, an overflowing difference being an infinity) limited by the
two comparisons: `Min` when `x < Min` (and `Min ≤ Max`), `Max` when `x > Max`,
and `x` itself, NaN included, when neither comparison holds; with limit 0..100
and load 1 (100 percent) the value is exactly 100. -/
theorem single_workload_without_fluctuation (rnd : Nat → Float64)
    (limits : List (String × limitT)) (pre post : List workloadT) (wl : workloadT)
    (seg : devProfileT) (device : List (String → Option Float64)) (k dev : Nat)
    (metric : String) (limit : limitT)
    (hwf : ∀ w ∈ pre ++ wl :: post, w.activity < w.profile.length)
    (hnodup : (limits.map Prod.fst).Nodup)
    (hdev : dev < device.length)
    (hmem : (metric, limit) ∈ limits)
    (hpre : ∀ w ∈ pre, devmapGet w.devmap dev = false)
    (hpost : ∀ w ∈ post, devmapGet w.devmap dev = false)
    (hbound : devmapGet wl.devmap dev = true)
    (hseg : wl.profile[wl.activity]? = some seg)
    (hflux : seg.fluctuation = 0)
    (hrnd : ∀ j, ∃ r, rnd j = .finite r ∧ 0 ≤ r ∧ r < 1) :
    ∃ devs notes k1 values v,
      runSimulationIEEE rnd limits (pre ++ wl :: post) device k = some (devs, notes, k1) ∧
      devs[dev]? = some values ∧
      values metric = some v ∧
      (Float64.lt (singleLoadValueIEEE limit (toFloat64 seg.load)) (.finite limit.Min) = true →
        limit.Min ≤ limit.Max → v = .finite limit.Min) ∧
      (Float64.lt (singleLoadValueIEEE limit (toFloat64 seg.load)) (.finite limit.Min) = true →
        limit.Max < limit.Min → v = .finite limit.Max) ∧
      (Float64.lt (.finite limit.Max) (singleLoadValueIEEE limit (toFloat64 seg.load)) = true →
        v = .finite limit.Max) ∧
      (Float64.lt (singleLoadValueIEEE limit (toFloat64 seg.load)) (.finite limit.Min) = false →
        Float64.lt (.finite limit.Max) (singleLoadValueIEEE limit (toFloat64 seg.load)) =
          false →
        v = singleLoadValueIEEE limit (toFloat64 seg.load)) ∧
      (limit.Min = 0 → limit.Max = 100 → seg.load = 1 → v = .finite 100) := by
  obtain ⟨devs, notes, k1, hrun, hspec⟩ :=
    runSimulationFromIEEE_spec rnd limits (pre ++ wl :: post) hwf hnodup device 0 k
  obtain ⟨values, hget, hvalues⟩ := hspec dev hdev
  obtain ⟨k0, hval⟩ := hvalues metric limit hmem
  obtain ⟨r, hr, hr0, hr1⟩ := hrnd k0
  rw [Nat.zero_add,
    unclampedSumIEEE_single rnd dev limit pre post wl seg hpre hpost hbound hseg, hr,
    contributionIEEE_without_fluctuation limit seg r hflux hr0 hr1] at hval
  have hx : Float64.add (.finite limit.Min)
      (Float64.mul (Float64.sub (.finite limit.Max) (.finite limit.Min)) (toFloat64 seg.load)) =
      singleLoadValueIEEE limit (toFloat64 seg.load) := rfl
  rw [hx] at hval
  obtain ⟨c1, c2, c3, c4⟩ := limitValueIEEE_cases limit
    (singleLoadValueIEEE limit (toFloat64 seg.load))
  refine ⟨devs, notes, k1, values, _, hrun, hget, hval, c1, c2, c3, c4, ?_⟩
  intro hmin hmax hload
  have hlimit : limit = { Min := 0, Max := 100 } := by
    cases limit
    simp only at hmin hmax
    simp [hmin, hmax]
  rw [hlimit, hload]
  decide!

theorem single_workload_without_fluctuation_witness :
    (∃ devs notes k1 values v,
      runSimulationIEEE exDraw [("power", exTenths)] ([] ++ exHalf :: []) exDeviceIEEE 0 =
        some (devs, notes, k1) ∧
      devs[0]? = some values ∧
      values "power" = some v ∧
      (Float64.lt (singleLoadValueIEEE exTenths (toFloat64 (1 / 2)))
          (.finite exTenths.Min) = true →
        exTenths.Min ≤ exTenths.Max → v = .finite exTenths.Min) ∧
      (Float64.lt (singleLoadValueIEEE exTenths (toFloat64 (1 / 2)))
          (.finite exTenths.Min) = true →
        exTenths.Max < exTenths.Min → v = .finite exTenths.Max) ∧
      (Float64.lt (.finite exTenths.Max)
          (singleLoadValueIEEE exTenths (toFloat64 (1 / 2))) = true →
        v = .finite exTenths.Max) ∧
      (Float64.lt (singleLoadValueIEEE exTenths (toFloat64 (1 / 2)))
          (.finite exTenths.Min) = false →
        Float64.lt (.finite exTenths.Max)
          (singleLoadValueIEEE exTenths (toFloat64 (1 / 2))) = false →
        v = singleLoadValueIEEE exTenths (toFloat64 (1 / 2))) ∧
      (exTenths.Min = 0 → exTenths.Max = 100 → (1 / 2 : ℚ) = 1 → v = .finite 100)) ∧
    singleLoadValueIEEE exTenths (toFloat64 (1 / 2)) =
      .finite (mkRat 3602879701896397 (2 ^ 54)) ∧
    (runSimulationIEEE exDraw [("power", exTenths)] [exHalf] exDeviceIEEE 0).map
        (fun r => r.1.map (fun values => values "power")) =
      some [some (.finite (mkRat 3602879701896397 (2 ^ 54))), some (.finite exTenths.Min)] ∧
    (runSimulationIEEE exDraw exLimits [exFull] exDeviceIEEE 0).map
        (fun r => r.1.map (fun values => values "power")) =
      some [some (.finite 100), some (.finite 0)] :=
  ⟨single_workload_without_fluctuation exDraw [("power", exTenths)] [] [] exHalf
    { load := 1 / 2, fluctuation := 0, deadline := 100, seconds := 100 } exDeviceIEEE 0 0
    "power" exTenths (by decide) (by decide) (by decide) (List.mem_cons_self _ _)
    (by decide) (by decide) (by decide) rfl rfl
    (fun _ => ⟨1 / 4, rfl, by norm_num, by norm_num⟩), by decide!, by decide!, by decide!⟩

end FakedevExporter
